import Mathlib

/-!
Registration form validator (`src/js/main.js`, class `FormValidator`).

A shallow embedding of the JavaScript class `FormValidator` and the facts proved about it.

* JavaScript strings are sequences of UTF-16 code units (`JSString`); `length`, `trim` and the
  two regular expressions of the source (which carry no `u` flag) all work on code units.
* The two regular expressions are embedded as syntax trees (`RegExp`) and run by a
  derivative matcher (`RegExp.test`).
* The page is a tree of elements (`Node`); an element reference is the path of child
  indices that leads to it from the document root.
* The controller is the record `FormValidator` (`doc`, `form`, `errors`, `effects`); a method
  that can throw returns a `Completion` together with the state it leaves behind.

Embedded: the three rule functions, `validateForm`, `validateField`, `displayErrors`,
`submitForm`, `handleSubmit`, `showFieldError`, `clearFieldError`, `clearAllErrors`, and the
events `init` binds them to (`FormValidator.step`).
-/

namespace SancosLk

/-! ## JavaScript strings -/

/-- A JavaScript string: its UTF-16 code units. -/
abbrev JSString := List Nat

/-- UTF-16 encoding of one Unicode scalar value. -/
def utf16 (c : Nat) : List Nat :=
  if c < 0x10000 then [c]
  else [0xD800 + (c - 0x10000) / 0x400, 0xDC00 + (c - 0x10000) % 0x400]

/-- The JavaScript string written as the literal `s`. -/
def lit (s : String) : JSString :=
  s.toList.flatMap (fun c => utf16 c.toNat)

/-- ECMAScript `WhiteSpace` and `LineTerminator` code points: what `String.prototype.trim`
strips and what `\s` matches. -/
def isWhiteSpace (c : Nat) : Bool :=
  c == 0x09 || c == 0x0A || c == 0x0B || c == 0x0C || c == 0x0D || c == 0x20 ||
  c == 0xA0 || c == 0x1680 || (0x2000 ≤ c && c ≤ 0x200A) || c == 0x2028 || c == 0x2029 ||
  c == 0x202F || c == 0x205F || c == 0x3000 || c == 0xFEFF

/-- JavaScript `String.prototype.trimStart`. -/
def trimStart : JSString → JSString
  | [] => []
  | c :: s => if isWhiteSpace c then trimStart s else c :: s

/-- JavaScript `String.prototype.trim`: white space is stripped from both ends. -/
def trim (s : JSString) : JSString :=
  (trimStart (trimStart s).reverse).reverse

/-! ## JavaScript values returned by the rule functions -/

/-- The values the rule functions return: `x && y` yields the string `x` when it is empty
and the boolean `y` otherwise. -/
inductive JSVal where
  | str (s : JSString)
  | bool (b : Bool)
  deriving DecidableEq, Repr

/-- ECMAScript `ToBoolean`. -/
def JSVal.truthy : JSVal → Bool
  | .str s => !s.isEmpty
  | .bool b => b

/-- The expression `s && b` for a string `s` and a boolean `b`. -/
def strAnd (s : JSString) (b : Bool) : JSVal :=
  if (JSVal.str s).truthy then .bool b else .str s

/-! ## Regular expressions -/

/-- Syntax of the regular expressions used by the source: character classes, sequence and
`+`, with the auxiliary forms the derivative needs. -/
inductive RegExp where
  | empty
  | eps
  | cls (p : Nat → Bool)
  | alt (r s : RegExp)
  | seq (r s : RegExp)
  | star (r : RegExp)
  | plus (r : RegExp)

namespace RegExp

/-- Whether the expression matches the empty string. -/
def nullable : RegExp → Bool
  | empty => false
  | eps => true
  | cls _ => false
  | alt r s => r.nullable || s.nullable
  | seq r s => r.nullable && s.nullable
  | star _ => true
  | plus r => r.nullable

/-- Brzozowski derivative with respect to one code unit. -/
def deriv : RegExp → Nat → RegExp
  | empty, _ => empty
  | eps, _ => empty
  | cls p, c => if p c then eps else empty
  | alt r s, c => alt (r.deriv c) (s.deriv c)
  | seq r s, c =>
      if r.nullable then alt (seq (r.deriv c) s) (s.deriv c) else seq (r.deriv c) s
  | star r, c => seq (r.deriv c) (star r)
  | plus r, c => seq (r.deriv c) (star r)

/-- Whether the whole input matches the expression. -/
def fullMatch : RegExp → JSString → Bool
  | r, [] => r.nullable
  | r, c :: s => (r.deriv c).fullMatch s

/-- JavaScript `RegExp.prototype.test` for a pattern of the form `/^r$/` without flags: both patterns of
the source are anchored at both ends, so `test` succeeds exactly when the whole input
matches `r`. -/
def test (r : RegExp) (s : JSString) : Bool := r.fullMatch s

end RegExp

/-- The class `[^\s@]`. -/
def notSpaceAt (c : Nat) : Bool := !(isWhiteSpace c || c == 0x40)

/-- The literal `@`. -/
def isAt (c : Nat) : Bool := c == 0x40

/-- The escaped literal `\.`. -/
def isDot (c : Nat) : Bool := c == 0x2E

/-- The class `[a-zA-Zа-яА-ЯёЁ\s]`. -/
def nameChar (c : Nat) : Bool :=
  (0x61 ≤ c && c ≤ 0x7A) || (0x41 ≤ c && c ≤ 0x5A) || (0x430 ≤ c && c ≤ 0x44F) ||
  (0x410 ≤ c && c ≤ 0x42F) || c == 0x451 || c == 0x401 || isWhiteSpace c

/-- The pattern `/^[^\s@]+@[^\s@]+\.[^\s@]+$/`. -/
def emailRegex : RegExp :=
  .seq (.plus (.cls notSpaceAt)) (.seq (.cls isAt) (.seq (.plus (.cls notSpaceAt))
    (.seq (.cls isDot) (.plus (.cls notSpaceAt)))))

/-- The pattern `/^[a-zA-Zа-яА-ЯёЁ\s]+$/`. -/
def nameRegex : RegExp := .plus (.cls nameChar)

/-! ## The rule functions -/

/-- JavaScript `validateEmail(email)`: `email && emailRegex.test(email)`. -/
def validateEmail (email : JSString) : JSVal :=
  strAnd email (emailRegex.test email)

/-- JavaScript `validatePassword(password)`: `password && password.length >= 6`. -/
def validatePassword (password : JSString) : JSVal :=
  strAnd password (decide (password.length ≥ 6))

/-- JavaScript `validateFullName(fullName)`: `nameRegex.test(fullName)`. -/
def validateFullName (fullName : JSString) : Bool :=
  nameRegex.test fullName

/-! ## The document tree -/

/-- Own data of an element: local name, class token set (`classList`), the `placeholder` and
`type` attributes (the latter in its canonical lower-case form), the `value` and `checked`
properties of an input, the text assigned through `textContent`, and inline style. -/
structure Attrs where
  tag : String
  classes : List String
  placeholder : Option String
  type : Option String
  value : JSString
  checked : Bool
  text : String
  style : List (String × String)
  deriving DecidableEq, Repr

/-- An element with its child elements, in document order. -/
inductive Node where
  | mk (attrs : Attrs) (children : List Node)
  deriving Repr

/-- A reference to an element: the child indices leading to it from the root. -/
abbrev Path := List Nat

namespace Node

/-- Own data of the element. -/
def attrs : Node → Attrs
  | mk a _ => a

/-- Child elements. -/
def children : Node → List Node
  | mk _ cs => cs

/-- The element a path refers to, if there is one. -/
def get? : Node → Path → Option Node
  | n, [] => some n
  | n, i :: p =>
    match n.children[i]? with
    | some c => c.get? p
    | none => none

/-- Replace the element at a path by its image under `f` (nothing happens when the path
refers to no element). -/
def update (f : Node → Node) : Node → Path → Node
  | n, [] => f n
  | n, i :: p =>
    match n.children[i]? with
    | some c => mk n.attrs (n.children.set i (c.update f p))
    | none => n

/-- JavaScript `Element.remove()` for the element at a path: it is taken out of its parent's children.
The root has no parent element and stays. -/
def remove : Node → Path → Node
  | n, [] => n
  | n, [i] => mk n.attrs (n.children.eraseIdx i)
  | n, i :: j :: p =>
    match n.children[i]? with
    | some c => mk n.attrs (n.children.set i (c.remove (j :: p)))
    | none => n

/-- The method `Element.closest(sel)`: the nearest element matching `sel` among the element
at the path and its ancestors. A path that refers to no element yields nothing. -/
def closest (sel : Node → Bool) : Node → Path → Option Path
  | n, [] => if sel n then some [] else none
  | n, i :: p =>
    match n.children[i]? with
    | none => none
    | some c =>
      match c.get? p with
      | none => none
      | some _ =>
        match c.closest sel p with
        | some q => some (i :: q)
        | none => if sel n then some [] else none

mutual
/-- First proper descendant matching `sel`, in document (pre-) order, as a relative path. -/
def find (sel : Node → Bool) : Node → Option Path
  | mk _ cs => findList sel cs 0
/-- First match among the given siblings (the first of which has index `i`) and their
descendants. -/
def findList (sel : Node → Bool) : List Node → Nat → Option Path
  | [], _ => none
  | c :: cs, i =>
    if sel c then some [i]
    else
      match c.find sel with
      | some q => some (i :: q)
      | none => findList sel cs (i + 1)
end

mutual
/-- Take every proper descendant matching `sel` out of the tree: the net effect of
`querySelectorAll(sel).forEach(el => el.remove())`. -/
def removeAll (sel : Node → Bool) : Node → Node
  | mk a cs => mk a (removeAllList sel cs)
/-- The siblings that remain, each pruned in turn. -/
def removeAllList (sel : Node → Bool) : List Node → List Node
  | [] => []
  | c :: cs =>
    if sel c then removeAllList sel cs else c.removeAll sel :: removeAllList sel cs
end

mutual
/-- Apply `f` to every proper descendant matching `sel`: the net effect of
`querySelectorAll(sel).forEach(f)` when `f` changes own data only. -/
def forEachMatch (sel : Node → Bool) (f : Attrs → Attrs) : Node → Node
  | mk a cs => mk a (forEachMatchList sel f cs)
/-- The siblings after the traversal. -/
def forEachMatchList (sel : Node → Bool) (f : Attrs → Attrs) : List Node → List Node
  | [] => []
  | c :: cs =>
    (let c1 := c.forEachMatch sel f
     if sel c then mk (f c1.attrs) c1.children else c1) :: forEachMatchList sel f cs
end

/-- JavaScript `scope.querySelector(sel)` for the element at path `scope` of the document. -/
def querySelector (doc : Node) (scope : Path) (sel : Node → Bool) : Option Path :=
  match doc.get? scope with
  | some n =>
    match n.find sel with
    | some q => some (scope ++ q)
    | none => none
  | none => none

end Node

/-! ## Selectors and class lists -/

/-- The class selector `.c`. -/
def hasClass (c : String) (n : Node) : Bool := n.attrs.classes.contains c

/-- The selector `input[placeholder="p"]`. -/
def inputWithPlaceholder (p : String) (n : Node) : Bool :=
  n.attrs.tag == "input" && n.attrs.placeholder == some p

/-- The selector `input[type="checkbox"]`. -/
def inputCheckbox (n : Node) : Bool :=
  n.attrs.tag == "input" && n.attrs.type == some "checkbox"

/-- JavaScript `classList.add(c)`. -/
def classListAdd (classes : List String) (c : String) : List String :=
  if classes.contains c then classes else classes ++ [c]

/-- JavaScript `classList.remove(c)`. -/
def classListRemove (classes : List String) (c : String) : List String :=
  classes.filter (fun x => x != c)

/-- JavaScript `el.classList.add(c)` on an element. -/
def addClass (c : String) (n : Node) : Node :=
  .mk { n.attrs with classes := classListAdd n.attrs.classes c } n.children

/-- JavaScript `el.classList.remove(c)` on an element. -/
def removeClass (c : String) (n : Node) : Node :=
  .mk { n.attrs with classes := classListRemove n.attrs.classes c } n.children

/-- JavaScript `el.appendChild(child)` for a new child. -/
def appendChild (child : Node) (n : Node) : Node :=
  .mk n.attrs (n.children ++ [child])

/-! ## The controller -/

/-- The object `this.errors`: one optional message per key the source ever writes. -/
structure Errors where
  email : Option String
  password : Option String
  confirmPassword : Option String
  checkbox : Option String
  fullName : Option String
  deriving DecidableEq, Repr

/-- The empty object `{}`. -/
def Errors.none : Errors := ⟨.none, .none, .none, .none, .none⟩

/-- The object `data` built by `submitForm`. -/
structure FormRecord where
  email : JSString
  organization : JSString
  fullName : JSString
  password : JSString
  deriving DecidableEq, Repr

/-- Effects outside the document and the controller. -/
inductive Effect where
  | preventDefault
  | consoleLog (label : String) (data : FormRecord)
  | alert (message : String)
  deriving DecidableEq, Repr

/-- How a method call ends: it returns a value or throws. -/
inductive Completion (α : Type) where
  | normal (value : α)
  | throw (error : String)
  deriving DecidableEq, Repr

/-- The error thrown when a property of `null` is read. -/
def typeError : String := "TypeError"

/-- State of a bound controller: the document, the reference `this.form`, the object
`this.errors`, and the effects performed so far. -/
structure FormValidator where
  doc : Node
  form : Path
  errors : Errors
  effects : List Effect

/-- The fixed message of the email rule. -/
def msgEmail : String := "Введите корректный email адрес"
/-- The fixed message of the password rule. -/
def msgPassword : String := "Пароль должен содержать минимум 6 символов"
/-- The fixed message of the confirmation rule. -/
def msgConfirmPassword : String := "Пароли не совпадают"
/-- The fixed message of the consent rule. -/
def msgCheckbox : String := "Необходимо дать согласие на обработку персональных данных"
/-- The fixed message of the full-name rule. -/
def msgFullName : String := "ФИО должно содержать только буквы и пробелы"

/-- The placeholder of the email input. -/
def phEmail : String := "E-mail*"
/-- The placeholder of the organization input. -/
def phOrganization : String := "Название организации"
/-- The placeholder of the full-name input. -/
def phFullName : String := "ФИО"
/-- The placeholder of the password input. -/
def phPassword : String := "Пароль"
/-- The placeholder of the confirmation input. -/
def phConfirmPassword : String := "Подтверждение пароля"

namespace FormValidator

/-- JavaScript `this.form.querySelector(sel)`. -/
def query (s : FormValidator) (sel : Node → Bool) : Option Path :=
  s.doc.querySelector s.form sel

/-- The `value` property of the element at a path. -/
def value (s : FormValidator) (p : Path) : JSString :=
  match s.doc.get? p with
  | some n => n.attrs.value
  | none => []

/-- The `checked` property of the element at a path. -/
def checked (s : FormValidator) (p : Path) : Bool :=
  match s.doc.get? p with
  | some n => n.attrs.checked
  | none => false

/-- JavaScript `input.closest('.form_input') || input.closest('.b-label')`. -/
def container (s : FormValidator) (input : Path) : Option Path :=
  match s.doc.closest (hasClass "form_input") input with
  | some c => some c
  | none => s.doc.closest (hasClass "b-label") input

/-- The element `showFieldError` creates. -/
def errorElement (message : String) : Node :=
  .mk { tag := "div", classes := ["error-message"], placeholder := none, type := none,
        value := [], checked := false, text := message,
        style := [("color", "#ff0000"), ("fontSize", "12px"), ("marginTop", "5px")] } []

/-- JavaScript `showFieldError(input, message)`. -/
def showFieldError (s : FormValidator) (input : Path) (message : String) : FormValidator :=
  match s.container input with
  | some c =>
    let doc := s.doc.update (appendChild (errorElement message)) c
    { s with doc := doc.update (addClass "has-error") c }
  | none => s

/-- JavaScript `clearFieldError(input)`. -/
def clearFieldError (s : FormValidator) (input : Path) : FormValidator :=
  match s.container input with
  | some c =>
    let doc :=
      match s.doc.querySelector c (hasClass "error-message") with
      | some e => s.doc.remove e
      | none => s.doc
    { s with doc := doc.update (removeClass "has-error") c }
  | none => s

/-- JavaScript `clearAllErrors()`. -/
def clearAllErrors (s : FormValidator) : FormValidator :=
  let doc := s.doc.update (Node.removeAll (hasClass "error-message")) s.form
  let doc := doc.update (Node.forEachMatch (hasClass "has-error")
    (fun a => { a with classes := classListRemove a.classes "has-error" })) s.form
  { s with errors := Errors.none, doc := doc }

/-- JavaScript `validateForm()`. Reading `.value` or `.checked` of a query that found nothing throws;
`errors` stands for the object `this.errors`, which the method mutates in place. -/
def validateForm (s : FormValidator) : Completion Bool × FormValidator :=
  let email := s.query (inputWithPlaceholder phEmail)
  let _organization := s.query (inputWithPlaceholder phOrganization)
  let fullName := s.query (inputWithPlaceholder phFullName)
  let password := s.query (inputWithPlaceholder phPassword)
  let confirmPassword := s.query (inputWithPlaceholder phConfirmPassword)
  let checkbox := s.query inputCheckbox
  let errors := s.errors
  let isValid := true
  match email with
  | none => (.throw typeError, { s with errors := errors })
  | some email =>
  let failed := !(validateEmail (trim (s.value email))).truthy
  let errors := if failed then { errors with email := some msgEmail } else errors
  let isValid := if failed then false else isValid
  match password with
  | none => (.throw typeError, { s with errors := errors })
  | some password =>
  let failed := !(validatePassword (s.value password)).truthy
  let errors := if failed then { errors with password := some msgPassword } else errors
  let isValid := if failed then false else isValid
  match confirmPassword with
  | none => (.throw typeError, { s with errors := errors })
  | some confirmPassword =>
  let failed := s.value password != s.value confirmPassword
  let errors :=
    if failed then { errors with confirmPassword := some msgConfirmPassword } else errors
  let isValid := if failed then false else isValid
  match checkbox with
  | none => (.throw typeError, { s with errors := errors })
  | some checkbox =>
  let failed := !s.checked checkbox
  let errors := if failed then { errors with checkbox := some msgCheckbox } else errors
  let isValid := if failed then false else isValid
  match fullName with
  | none => (.throw typeError, { s with errors := errors })
  | some fullName =>
  let failed := (JSVal.str (trim (s.value fullName))).truthy &&
    !validateFullName (trim (s.value fullName))
  let errors := if failed then { errors with fullName := some msgFullName } else errors
  let isValid := if failed then false else isValid
  (.normal isValid, { s with errors := errors })

/-- One statement `if (this.errors.k) { this.showFieldError(input, this.errors.k); }` of
`displayErrors`: a present, non-empty message is shown; `showFieldError(null, …)` throws. -/
def showIfError (s : FormValidator) (input : Option Path) (message : Option String) :
    Completion Unit × FormValidator :=
  match message with
  | some m =>
    if m ≠ "" then
      match input with
      | some i => (.normal (), s.showFieldError i m)
      | none => (.throw typeError, s)
    else (.normal (), s)
  | none => (.normal (), s)

/-- JavaScript `displayErrors()`. -/
def displayErrors (s : FormValidator) : Completion Unit × FormValidator :=
  let email := s.query (inputWithPlaceholder phEmail)
  let password := s.query (inputWithPlaceholder phPassword)
  let confirmPassword := s.query (inputWithPlaceholder phConfirmPassword)
  let fullName := s.query (inputWithPlaceholder phFullName)
  let checkbox := s.query inputCheckbox
  match s.showIfError email s.errors.email with
  | (.throw e, s) => (.throw e, s)
  | (.normal _, s) =>
  match s.showIfError password s.errors.password with
  | (.throw e, s) => (.throw e, s)
  | (.normal _, s) =>
  match s.showIfError confirmPassword s.errors.confirmPassword with
  | (.throw e, s) => (.throw e, s)
  | (.normal _, s) =>
  match s.showIfError fullName s.errors.fullName with
  | (.throw e, s) => (.throw e, s)
  | (.normal _, s) =>
  s.showIfError checkbox s.errors.checkbox

/-- JavaScript `submitForm()`. The `FormData` object the method constructs is never used and
is left out. -/
def submitForm (s : FormValidator) : Completion Unit × FormValidator :=
  match s.query (inputWithPlaceholder phEmail) with
  | none => (.throw typeError, s)
  | some email =>
  match s.query (inputWithPlaceholder phOrganization) with
  | none => (.throw typeError, s)
  | some organization =>
  match s.query (inputWithPlaceholder phFullName) with
  | none => (.throw typeError, s)
  | some fullName =>
  match s.query (inputWithPlaceholder phPassword) with
  | none => (.throw typeError, s)
  | some password =>
  let data : FormRecord :=
    { email := trim (s.value email), organization := trim (s.value organization),
      fullName := trim (s.value fullName), password := s.value password }
  (.normal (), { s with effects := s.effects ++
    [.consoleLog "Данные формы:" data, .alert "Форма успешно отправлена!"] })

/-- JavaScript `handleSubmit(e)`; `e.preventDefault()` is recorded as an effect. -/
def handleSubmit (s : FormValidator) : Completion Unit × FormValidator :=
  let s : FormValidator := { s with effects := s.effects ++ [Effect.preventDefault] }
  let s := s.clearAllErrors
  match s.validateForm with
  | (.throw e, s) => (.throw e, s)
  | (.normal isValid, s) =>
    if isValid then s.submitForm else s.displayErrors

end FormValidator

/-! ## The inputs of the form and the five rules -/

/-- References to the five inputs `validateForm` reads. -/
structure Fields where
  email : Path
  fullName : Path
  password : Path
  confirmPassword : Path
  checkbox : Path
  deriving DecidableEq, Repr

namespace FormValidator

/-- The five queries of `validateForm` find the given inputs. -/
def HasFields (s : FormValidator) (fs : Fields) : Prop :=
  s.query (inputWithPlaceholder phEmail) = some fs.email ∧
  s.query (inputWithPlaceholder phFullName) = some fs.fullName ∧
  s.query (inputWithPlaceholder phPassword) = some fs.password ∧
  s.query (inputWithPlaceholder phConfirmPassword) = some fs.confirmPassword ∧
  s.query inputCheckbox = some fs.checkbox

instance (s : FormValidator) (fs : Fields) : Decidable (s.HasFields fs) := by
  unfold HasFields; infer_instance

/-- The email rule passes on the current value: the negation of the condition
`!this.validateEmail(email.value.trim())`. -/
def emailOk (s : FormValidator) (fs : Fields) : Bool :=
  (validateEmail (trim (s.value fs.email))).truthy

/-- The password rule passes on the current value: the negation of
`!this.validatePassword(password.value)`. -/
def passwordOk (s : FormValidator) (fs : Fields) : Bool :=
  (validatePassword (s.value fs.password)).truthy

/-- The confirmation rule passes on the current values: the negation of
`password.value !== confirmPassword.value`. -/
def confirmPasswordOk (s : FormValidator) (fs : Fields) : Bool :=
  !(s.value fs.password != s.value fs.confirmPassword)

/-- The consent rule passes: the negation of `!checkbox.checked`. -/
def checkboxOk (s : FormValidator) (fs : Fields) : Bool :=
  s.checked fs.checkbox

/-- The full-name rule passes on the current value: the negation of
`fullName.value.trim() && !this.validateFullName(fullName.value.trim())`. -/
def fullNameOk (s : FormValidator) (fs : Fields) : Bool :=
  !((JSVal.str (trim (s.value fs.fullName))).truthy &&
    !validateFullName (trim (s.value fs.fullName)))

/-- What a rule leaves under its key: the old entry when it passes, its message otherwise. -/
def entry (ok : Bool) (old : Option String) (message : String) : Option String :=
  if ok then old else some message

/-- The error mapping holding exactly the failures of the current values. -/
def failures (s : FormValidator) (fs : Fields) : Errors :=
  { email := entry (s.emailOk fs) none msgEmail
    password := entry (s.passwordOk fs) none msgPassword
    confirmPassword := entry (s.confirmPasswordOk fs) none msgConfirmPassword
    checkbox := entry (s.checkboxOk fs) none msgCheckbox
    fullName := entry (s.fullNameOk fs) none msgFullName }

/-- All five rules pass on the current values. -/
def allOk (s : FormValidator) (fs : Fields) : Bool :=
  s.emailOk fs && s.passwordOk fs && s.confirmPasswordOk fs && s.checkboxOk fs &&
    s.fullNameOk fs

end FormValidator

/-! ## A concrete page -/

/-- An element without input data. -/
def element (tag : String) (classes : List String) (children : List Node) : Node :=
  .mk { tag := tag, classes := classes, placeholder := none, type := none, value := [],
        checked := false, text := "", style := [] } children

/-- A text-like input with a placeholder and a value. -/
def textInput (placeholder : String) (value : String) : Node :=
  .mk { tag := "input", classes := [], placeholder := some placeholder, type := some "text",
        value := lit value, checked := false, text := "", style := [] } []

/-- A checkbox input. -/
def checkboxInput (checked : Bool) : Node :=
  .mk { tag := "input", classes := [], placeholder := none, type := some "checkbox",
        value := lit "on", checked := checked, text := "", style := [] } []

/-- A registration page: the form `.reg_form_block form` with each input in a container of
its own, bound to a fresh controller. -/
def examplePage (email organization fullName password confirmPassword : String)
    (consent : Bool) : FormValidator :=
  { doc := element "html" [] [element "body" [] [element "div" ["reg_form_block"]
      [element "form" [] [
        element "div" ["form_input"] [textInput phEmail email],
        element "div" ["form_input"] [textInput phOrganization organization],
        element "div" ["form_input"] [textInput phFullName fullName],
        element "div" ["form_input"] [textInput phPassword password],
        element "div" ["form_input"] [textInput phConfirmPassword confirmPassword],
        element "label" ["b-label"] [checkboxInput consent]]]]]
    form := [0, 0, 0]
    errors := Errors.none
    effects := [] }

/-- The inputs of `examplePage`. -/
def exampleFields : Fields :=
  { email := [0, 0, 0, 0, 0], fullName := [0, 0, 0, 2, 0], password := [0, 0, 0, 3, 0],
    confirmPassword := [0, 0, 0, 4, 0], checkbox := [0, 0, 0, 5, 0] }

/-! ## Character classes named by the specification -/

/-- ASCII digits `0`–`9`. -/
def isDigit (c : Nat) : Bool := 0x30 ≤ c && c ≤ 0x39

/-- ASCII punctuation: the printable ASCII characters other than space, digits and
letters. -/
def isPunctuation (c : Nat) : Bool :=
  (0x21 ≤ c && c ≤ 0x2F) || (0x3A ≤ c && c ≤ 0x40) || (0x5B ≤ c && c ≤ 0x60) ||
  (0x7B ≤ c && c ≤ 0x7E)

/-- The letters the full-name pattern lists: `a`–`z`, `A`–`Z`, `а`–`я`, `А`–`Я`, `ё`, `Ё`. -/
def isNameLetter (c : Nat) : Bool :=
  (0x61 ≤ c && c ≤ 0x7A) || (0x41 ≤ c && c ≤ 0x5A) || (0x430 ≤ c && c ≤ 0x44F) ||
  (0x410 ≤ c && c ≤ 0x42F) || c == 0x451 || c == 0x401

/-! ## Observations on the document -/

mutual
/-- Number of elements matching `sel` among an element and its descendants. -/
def Node.count (sel : Node → Bool) : Node → Nat
  | .mk a cs => (if sel (.mk a cs) then 1 else 0) + Node.countList sel cs
/-- Number of elements matching `sel` among the given siblings and their descendants. -/
def Node.countList (sel : Node → Bool) : List Node → Nat
  | [] => 0
  | c :: cs => c.count sel + Node.countList sel cs
end

namespace FormValidator

/-- Number of error-annotation elements (class `error-message`) inside the element at a
path: the elements `querySelectorAll('.error-message')` would list there. -/
def annotations (s : FormValidator) (c : Path) : Nat :=
  match s.doc.get? c with
  | some n => Node.countList (hasClass "error-message") n.children
  | none => 0

/-- Whether the element at a path carries the `has-error` marker. -/
def marked (s : FormValidator) (c : Path) : Bool :=
  match s.doc.get? c with
  | some n => hasClass "has-error" n
  | none => false

end FormValidator

/-- A page on which the password and confirmation inputs share one container. -/
def sharedContainerPage (password confirmPassword : String) : FormValidator :=
  { doc := element "html" [] [element "body" [] [element "div" ["reg_form_block"]
      [element "form" [] [
        element "div" ["form_input"] [textInput phEmail "user@site.ru"],
        element "div" ["form_input"] [textInput phOrganization ""],
        element "div" ["form_input"] [textInput phFullName ""],
        element "div" ["form_input"]
          [textInput phPassword password, textInput phConfirmPassword confirmPassword],
        element "label" ["b-label"] [checkboxInput true]]]]]
    form := [0, 0, 0]
    errors := Errors.none
    effects := [] }

/-- A selector that looks at the element's own data only, as class, tag and attribute
selectors do. -/
def Node.OwnData (sel : Node → Bool) : Prop :=
  ∀ (a : Attrs) (cs cs' : List Node), sel (Node.mk a cs) = sel (Node.mk a cs')

/-! ## Single-field validation -/

/-- Where the element at path `p` is found once the element at path `e` has been taken out
of the document; nothing when it was that element or inside it. The root is never taken
out. -/
def relocate : Path → Path → Option Path
  | [], p => some p
  | _ :: _, [] => some []
  | [i], j :: q =>
    if j < i then some (j :: q) else if j = i then none else some ((j - 1) :: q)
  | i :: k :: e, j :: q =>
    if i = j then (relocate (k :: e) q).map (fun r => i :: r) else some (j :: q)

/-- A reference held while an element may have been removed. -/
def relocateAfter (removed : Option Path) (p : Path) : Option Path :=
  match removed with
  | some e => relocate e p
  | none => some p

namespace FormValidator

/-- JavaScript `input.getAttribute('placeholder')`. -/
def placeholder (s : FormValidator) (p : Path) : Option String :=
  match s.doc.get? p with
  | some n => n.attrs.placeholder
  | none => none

/-- The element `clearFieldError(input)` takes out of the document, if any. -/
def removedBy (s : FormValidator) (input : Path) : Option Path :=
  match s.container input with
  | some c => s.doc.querySelector c (hasClass "error-message")
  | none => none

/-- JavaScript `showFieldError(input, message)` for a reference that may have left the
document: on a detached input the method can only touch the detached subtree, so the
document stays as it is. -/
def showFieldErrorAt (s : FormValidator) (input : Option Path) (message : String) :
    FormValidator :=
  match input with
  | some i => s.showFieldError i message
  | none => s

/-- JavaScript `this.form.querySelector('input[placeholder="Пароль"]').value` as
`validateField(input)` reads it, after its call of `clearFieldError(input)`; nothing when the
query finds no element. When the form itself has left the document with the removed
element, its subtree is the one it had before the call. -/
def passwordAfterClear (s : FormValidator) (input : Path) : Option JSString :=
  let cleared := s.clearFieldError input
  match relocateAfter (s.removedBy input) s.form with
  | some form =>
    (cleared.doc.querySelector form (inputWithPlaceholder phPassword)).map cleared.value
  | none => (s.query (inputWithPlaceholder phPassword)).map s.value

/-- JavaScript `validateField(input)`. The references `input` and `this.form` are held across
the call of `clearFieldError`, which may remove an element: they are followed to where the
elements are afterwards. Reading `.value` of a password query that found nothing throws. -/
def validateField (s : FormValidator) (input : Path) : Completion Unit × FormValidator :=
  let value := trim (s.value input)
  let placeholder := s.placeholder input
  let password := s.passwordAfterClear input
  let input1 := relocateAfter (s.removedBy input) input
  let s := s.clearFieldError input
  if placeholder = some phEmail then
    if !(validateEmail value).truthy then
      (.normal (), s.showFieldErrorAt input1 msgEmail)
    else (.normal (), s)
  else if placeholder = some phPassword then
    if !(validatePassword value).truthy then
      (.normal (), s.showFieldErrorAt input1 msgPassword)
    else (.normal (), s)
  else if placeholder = some phConfirmPassword then
    match password with
    | none => (.throw typeError, s)
    | some password =>
      if value != password then
        (.normal (), s.showFieldErrorAt input1 msgConfirmPassword)
      else (.normal (), s)
  else if placeholder = some phFullName then
    if (JSVal.str value).truthy && !validateFullName value then
      (.normal (), s.showFieldErrorAt input1 msgFullName)
    else (.normal (), s)
  else (.normal (), s)

/-! ## Events -/

/-- The user changes the value of an input. -/
def setValue (s : FormValidator) (input : Path) (value : JSString) : FormValidator :=
  { s with doc := s.doc.update (fun n => .mk { n.attrs with value := value } n.children) input }

/-- The user ticks or unticks a checkbox. -/
def setChecked (s : FormValidator) (input : Path) (checked : Bool) : FormValidator :=
  { s with doc :=
      s.doc.update (fun n => .mk { n.attrs with checked := checked } n.children) input }

end FormValidator

/-- What can happen to a bound form: the three events `init` listens to, and the user's
changes of field values. -/
inductive Event where
  | submit
  | blur (input : Path)
  | input (input : Path)
  | edit (input : Path) (value : JSString)
  | check (input : Path) (checked : Bool)
  deriving DecidableEq, Repr

namespace FormValidator

/-- The controller after a handler that called `clearFieldError(input)` on state `before`:
`this.form` is followed to where the form element is now. When the form itself has left the
document the reference is left as it is; no event reaches such a form any more. -/
def rebind (before : FormValidator) (input : Path) (s : FormValidator) : FormValidator :=
  match relocateAfter (before.removedBy input) before.form with
  | some form => { s with form := form }
  | none => s

/-- One event: `submit` runs `handleSubmit`, `blur` runs `validateField`, `input` runs
`clearFieldError`, as bound by `init`. A handler that throws leaves the state it reached. -/
def step (s : FormValidator) : Event → FormValidator
  | .submit => s.handleSubmit.2
  | .blur i => rebind s i (s.validateField i).2
  | .input i => rebind s i (s.clearFieldError i)
  | .edit i v => s.setValue i v
  | .check i b => s.setChecked i b

/-- A sequence of events, in order. -/
def run (s : FormValidator) (events : List Event) : FormValidator :=
  events.foldl step s

end FormValidator

/-! ## More pages -/

/-- A page whose form `.reg_form_block form` has the given children, bound to a fresh
controller. -/
def pageWith (fields : List Node) : FormValidator :=
  { doc := element "html" [] [element "body" [] [element "div" ["reg_form_block"]
      [element "form" [] fields]]]
    form := [0, 0, 0]
    errors := Errors.none
    effects := [] }

/-- A page on which all six inputs share one container. -/
def oneContainerPage (email fullName password confirmPassword : String) (consent : Bool) :
    FormValidator :=
  pageWith [element "div" ["form_input"]
    [textInput phEmail email, textInput phOrganization "", textInput phFullName fullName,
     textInput phPassword password, textInput phConfirmPassword confirmPassword,
     checkboxInput consent]]

/-- A page on which the only container of the email input is the block around the form. -/
def outerContainerPage (email : String) : FormValidator :=
  { doc := element "html" [] [element "body" [] [element "div" ["reg_form_block", "form_input"]
      [element "form" []
        [textInput phEmail email, textInput phOrganization "", textInput phFullName "",
         textInput phPassword "secret1", textInput phConfirmPassword "secret1",
         checkboxInput true]]]]
    form := [0, 0, 0]
    errors := Errors.none
    effects := [] }

/-! ## The order of display -/

/-- The message one statement `if (this.errors.k) { this.showFieldError(…) }` shows: the
entry when it is present and not empty. -/
def shown (message : Option String) : List String :=
  match message with
  | some m => if m ≠ "" then [m] else []
  | none => []

/-- The messages `displayErrors` shows, in the order of its statements: email, password,
password confirmation, full name, checkbox. -/
def displayOrder (errors : Errors) : List String :=
  shown errors.email ++ shown errors.password ++ shown errors.confirmPassword ++
    shown errors.fullName ++ shown errors.checkbox

/-- The messages of the failed rules in the order in which `validateForm` runs the rules:
email, password, password confirmation, checkbox, full name. -/
def validationOrder (errors : Errors) : List String :=
  shown errors.email ++ shown errors.password ++ shown errors.confirmPassword ++
    shown errors.checkbox ++ shown errors.fullName

namespace FormValidator

/-- The texts of the annotation elements among the children of the element at a path, in
document order. -/
def annotationTexts (s : FormValidator) (c : Path) : List String :=
  match s.doc.get? c with
  | some n => (n.children.filter (hasClass "error-message")).map (fun e => e.attrs.text)
  | none => []

end FormValidator

/-! ## Clearing the whole form -/

/-- The class change `clearAllErrors` makes on every marked element. -/
def stripMarker (a : Attrs) : Attrs :=
  { a with classes := classListRemove a.classes "has-error" }

/-- What `clearAllErrors` makes of the form element: every annotation element below it is
taken out, and every element below it loses the marker. -/
def Node.cleared (n : Node) : Node :=
  (n.removeAll (hasClass "error-message")).forEachMatch (hasClass "has-error") stripMarker

/-- No element on the way from the root down to the element at the path, that element
included, matches the selector. -/
def Node.noneAlong (sel : Node → Bool) : Node → Path → Bool
  | n, [] => !sel n
  | n, i :: p =>
    !sel n &&
      match n.children[i]? with
      | some c => c.noneAlong sel p
      | none => true

namespace FormValidator

/-- Neither the form element nor any of its ancestors is a container (class `form_input` or
`b-label`): the container of every input of the form then lies inside the form. -/
def containersInside (s : FormValidator) : Bool :=
  s.doc.noneAlong (hasClass "form_input") s.form && s.doc.noneAlong (hasClass "b-label") s.form

end FormValidator

/-- What `clearAllErrors` makes of a list of siblings below the form. -/
def Node.clearedList (cs : List Node) : List Node :=
  Node.forEachMatchList (hasClass "has-error") stripMarker
    (Node.removeAllList (hasClass "error-message") cs)

/-- What `clearAllErrors` makes of an element below the form that is not an annotation. -/
def Node.clearedChild (x : Node) : Node :=
  .mk (if hasClass "has-error" x then stripMarker x.attrs else x.attrs)
    (Node.clearedList x.children)

/-! ## Rendering the failures -/

namespace FormValidator

/-- One statement of `displayErrors` for a rule with the given outcome, on a mapping that
holds the failures: the rule's message is shown on its input when the rule failed. -/
def renderIf (t : FormValidator) (ok : Bool) (input : Path) (message : String) :
    FormValidator :=
  if ok then t else t.showFieldError input message

/-- How many annotation elements the outcome of a rule adds to the document: one when the
rule failed and its input has a container. -/
def rendered (s : FormValidator) (ok : Bool) (input : Path) : Nat :=
  if !ok && (s.container input).isSome then 1 else 0

/-- State `b` shows everything state `a` shows: every element of `a` is still there and has
the container it had, every marker is still on, and every annotation text is still in its
container. -/
def Extends (a b : FormValidator) : Prop :=
  (∀ j e, a.doc.get? j = some e →
    (∃ e', b.doc.get? j = some e') ∧ b.container j = a.container j) ∧
  (∀ c, a.marked c = true → b.marked c = true) ∧
  (∀ c x, x ∈ a.annotationTexts c → x ∈ b.annotationTexts c)

end FormValidator

/-! ## A page without the organization input -/

/-- A registration page like `examplePage` on which the organization input is missing; the
five inputs `validateForm` reads are there, each in a container of its own. -/
def noOrganizationPage (email fullName password confirmPassword : String) (consent : Bool) :
    FormValidator :=
  pageWith [
    element "div" ["form_input"] [textInput phEmail email],
    element "div" ["form_input"] [textInput phFullName fullName],
    element "div" ["form_input"] [textInput phPassword password],
    element "div" ["form_input"] [textInput phConfirmPassword confirmPassword],
    element "label" ["b-label"] [checkboxInput consent]]

/-- The inputs of `noOrganizationPage`. -/
def noOrganizationFields : Fields :=
  { email := [0, 0, 0, 0, 0], fullName := [0, 0, 0, 1, 0], password := [0, 0, 0, 2, 0],
    confirmPassword := [0, 0, 0, 3, 0], checkbox := [0, 0, 0, 4, 0] }

/-! ## The matcher -/

namespace RegExp

theorem fullMatch_empty (s : JSString) : fullMatch empty s = false := by
  induction s with
  | nil => rfl
  | cons c s ih => simpa [fullMatch, deriv] using ih

theorem fullMatch_eps (s : JSString) : fullMatch eps s = true ↔ s = [] := by
  cases s with
  | nil => simp [fullMatch, nullable]
  | cons c s => simp [fullMatch, deriv, fullMatch_empty]

theorem fullMatch_cls (p : Nat → Bool) (s : JSString) :
    fullMatch (cls p) s = true ↔ ∃ c, s = [c] ∧ p c = true := by
  cases s with
  | nil => simp [fullMatch, nullable]
  | cons c s =>
    by_cases h : p c = true
    · simp only [fullMatch, deriv, h, if_true, fullMatch_eps]
      constructor
      · rintro rfl
        exact ⟨c, rfl, h⟩
      · rintro ⟨_, hc, _⟩
        exact (List.cons.inj hc).2
    · simp only [fullMatch, deriv, h, fullMatch_empty]
      simp only [Bool.false_eq_true, if_false, fullMatch_empty, false_iff, not_exists, not_and]
      rintro x hx
      rw [← (List.cons.inj hx).1]
      exact h

theorem fullMatch_alt (r t : RegExp) (s : JSString) :
    fullMatch (alt r t) s = (fullMatch r s || fullMatch t s) := by
  induction s generalizing r t with
  | nil => rfl
  | cons c s ih => simp [fullMatch, deriv, ih]

/-- A sequence matches exactly the concatenations of a match of each part. -/
theorem fullMatch_seq (r t : RegExp) (s : JSString) :
    fullMatch (seq r t) s = true ↔
      ∃ a b, s = a ++ b ∧ fullMatch r a = true ∧ fullMatch t b = true := by
  induction s generalizing r t with
  | nil =>
    simp only [fullMatch, nullable, Bool.and_eq_true]
    constructor
    · rintro ⟨hr, ht⟩
      exact ⟨[], [], rfl, hr, ht⟩
    · rintro ⟨a, b, hab, ha, hb⟩
      obtain ⟨rfl, rfl⟩ := List.append_eq_nil.mp hab.symm
      exact ⟨ha, hb⟩
  | cons c s ih =>
    have key : fullMatch (seq r t) (c :: s) =
        (fullMatch (seq (r.deriv c) t) s || (r.nullable && fullMatch (t.deriv c) s)) := by
      by_cases hn : r.nullable = true
      · simp [fullMatch, deriv, hn, fullMatch_alt]
      · simp [fullMatch, deriv, hn]
    rw [key, Bool.or_eq_true, ih, Bool.and_eq_true]
    constructor
    · rintro (⟨a, b, rfl, ha, hb⟩ | ⟨hn, hd⟩)
      · exact ⟨c :: a, b, rfl, ha, hb⟩
      · exact ⟨[], c :: s, rfl, hn, hd⟩
    · rintro ⟨a, b, hab, ha, hb⟩
      cases a with
      | nil =>
        right
        simp only [List.nil_append] at hab
        subst hab
        exact ⟨ha, hb⟩
      | cons x a =>
        left
        simp only [List.cons_append, List.cons.injEq] at hab
        obtain ⟨rfl, rfl⟩ := hab
        exact ⟨a, b, rfl, ha, hb⟩

theorem fullMatch_star_cls (p : Nat → Bool) (s : JSString) :
    fullMatch (star (cls p)) s = true ↔ ∀ c ∈ s, p c = true := by
  induction s with
  | nil => simp [fullMatch, nullable]
  | cons c s ih =>
    have step : fullMatch (star (cls p)) (c :: s) =
        fullMatch (seq ((cls p).deriv c) (star (cls p))) s := rfl
    rw [step, fullMatch_seq]
    by_cases h : p c = true
    · simp only [deriv, h, if_true, fullMatch_eps, List.mem_cons, forall_eq_or_imp, true_and]
      rw [← ih]
      constructor
      · rintro ⟨_, b, rfl, rfl, hb⟩
        exact hb
      · intro hs
        exact ⟨[], s, rfl, rfl, hs⟩
    · simp [deriv, h, fullMatch_empty]

/-- A class under `+` matches exactly the non-empty strings over the class. -/
theorem fullMatch_plus_cls (p : Nat → Bool) (s : JSString) :
    fullMatch (plus (cls p)) s = true ↔ s ≠ [] ∧ ∀ c ∈ s, p c = true := by
  cases s with
  | nil => simp [fullMatch, nullable]
  | cons c s =>
    have step : fullMatch (plus (cls p)) (c :: s) =
        fullMatch (seq ((cls p).deriv c) (star (cls p))) s := rfl
    rw [step, fullMatch_seq]
    by_cases h : p c = true
    · simp only [deriv, h, if_true, fullMatch_eps, fullMatch_star_cls, List.mem_cons,
        forall_eq_or_imp, true_and, ne_eq, reduceCtorEq, not_false_eq_true]
      constructor
      · rintro ⟨_, b, rfl, rfl, hb⟩
        exact hb
      · intro hs
        exact ⟨[], s, rfl, rfl, hs⟩
    · simp [deriv, h, fullMatch_empty]

end RegExp

/-- The strings the email pattern accepts: `a@b.c` with non-empty parts free of white space
and `@`. -/
theorem emailRegex_test_iff (s : JSString) :
    emailRegex.test s = true ↔
      ∃ a b c, s = a ++ 0x40 :: (b ++ 0x2E :: c) ∧ a ≠ [] ∧ b ≠ [] ∧ c ≠ [] ∧
        (∀ x ∈ a, notSpaceAt x = true) ∧ (∀ x ∈ b, notSpaceAt x = true) ∧
        (∀ x ∈ c, notSpaceAt x = true) := by
  simp only [RegExp.test, emailRegex, RegExp.fullMatch_seq, RegExp.fullMatch_plus_cls,
    RegExp.fullMatch_cls, isAt, isDot, beq_iff_eq]
  constructor
  · rintro ⟨a, _, rfl, ⟨ha, ha'⟩, _, _, rfl, ⟨_, rfl, rfl⟩, b, _, rfl, ⟨hb, hb'⟩, _, c, rfl,
      ⟨_, rfl, rfl⟩, hc, hc'⟩
    exact ⟨a, b, c, by simp, ha, hb, hc, ha', hb', hc'⟩
  · rintro ⟨a, b, c, rfl, ha, hb, hc, ha', hb', hc'⟩
    exact ⟨a, _, rfl, ⟨ha, ha'⟩, _, _, rfl, ⟨_, rfl, rfl⟩, b, _, rfl, ⟨hb, hb'⟩, _, c, rfl,
      ⟨_, rfl, rfl⟩, hc, hc'⟩

/-- The strings the name pattern accepts. -/
theorem nameRegex_test_iff (s : JSString) :
    nameRegex.test s = true ↔ s ≠ [] ∧ ∀ x ∈ s, nameChar x = true := by
  simp only [RegExp.test, nameRegex, RegExp.fullMatch_plus_cls]

/-! ## `validateForm` in closed form -/

namespace FormValidator

/-- With its five inputs present `validateForm` returns normally: every rule is run, each
failure overwrites its entry, and the result is the conjunction of the five outcomes. -/
theorem validateForm_eq (s : FormValidator) (fs : Fields) (h : s.HasFields fs) :
    s.validateForm =
      (.normal (s.allOk fs),
        { s with errors :=
          { email := entry (s.emailOk fs) s.errors.email msgEmail
            password := entry (s.passwordOk fs) s.errors.password msgPassword
            confirmPassword :=
              entry (s.confirmPasswordOk fs) s.errors.confirmPassword msgConfirmPassword
            checkbox := entry (s.checkboxOk fs) s.errors.checkbox msgCheckbox
            fullName := entry (s.fullNameOk fs) s.errors.fullName msgFullName } }) := by
  obtain ⟨h1, h2, h3, h4, h5⟩ := h
  unfold validateForm
  simp only [h1, h2, h3, h4, h5, allOk, emailOk, passwordOk, confirmPasswordOk, checkboxOk,
    fullNameOk, entry]
  rcases Bool.eq_false_or_eq_true (validateEmail (trim (s.value fs.email))).truthy
    with a | a <;>
  rcases Bool.eq_false_or_eq_true (validatePassword (s.value fs.password)).truthy
    with b | b <;>
  rcases Bool.eq_false_or_eq_true (s.value fs.password != s.value fs.confirmPassword)
    with c | c <;>
  rcases Bool.eq_false_or_eq_true (s.checked fs.checkbox) with d | d <;>
  rcases Bool.eq_false_or_eq_true ((JSVal.str (trim (s.value fs.fullName))).truthy &&
    !validateFullName (trim (s.value fs.fullName))) with e | e <;>
  simp only [a, b, c, d, e] <;> rfl

end FormValidator

/-! ## Strings and rule functions -/

theorem mem_of_mem_trimStart (s : JSString) (x : Nat) (h : x ∈ trimStart s) : x ∈ s := by
  induction s with
  | nil => simp [trimStart] at h
  | cons c s ih =>
    unfold trimStart at h
    split at h
    · exact List.mem_cons_of_mem _ (ih h)
    · exact h

theorem mem_trimStart (s : JSString) (x : Nat) (h : x ∈ s) (hx : isWhiteSpace x = false) :
    x ∈ trimStart s := by
  induction s with
  | nil => simp at h
  | cons c s ih =>
    unfold trimStart
    split
    · next hc =>
      rcases List.mem_cons.mp h with rfl | h'
      · rw [hx] at hc; exact absurd hc (by simp)
      · exact ih h'
    · exact h

theorem mem_of_mem_trim (s : JSString) (x : Nat) (h : x ∈ trim s) : x ∈ s := by
  unfold trim at h
  rw [List.mem_reverse] at h
  have h1 := mem_of_mem_trimStart _ _ h
  rw [List.mem_reverse] at h1
  exact mem_of_mem_trimStart _ _ h1

theorem mem_trim (s : JSString) (x : Nat) (h : x ∈ s) (hx : isWhiteSpace x = false) :
    x ∈ trim s := by
  unfold trim
  rw [List.mem_reverse]
  apply mem_trimStart _ _ _ hx
  rw [List.mem_reverse]
  exact mem_trimStart _ _ h hx

theorem truthy_strAnd (s : JSString) (b : Bool) :
    (strAnd s b).truthy = (!s.isEmpty && b) := by
  unfold strAnd
  cases s <;> simp [JSVal.truthy]

theorem truthy_validateEmail (s : JSString) :
    (validateEmail s).truthy = emailRegex.test s := by
  unfold validateEmail
  rw [truthy_strAnd]
  cases s with
  | nil => simp [RegExp.test, RegExp.fullMatch, emailRegex, RegExp.nullable]
  | cons c s => simp

theorem truthy_validatePassword (s : JSString) :
    (validatePassword s).truthy = decide (6 ≤ s.length) := by
  unfold validatePassword
  rw [truthy_strAnd]
  cases s with
  | nil => simp
  | cons c s => simp


/-! ## Rendering leaves the controller's own data alone -/

namespace FormValidator

theorem showFieldError_frame (s : FormValidator) (input : Path) (message : String) :
    (s.showFieldError input message).errors = s.errors ∧
    (s.showFieldError input message).effects = s.effects ∧
    (s.showFieldError input message).form = s.form := by
  unfold showFieldError
  split <;> exact ⟨rfl, rfl, rfl⟩

theorem showIfError_some (s : FormValidator) (input : Path) (message : Option String) :
    (s.showIfError (some input) message).1 = .normal () ∧
    (s.showIfError (some input) message).2.errors = s.errors ∧
    (s.showIfError (some input) message).2.effects = s.effects := by
  unfold showIfError
  have hf := fun m => showFieldError_frame s input m
  split
  · split
    · exact ⟨rfl, (hf _).1, (hf _).2.1⟩
    · exact ⟨rfl, rfl, rfl⟩
  · exact ⟨rfl, rfl, rfl⟩

/-- With its five inputs present `displayErrors` returns normally and changes neither the
error mapping nor the effects. -/
theorem displayErrors_normal (s : FormValidator) (fs : Fields) (h : s.HasFields fs) :
    s.displayErrors.1 = .normal () ∧ s.displayErrors.2.errors = s.errors ∧
    s.displayErrors.2.effects = s.effects := by
  obtain ⟨h1, h2, h3, h4, h5⟩ := h
  unfold displayErrors
  simp only [h1, h2, h3, h4, h5]
  obtain ⟨a1, a2, a3⟩ := showIfError_some s fs.email s.errors.email
  generalize s.showIfError (some fs.email) s.errors.email = r1 at a1 a2 a3
  obtain ⟨c1, s1⟩ := r1
  simp only at a1 a2 a3
  subst a1
  simp only
  obtain ⟨b1, b2, b3⟩ := showIfError_some s1 fs.password s1.errors.password
  generalize s1.showIfError (some fs.password) s1.errors.password = r2 at b1 b2 b3
  obtain ⟨c2, s2⟩ := r2
  simp only at b1 b2 b3
  subst b1
  simp only
  obtain ⟨d1, d2, d3⟩ := showIfError_some s2 fs.confirmPassword s2.errors.confirmPassword
  generalize s2.showIfError (some fs.confirmPassword) s2.errors.confirmPassword = r3
    at d1 d2 d3
  obtain ⟨c3, s3⟩ := r3
  simp only at d1 d2 d3
  subst d1
  simp only
  obtain ⟨e1, e2, e3⟩ := showIfError_some s3 fs.fullName s3.errors.fullName
  generalize s3.showIfError (some fs.fullName) s3.errors.fullName = r4 at e1 e2 e3
  obtain ⟨c4, s4⟩ := r4
  simp only at e1 e2 e3
  subst e1
  simp only
  obtain ⟨f1, f2, f3⟩ := showIfError_some s4 fs.checkbox s4.errors.checkbox
  exact ⟨f1, by rw [f2, e2, d2, b2, a2], by rw [f3, e3, d3, b3, a3]⟩

end FormValidator

/-! ## Paths, lookups and updates -/

namespace Node

theorem mk_attrs_children (n : Node) : mk n.attrs n.children = n := by
  cases n; rfl

theorem children_mk (a : Attrs) (cs : List Node) : (mk a cs).children = cs := rfl

theorem attrs_mk (a : Attrs) (cs : List Node) : (mk a cs).attrs = a := rfl

theorem set_of_getElem? {α : Type} (l : List α) (i : Nat) (a : α) (h : l[i]? = some a) :
    l.set i a = l := by
  induction l generalizing i with
  | nil => rfl
  | cons x l ih =>
    cases i with
    | zero =>
      simp only [List.getElem?_cons_zero, Option.some.injEq] at h
      rw [List.set_cons_zero, h]
    | succ i =>
      simp only [List.getElem?_cons_succ] at h
      rw [List.set_cons_succ, ih i h]

theorem lt_of_getElem? {α : Type} (l : List α) (i : Nat) (a : α) (h : l[i]? = some a) :
    i < l.length := by
  rcases List.getElem?_eq_some_iff.mp h with ⟨hi, -⟩
  exact hi

theorem get?_cons (n : Node) (i : Nat) (p : Path) :
    n.get? (i :: p) = (n.children[i]?).bind (fun c => c.get? p) := by
  rw [get?]
  cases n.children[i]? <;> rfl

theorem get?_append (n : Node) (p q : Path) :
    n.get? (p ++ q) = (n.get? p).bind (fun m => m.get? q) := by
  induction p generalizing n with
  | nil => rfl
  | cons i p ih =>
    rw [List.cons_append, get?_cons, get?_cons]
    cases n.children[i]? with
    | none => rfl
    | some c => exact ih c

theorem update_cons (f : Node → Node) (n : Node) (i : Nat) (p : Path) (c : Node)
    (h : n.children[i]? = some c) :
    n.update f (i :: p) = mk n.attrs (n.children.set i (c.update f p)) := by
  rw [update]
  simp only [h]

theorem update_cons_none (f : Node → Node) (n : Node) (i : Nat) (p : Path)
    (h : n.children[i]? = none) : n.update f (i :: p) = n := by
  rw [update]
  simp only [h]

/-- Updating below the root leaves the root's own data and its number of children. -/
theorem update_cons_shape (f : Node → Node) (n : Node) (i : Nat) (p : Path) :
    (n.update f (i :: p)).attrs = n.attrs ∧
    (n.update f (i :: p)).children.length = n.children.length := by
  cases h : n.children[i]? with
  | none => rw [update_cons_none f n i p h]; exact ⟨rfl, rfl⟩
  | some c =>
    rw [update_cons f n i p c h]
    exact ⟨rfl, by rw [children_mk, List.length_set]⟩

theorem update_append (f : Node → Node) (n : Node) (p q : Path) :
    n.update f (p ++ q) = n.update (fun m => m.update f q) p := by
  induction p generalizing n with
  | nil => rfl
  | cons i p ih =>
    rw [List.cons_append]
    cases h : n.children[i]? with
    | none => rw [update_cons_none _ _ _ _ h, update_cons_none _ _ _ _ h]
    | some c => rw [update_cons _ _ _ _ c h, update_cons _ _ _ _ c h, ih]

theorem get?_update_self (f : Node → Node) (n : Node) (p : Path) (m : Node)
    (h : n.get? p = some m) : (n.update f p).get? p = some (f m) := by
  induction p generalizing n with
  | nil =>
    simp only [get?, Option.some.injEq] at h
    subst h
    rfl
  | cons i p ih =>
    rw [get?_cons] at h
    cases hc : n.children[i]? with
    | none => rw [hc] at h; simp at h
    | some c =>
      rw [hc] at h
      rw [update_cons f n i p c hc, get?_cons]
      have hi : i < n.children.length := lt_of_getElem? _ _ _ hc
      rw [children_mk, List.getElem?_set_self hi, Option.some_bind]
      exact ih c h

theorem update_eq_self (f : Node → Node) (n : Node) (p : Path) (m : Node)
    (h : n.get? p = some m) (hf : f m = m) : n.update f p = n := by
  induction p generalizing n with
  | nil =>
    simp only [get?, Option.some.injEq] at h
    subst h
    exact hf
  | cons i p ih =>
    rw [get?_cons] at h
    cases hc : n.children[i]? with
    | none => rw [hc] at h; simp at h
    | some c =>
      rw [hc] at h
      rw [update_cons f n i p c hc, ih c h]
      rw [set_of_getElem? _ _ _ hc]
      exact mk_attrs_children n

theorem update_update (f g : Node → Node) (n : Node) (p : Path) :
    (n.update f p).update g p = n.update (fun m => g (f m)) p := by
  induction p generalizing n with
  | nil => rfl
  | cons i p ih =>
    cases hc : n.children[i]? with
    | none =>
      rw [update_cons_none _ _ _ _ hc, update_cons_none _ _ _ _ hc, update_cons_none _ _ _ _ hc]
    | some c =>
      have hi : i < n.children.length := lt_of_getElem? _ _ _ hc
      rw [update_cons f n i p c hc, update_cons _ n i p c hc]
      rw [update_cons g _ i p (c.update f p)
        (by rw [children_mk, List.getElem?_set_self hi])]
      rw [children_mk, attrs_mk, List.set_set, ih]

/-- An update inside one subtree is invisible from a path that leaves it. -/
theorem get?_update_disjoint (f : Node → Node) (n : Node) (p q : Path)
    (hpq : ¬ p <+: q) (hqp : ¬ q <+: p) : (n.update f p).get? q = n.get? q := by
  induction p generalizing n q with
  | nil => exact absurd (List.nil_prefix) hpq
  | cons i p ih =>
    cases q with
    | nil => exact absurd (List.nil_prefix) hqp
    | cons j q =>
      cases hc : n.children[i]? with
      | none => rw [update_cons_none _ _ _ _ hc]
      | some c =>
        have hi : i < n.children.length := lt_of_getElem? _ _ _ hc
        rw [update_cons f n i p c hc, get?_cons, get?_cons, children_mk]
        by_cases hij : i = j
        · subst hij
          rw [List.getElem?_set_self hi, hc, Option.some_bind, Option.some_bind]
          apply ih
          · intro h; exact hpq (by simpa [List.cons_prefix_cons] using h)
          · intro h; exact hqp (by simpa [List.cons_prefix_cons] using h)
        · rw [List.getElem?_set_ne hij]

end Node

/-! ## `closest` -/

namespace Node

theorem ownData_hasClass (c : String) : OwnData (hasClass c) := fun _ _ _ => rfl

theorem closest_nil (sel : Node → Bool) (n : Node) :
    n.closest sel [] = if sel n then some [] else none := by
  rw [closest]

theorem closest_cons (sel : Node → Bool) (n : Node) (i : Nat) (p : Path) (c m : Node)
    (h : n.children[i]? = some c) (hm : c.get? p = some m) :
    n.closest sel (i :: p) =
      match c.closest sel p with
      | some q => some (i :: q)
      | none => if sel n then some [] else none := by
  rw [closest]
  simp only [h, hm]

theorem closest_of_get?_none (sel : Node → Bool) (n : Node) (p : Path)
    (h : n.get? p = none) : n.closest sel p = none := by
  cases p with
  | nil => simp [get?] at h
  | cons i p =>
    rw [closest]
    rw [get?_cons] at h
    cases hc : n.children[i]? with
    | none => rfl
    | some c =>
      rw [hc, Option.some_bind] at h
      simp only [h]

/-- What `closest` returns is an ancestor-or-self of an existing start element, and it
matches the selector. -/
theorem closest_some (sel : Node → Bool) (n : Node) (p c : Path)
    (h : n.closest sel p = some c) :
    c <+: p ∧ (∃ e, n.get? p = some e) ∧ ∃ m, n.get? c = some m ∧ sel m = true := by
  induction p generalizing n c with
  | nil =>
    rw [closest_nil] at h
    split at h
    · next hs =>
      simp only [Option.some.injEq] at h
      subst h
      exact ⟨List.prefix_refl _, ⟨n, rfl⟩, n, rfl, hs⟩
    · simp at h
  | cons i p ih =>
    rcases hopt : n.get? (i :: p) with _ | e
    · rw [closest_of_get?_none sel n _ hopt] at h; simp at h
    · have he := hopt
      rw [get?_cons] at he
      cases hc : n.children[i]? with
      | none => rw [hc] at he; simp at he
      | some ch =>
        rw [hc, Option.some_bind] at he
        rw [closest_cons sel n i p ch e hc he] at h
        cases hq : ch.closest sel p with
        | some q =>
          rw [hq] at h
          simp only [Option.some.injEq] at h
          subst h
          obtain ⟨h1, -, m, h3, h4⟩ := ih ch q hq
          refine ⟨by simpa [List.cons_prefix_cons] using h1, ⟨e, rfl⟩, m, ?_, h4⟩
          rw [get?_cons, hc]; exact h3
        | none =>
          rw [hq] at h
          simp only at h
          split at h
          · next hs =>
            simp only [Option.some.injEq] at h
            subst h
            exact ⟨List.nil_prefix, ⟨e, rfl⟩, n, rfl, hs⟩
          · simp at h

/-- An element that exists below `c` still exists there after an update at `c` that keeps
the old children in place. -/
theorem get?_update_below (f : Node → Node)
    (hch : ∀ (m : Node) (i : Nat) (x : Node), m.children[i]? = some x →
      (f m).children[i]? = some x)
    (n : Node) (c r : Path) (e : Node) (he : n.get? (c ++ r) = some e) :
    ∃ e', (n.update f c).get? (c ++ r) = some e' := by
  rw [get?_append] at he
  cases hm : n.get? c with
  | none => rw [hm] at he; simp at he
  | some m =>
    rw [hm, Option.some_bind] at he
    rw [get?_append, get?_update_self f n c m hm, Option.some_bind]
    cases r with
    | nil => exact ⟨f m, rfl⟩
    | cons j r =>
      rw [get?_cons] at he ⊢
      cases hj : m.children[j]? with
      | none => rw [hj] at he; simp at he
      | some x =>
        rw [hj] at he
        rw [hch m j x hj]
        exact ⟨e, he⟩

/-- An update at an ancestor-or-self `c` of an element does not change what `closest` finds
from that element, when the update keeps the selector's verdict on the updated element and
keeps its old children in place. -/
theorem closest_update (sel : Node → Bool) (hsel : OwnData sel) (f : Node → Node)
    (hf : ∀ m, sel (f m) = sel m)
    (hch : ∀ (m : Node) (i : Nat) (x : Node), m.children[i]? = some x →
      (f m).children[i]? = some x)
    (n : Node) (c r : Path) (e : Node) (he : n.get? (c ++ r) = some e) :
    (n.update f c).closest sel (c ++ r) = n.closest sel (c ++ r) := by
  induction c generalizing n with
  | nil =>
    show (f n).closest sel r = n.closest sel r
    cases r with
    | nil => rw [closest_nil, closest_nil, hf]
    | cons i r =>
      rw [List.nil_append, get?_cons] at he
      cases hc : n.children[i]? with
      | none => rw [hc] at he; simp at he
      | some ch =>
        rw [hc, Option.some_bind] at he
        rw [closest_cons sel n i r ch e hc he, closest_cons sel (f n) i r ch e (hch n i ch hc) he,
          hf]
  | cons i c ih =>
    rw [List.cons_append, get?_cons] at he
    cases hc : n.children[i]? with
    | none => rw [hc] at he; simp at he
    | some ch =>
      rw [hc, Option.some_bind] at he
      have hi : i < n.children.length := lt_of_getElem? _ _ _ hc
      obtain ⟨e', he'⟩ := get?_update_below f hch ch c r e he
      rw [update_cons f n i c ch hc, List.cons_append]
      rw [closest_cons sel n i (c ++ r) ch e hc he]
      rw [closest_cons sel _ i (c ++ r) (ch.update f c) e'
        (by rw [children_mk, List.getElem?_set_self hi]) he']
      rw [ih ch he, hsel n.attrs _ n.children, mk_attrs_children]

end Node

/-! ## Counting and removal -/

namespace Node

theorem count_mk (sel : Node → Bool) (a : Attrs) (cs : List Node) :
    (mk a cs).count sel = (if sel (mk a cs) then 1 else 0) + countList sel cs := by
  rw [count]

theorem count_eq (sel : Node → Bool) (n : Node) :
    n.count sel = (if sel n then 1 else 0) + countList sel n.children := by
  cases n; rw [count_mk]; rfl

theorem countList_nil (sel : Node → Bool) : countList sel [] = 0 := by
  rw [countList]

theorem countList_cons (sel : Node → Bool) (c : Node) (cs : List Node) :
    countList sel (c :: cs) = c.count sel + countList sel cs := by
  rw [countList]

theorem countList_append (sel : Node → Bool) (xs ys : List Node) :
    countList sel (xs ++ ys) = countList sel xs + countList sel ys := by
  induction xs with
  | nil => rw [List.nil_append, countList_nil, Nat.zero_add]
  | cons x xs ih => rw [List.cons_append, countList_cons, countList_cons, ih, Nat.add_assoc]

theorem countList_set (sel : Node → Bool) (cs : List Node) (i : Nat) (c c' : Node)
    (h : cs[i]? = some c) :
    countList sel (cs.set i c') + c.count sel = countList sel cs + c'.count sel := by
  induction cs generalizing i with
  | nil => simp at h
  | cons x cs ih =>
    cases i with
    | zero =>
      simp only [List.getElem?_cons_zero, Option.some.injEq] at h
      subst h
      rw [List.set_cons_zero, countList_cons, countList_cons]
      omega
    | succ i =>
      simp only [List.getElem?_cons_succ] at h
      rw [List.set_cons_succ, countList_cons, countList_cons]
      have := ih i h
      omega

theorem countList_eraseIdx (sel : Node → Bool) (cs : List Node) (i : Nat) (c : Node)
    (h : cs[i]? = some c) :
    countList sel (cs.eraseIdx i) + c.count sel = countList sel cs := by
  induction cs generalizing i with
  | nil => simp at h
  | cons x cs ih =>
    cases i with
    | zero =>
      simp only [List.getElem?_cons_zero, Option.some.injEq] at h
      subst h
      rw [List.eraseIdx_cons_zero, countList_cons]
      omega
    | succ i =>
      simp only [List.getElem?_cons_succ] at h
      rw [List.eraseIdx_cons_succ, countList_cons, countList_cons]
      have := ih i h
      omega

/-- Counting across an update: what the updated element gains, the whole tree gains. -/
theorem count_update (sel : Node → Bool) (hsel : OwnData sel) (f : Node → Node) (n : Node)
    (p : Path) (m : Node) (h : n.get? p = some m) :
    (n.update f p).count sel + m.count sel = n.count sel + (f m).count sel := by
  induction p generalizing n with
  | nil =>
    simp only [get?, Option.some.injEq] at h
    subst h
    show (f n).count sel + n.count sel = n.count sel + (f n).count sel
    omega
  | cons i p ih =>
    rw [get?_cons] at h
    cases hc : n.children[i]? with
    | none => rw [hc] at h; simp at h
    | some c =>
      rw [hc, Option.some_bind] at h
      rw [update_cons f n i p c hc, count_mk, count_eq sel n,
        hsel n.attrs _ n.children, mk_attrs_children]
      have h1 := countList_set sel n.children i c (c.update f p) hc
      have h2 := ih c h
      omega

theorem remove_cons (n : Node) (i : Nat) (p : Path) (hp : p ≠ []) (c : Node)
    (h : n.children[i]? = some c) :
    n.remove (i :: p) = mk n.attrs (n.children.set i (c.remove p)) := by
  cases p with
  | nil => exact absurd rfl hp
  | cons j p =>
    rw [remove]
    simp only [h]

/-- Removing a proper descendant of the element at `c` is an update at `c`. -/
theorem remove_append (n : Node) (c q : Path) (hq : q ≠ []) (m : Node)
    (h : n.get? c = some m) :
    n.remove (c ++ q) = n.update (fun x => x.remove q) c := by
  induction c generalizing n with
  | nil => rfl
  | cons i c ih =>
    rw [get?_cons] at h
    cases hc : n.children[i]? with
    | none => rw [hc] at h; simp at h
    | some ch =>
      rw [hc, Option.some_bind] at h
      rw [List.cons_append, remove_cons n i (c ++ q) (by simp [hq]) ch hc,
        update_cons _ n i c ch hc, ih ch h]

theorem remove_attrs (n : Node) (q : Path) : (n.remove q).attrs = n.attrs := by
  cases q with
  | nil => rfl
  | cons i q =>
    cases q with
    | nil => rw [remove]; rfl
    | cons j q =>
      rw [remove]
      cases n.children[i]? <;> rfl

/-- Counting across a removal: the removed subtree's matches are gone, nothing else. -/
theorem countList_remove (sel : Node → Bool) (hsel : OwnData sel) (n : Node) (q : Path)
    (hq : q ≠ []) (e : Node) (h : n.get? q = some e) :
    countList sel (n.remove q).children + e.count sel = countList sel n.children := by
  induction q generalizing n with
  | nil => exact absurd rfl hq
  | cons i q ih =>
    rw [get?_cons] at h
    cases hc : n.children[i]? with
    | none => rw [hc] at h; simp at h
    | some c =>
      rw [hc, Option.some_bind] at h
      cases q with
      | nil =>
        simp only [get?, Option.some.injEq] at h
        subst h
        rw [remove, children_mk]
        exact countList_eraseIdx sel n.children i c hc
      | cons j q =>
        rw [remove_cons n i (j :: q) (by simp) c hc, children_mk]
        have h1 := countList_set sel n.children i c (c.remove (j :: q)) hc
        have h2 := ih c (by simp) h
        have h3 : (c.remove (j :: q)).count sel + e.count sel = c.count sel := by
          rw [count_eq sel (c.remove (j :: q)), count_eq sel c]
          have : sel (c.remove (j :: q)) = sel c := by
            rw [← mk_attrs_children (c.remove (j :: q)), remove_attrs,
              hsel c.attrs _ c.children, mk_attrs_children]
          rw [this]
          omega
        omega

end Node

/-! ## `querySelector` -/

namespace Node

theorem find_mk (sel : Node → Bool) (a : Attrs) (cs : List Node) :
    (mk a cs).find sel = findList sel cs 0 := by
  rw [find]

theorem find_eq (sel : Node → Bool) (n : Node) : n.find sel = findList sel n.children 0 := by
  cases n; rw [find_mk]; rfl

theorem findList_nil (sel : Node → Bool) (i : Nat) : findList sel [] i = none := by
  rw [findList]

theorem findList_cons (sel : Node → Bool) (c : Node) (cs : List Node) (i : Nat) :
    findList sel (c :: cs) i =
      if sel c then some [i]
      else
        match c.find sel with
        | some q => some (i :: q)
        | none => findList sel cs (i + 1) := by
  rw [findList]

mutual
/-- What `find` returns is a proper descendant that matches. -/
theorem find_some (sel : Node → Bool) :
    ∀ (n : Node) (q : Path), n.find sel = some q →
      q ≠ [] ∧ ∃ m, n.get? q = some m ∧ sel m = true
  | mk a cs, q, h => by
    rw [find_mk] at h
    obtain ⟨j, r, hq, x, hx, m, hm, hs⟩ := findList_some sel cs 0 q h
    subst hq
    refine ⟨by simp, m, ?_, hs⟩
    rw [get?_cons, children_mk, Nat.zero_add, hx]
    exact hm
/-- What `findList` returns goes through one of the siblings to an element that matches. -/
theorem findList_some (sel : Node → Bool) :
    ∀ (cs : List Node) (i : Nat) (q : Path), findList sel cs i = some q →
      ∃ j r, q = (i + j) :: r ∧ ∃ x, cs[j]? = some x ∧ ∃ m, x.get? r = some m ∧ sel m = true
  | [], i, q, h => by
    rw [findList_nil] at h
    simp at h
  | c :: cs, i, q, h => by
    rw [findList_cons] at h
    split at h
    · next hs =>
      simp only [Option.some.injEq] at h
      subst h
      exact ⟨0, [], rfl, c, List.getElem?_cons_zero, c, rfl, hs⟩
    · cases hf : c.find sel with
      | some r =>
        rw [hf] at h
        simp only [Option.some.injEq] at h
        subst h
        obtain ⟨-, m, hm, hs⟩ := find_some sel c r hf
        exact ⟨0, r, rfl, c, List.getElem?_cons_zero, m, hm, hs⟩
      | none =>
        rw [hf] at h
        obtain ⟨j, r, hq, x, hx, m, hm, hs⟩ := findList_some sel cs (i + 1) q h
        refine ⟨j + 1, r, ?_, x, ?_, m, hm, hs⟩
        · rw [hq]; congr 1; omega
        · simpa using hx
end

mutual
/-- When `find` returns nothing, no proper descendant matches. -/
theorem find_none (sel : Node → Bool) :
    ∀ (n : Node), n.find sel = none → countList sel n.children = 0
  | mk a cs, h => by
    rw [find_mk] at h
    exact findList_none sel cs 0 h
/-- When `findList` returns nothing, none of the siblings and their descendants matches. -/
theorem findList_none (sel : Node → Bool) :
    ∀ (cs : List Node) (i : Nat), findList sel cs i = none → countList sel cs = 0
  | [], _, _ => countList_nil sel
  | c :: cs, i, h => by
    rw [findList_cons] at h
    split at h
    · simp at h
    · next hs =>
      cases hf : c.find sel with
      | some r => rw [hf] at h; simp at h
      | none =>
        rw [hf] at h
        rw [countList_cons, count_eq, find_none sel c hf, findList_none sel cs (i + 1) h]
        simp [hs]
end

mutual
/-- When no proper descendant matches, `find` returns nothing. -/
theorem find_of_count_zero (sel : Node → Bool) :
    ∀ (n : Node), countList sel n.children = 0 → n.find sel = none
  | mk a cs, h => by
    rw [find_mk]
    exact findList_of_count_zero sel cs 0 h
/-- When none of the siblings and their descendants matches, `findList` returns nothing. -/
theorem findList_of_count_zero (sel : Node → Bool) :
    ∀ (cs : List Node) (i : Nat), countList sel cs = 0 → findList sel cs i = none
  | [], i, _ => findList_nil sel i
  | c :: cs, i, h => by
    rw [countList_cons, count_eq] at h
    have hs : sel c = false := by
      cases hsc : sel c with
      | false => rfl
      | true => rw [hsc] at h; simp at h
    have h1 : countList sel c.children = 0 := by omega
    have h2 : countList sel cs = 0 := by omega
    rw [findList_cons, hs, find_of_count_zero sel c h1, findList_of_count_zero sel cs (i + 1) h2]
    simp
end

end Node

/-! ## What `showFieldError` and `clearFieldError` do to the container -/

theorem contains_classListAdd (classes : List String) (c x : String) (h : x ≠ c) :
    (classListAdd classes c).contains x = classes.contains x := by
  unfold classListAdd
  split
  · rfl
  · rw [Bool.eq_iff_iff]
    simp only [List.contains_eq_any_beq, List.any_append, List.any_cons, List.any_nil,
      Bool.or_false, Bool.or_eq_true, beq_iff_eq]
    constructor
    · rintro (h1 | h1)
      · exact h1
      · exact absurd h1.symm (fun h2 => h h2.symm)
    · intro h1
      exact Or.inl h1

theorem mem_classListAdd (classes : List String) (c : String) :
    (classListAdd classes c).contains c = true := by
  unfold classListAdd
  split
  · next h => exact h
  · simp

theorem contains_classListRemove (classes : List String) (c : String) :
    (classListRemove classes c).contains c = false := by
  unfold classListRemove
  rw [Bool.eq_false_iff]
  intro h
  simp only [List.contains_eq_any_beq, List.any_eq_true, List.mem_filter, bne_iff_ne, ne_eq,
    beq_iff_eq] at h
  obtain ⟨x, ⟨-, hx⟩, hxc⟩ := h
  exact hx hxc.symm

namespace FormValidator

/-- The element `showFieldError` creates is one annotation. -/
theorem count_errorElement (message : String) :
    (errorElement message).count (hasClass "error-message") = 1 := by
  unfold errorElement
  rw [Node.count_mk, Node.countList_nil]
  rfl

/-- The container of an existing input is one of its ancestors (or the input itself) and is
an existing element. -/
theorem container_some (s : FormValidator) (input c : Path) (h : s.container input = some c) :
    c <+: input ∧ (∃ e, s.doc.get? input = some e) ∧ ∃ m, s.doc.get? c = some m := by
  unfold container at h
  cases h1 : s.doc.closest (hasClass "form_input") input with
  | some c1 =>
    rw [h1] at h
    simp only [Option.some.injEq] at h
    subst h
    obtain ⟨a, b, m, hm, -⟩ := Node.closest_some _ _ _ _ h1
    exact ⟨a, b, m, hm⟩
  | none =>
    rw [h1] at h
    obtain ⟨a, b, m, hm, -⟩ := Node.closest_some _ _ _ _ h
    exact ⟨a, b, m, hm⟩

/-- The document after `showFieldError`: one update of the container. -/
theorem showFieldError_doc (s : FormValidator) (input c : Path) (message : String)
    (h : s.container input = some c) :
    (s.showFieldError input message).doc =
      s.doc.update (fun x => addClass "has-error" (appendChild (errorElement message) x)) c := by
  unfold showFieldError
  simp only [h]
  exact Node.update_update _ _ _ _

/-- The container element after `showFieldError`. -/
theorem showFieldError_get (s : FormValidator) (input c : Path) (message : String) (m : Node)
    (h : s.container input = some c) (hm : s.doc.get? c = some m) :
    (s.showFieldError input message).doc.get? c =
      some (.mk { m.attrs with classes := classListAdd m.attrs.classes "has-error" }
        (m.children ++ [errorElement message])) := by
  rw [showFieldError_doc s input c message h, Node.get?_update_self _ _ _ m hm]
  rfl

/-- Each call of `showFieldError` adds one annotation to the container. -/
theorem showFieldError_annotations (s : FormValidator) (input c : Path) (message : String)
    (h : s.container input = some c) :
    (s.showFieldError input message).annotations c = s.annotations c + 1 := by
  obtain ⟨-, -, m, hm⟩ := container_some s input c h
  unfold annotations
  rw [showFieldError_get s input c message m h hm, hm]
  simp only [Node.children_mk, Node.countList_append, Node.countList_cons, Node.countList_nil,
    count_errorElement]

/-- The field keeps its container across `showFieldError`. -/
theorem showFieldError_container (s : FormValidator) (input c : Path) (message : String)
    (h : s.container input = some c) :
    (s.showFieldError input message).container input = some c := by
  obtain ⟨⟨r, hr⟩, ⟨e, he⟩, -⟩ := container_some s input c h
  subst hr
  have key : ∀ x : String, x ≠ "has-error" →
      (s.showFieldError (c ++ r) message).doc.closest (hasClass x) (c ++ r) =
        s.doc.closest (hasClass x) (c ++ r) := by
    intro x hx
    rw [showFieldError_doc s (c ++ r) c message h]
    apply Node.closest_update (hasClass x) (Node.ownData_hasClass x) _ _ _ s.doc c r e he
    · intro m
      exact contains_classListAdd m.attrs.classes "has-error" x hx
    · intro m i y hy
      show (m.children ++ [errorElement message])[i]? = some y
      rw [List.getElem?_append_left (Node.lt_of_getElem? _ _ _ hy)]
      exact hy
  unfold container at h ⊢
  rw [key "form_input" (by decide), key "b-label" (by decide)]
  exact h

/-- The container element after `clearFieldError`: the first annotation inside it, if there
is one, is gone and the marker is off. -/
theorem clearFieldError_get (s : FormValidator) (input c : Path) (m : Node)
    (h : s.container input = some c) (hm : s.doc.get? c = some m) :
    (s.clearFieldError input).doc.get? c =
      some (removeClass "has-error"
        (match m.find (hasClass "error-message") with
         | some q => m.remove q
         | none => m)) := by
  unfold clearFieldError
  simp only [h, Node.querySelector, hm]
  cases hq : m.find (hasClass "error-message") with
  | none =>
    simp only
    exact Node.get?_update_self _ _ _ m hm
  | some q =>
    simp only
    obtain ⟨hne, -⟩ := Node.find_some _ m q hq
    rw [Node.remove_append s.doc c q hne m hm, Node.update_update]
    exact Node.get?_update_self _ _ _ m hm

/-- After `clearFieldError` a container that held at most one annotation holds none, and
the marker is off. -/
theorem clearFieldError_annotations (s : FormValidator) (input c : Path)
    (h : s.container input = some c) :
    (s.annotations c ≤ 1 → (s.clearFieldError input).annotations c = 0) ∧
    (s.clearFieldError input).marked c = false := by
  obtain ⟨-, -, m, hm⟩ := container_some s input c h
  have hget := clearFieldError_get s input c m h hm
  constructor
  · intro hle
    unfold annotations at hle ⊢
    rw [hm] at hle
    rw [hget]
    simp only at hle ⊢
    cases hq : m.find (hasClass "error-message") with
    | none =>
      exact Node.find_none _ m hq
    | some q =>
      obtain ⟨hne, e, he, hs⟩ := Node.find_some _ m q hq
      have h1 := Node.countList_remove (hasClass "error-message")
        (Node.ownData_hasClass _) m q hne e he
      have h2 : 1 ≤ e.count (hasClass "error-message") := by
        rw [Node.count_eq, hs]
        simp
      show Node.countList (hasClass "error-message") (m.remove q).children = 0
      omega
  · unfold marked
    rw [hget]
    exact contains_classListRemove _ _

end FormValidator

/-! ## Following a reference across a removal -/

namespace Node

/-- The path `relocate` gives leads, in the document after the removal, to an element with
the own data the referenced element had before. -/
theorem relocate_attrs (n : Node) (e p p' : Path) (h : relocate e p = some p') :
    ((n.remove e).get? p').map Node.attrs = (n.get? p).map Node.attrs := by
  induction e generalizing n p p' with
  | nil =>
    rw [relocate] at h
    simp only [Option.some.injEq] at h
    subst h
    rfl
  | cons i e ih =>
    cases p with
    | nil =>
      rw [relocate] at h
      simp only [Option.some.injEq] at h
      subst h
      show some (n.remove (i :: e)).attrs = some n.attrs
      rw [remove_attrs]
    | cons j q =>
      cases e with
      | nil =>
        rw [relocate] at h
        have hrem : n.remove [i] = mk n.attrs (n.children.eraseIdx i) := by rw [remove]
        rw [hrem]
        by_cases hlt : j < i
        · rw [if_pos hlt] at h
          simp only [Option.some.injEq] at h
          subst h
          rw [get?_cons, get?_cons, children_mk, List.getElem?_eraseIdx_of_lt _ _ _ hlt]
        · rw [if_neg hlt] at h
          by_cases heq : j = i
          · rw [if_pos heq] at h
            simp at h
          · rw [if_neg heq] at h
            simp only [Option.some.injEq] at h
            subst h
            have hge : i ≤ j - 1 := by omega
            have hj : j - 1 + 1 = j := by omega
            rw [get?_cons, get?_cons, children_mk, List.getElem?_eraseIdx_of_ge _ _ _ hge, hj]
      | cons k e =>
        rw [relocate] at h
        by_cases hij : i = j
        · rw [if_pos hij] at h
          subst hij
          cases hq : relocate (k :: e) q with
          | none => rw [hq] at h; simp at h
          | some q' =>
            rw [hq] at h
            simp only [Option.map_some', Option.some.injEq] at h
            subst h
            cases hc : n.children[i]? with
            | none =>
              have hrem : n.remove (i :: k :: e) = n := by
                rw [remove]
                simp only [hc]
              rw [hrem, get?_cons, get?_cons, hc]
              rfl
            | some c =>
              have hi : i < n.children.length := lt_of_getElem? _ _ _ hc
              rw [remove_cons n i (k :: e) (by simp) c hc, get?_cons, get?_cons, children_mk,
                List.getElem?_set_self hi, hc, Option.some_bind, Option.some_bind]
              exact ih c q q' hq
        · rw [if_neg hij] at h
          simp only [Option.some.injEq] at h
          subst h
          cases hc : n.children[i]? with
          | none =>
            have hrem : n.remove (i :: k :: e) = n := by
              rw [remove]
              simp only [hc]
            rw [hrem]
          | some c =>
            rw [remove_cons n i (k :: e) (by simp) c hc, get?_cons, get?_cons, children_mk,
              List.getElem?_set_ne hij]

end Node

/-! ## Whole-form validation -/

namespace FormValidator

/-- C1: `validateForm` does not short-circuit. Started with an empty error mapping and with
its five inputs present, it returns normally; afterwards each role (email, password,
confirmPassword, checkbox, fullName) has an entry exactly when that role's rule fails on the
current values, the entry being the rule's fixed message, and the result is `true` exactly
when no rule failed. -/
theorem validateForm_accumulates (s : FormValidator) (fs : Fields)
    (hf : s.HasFields fs) (he : s.errors = Errors.none) :
    (s.validateForm.2.errors.email = if s.emailOk fs then none else some msgEmail) ∧
    (s.validateForm.2.errors.password =
      if s.passwordOk fs then none else some msgPassword) ∧
    (s.validateForm.2.errors.confirmPassword =
      if s.confirmPasswordOk fs then none else some msgConfirmPassword) ∧
    (s.validateForm.2.errors.checkbox =
      if s.checkboxOk fs then none else some msgCheckbox) ∧
    (s.validateForm.2.errors.fullName =
      if s.fullNameOk fs then none else some msgFullName) ∧
    s.validateForm.1 = .normal (s.emailOk fs && s.passwordOk fs && s.confirmPasswordOk fs &&
      s.checkboxOk fs && s.fullNameOk fs) := by
  rw [validateForm_eq s fs hf, he]
  exact ⟨rfl, rfl, rfl, rfl, rfl, rfl⟩

/-- The scenario of C1: email `bad-email`, password and confirmation `12345`, consent not
given, full name empty: the result is `false` and exactly the email, password and checkbox
entries are present. -/
theorem validateForm_accumulates_witness :
    (examplePage "bad-email" "" "" "12345" "12345" false).validateForm.1 = .normal false ∧
    (examplePage "bad-email" "" "" "12345" "12345" false).validateForm.2.errors =
      { email := some msgEmail, password := some msgPassword, confirmPassword := none,
        checkbox := some msgCheckbox, fullName := none } := by
  obtain ⟨h1, h2, h3, h4, h5, h6⟩ :=
    validateForm_accumulates (examplePage "bad-email" "" "" "12345" "12345" false)
      exampleFields (by decide) rfl
  refine ⟨h6.trans (by decide), ?_⟩
  have ext : ∀ a b : Errors, a.email = b.email → a.password = b.password →
      a.confirmPassword = b.confirmPassword → a.checkbox = b.checkbox →
      a.fullName = b.fullName → a = b := by
    intro a b; cases a; cases b; simp; intros; simp_all
  exact ext _ _ (h1.trans (by decide)) (h2.trans (by decide)) (h3.trans (by decide))
    (h4.trans (by decide)) (h5.trans (by decide))

end FormValidator

/-! ## The rules one by one -/

/-- C3: `validateEmail` returns a falsy value for every string without `@` and for every
string with no `.` after an `@`; it returns a truthy value on every address `a@b.c` whose
three parts are non-empty and free of white space and `@`, such as `user@example.com`. -/
theorem validateEmail_rejects_and_accepts :
    (∀ s : JSString, 0x40 ∉ s → (validateEmail s).truthy = false) ∧
    (∀ s : JSString, (∀ j < s.length, ∀ i < j, s[i]? = some 0x40 → s[j]? ≠ some 0x2E) →
      (validateEmail s).truthy = false) ∧
    (∀ a b c : JSString, a ≠ [] → b ≠ [] → c ≠ [] →
      (∀ x ∈ a ++ b ++ c, notSpaceAt x = true) →
      (validateEmail (a ++ 0x40 :: (b ++ 0x2E :: c))).truthy = true) ∧
    (validateEmail (lit "user@example.com")).truthy = true := by
  refine ⟨?_, ?_, ?_, by decide⟩
  · intro s h
    rw [truthy_validateEmail, Bool.eq_false_iff]
    intro ht
    obtain ⟨a, b, c, rfl, -⟩ := (emailRegex_test_iff s).mp ht
    exact h (by simp)
  · intro s h
    rw [truthy_validateEmail, Bool.eq_false_iff]
    intro ht
    obtain ⟨a, b, c, rfl, -⟩ := (emailRegex_test_iff s).mp ht
    refine h (a.length + 1 + b.length) (by simp; omega) a.length (by omega)
      (by rw [List.getElem?_append_right (le_refl _)]; simp) ?_
    rw [List.getElem?_append_right (by omega)]
    have hidx : a.length + 1 + b.length - a.length = b.length + 1 := by omega
    rw [hidx, List.getElem?_cons_succ, List.getElem?_append_right (by omega)]
    simp
  · intro a b c ha hb hc hall
    rw [truthy_validateEmail, emailRegex_test_iff]
    refine ⟨a, b, c, rfl, ha, hb, hc, ?_, ?_, ?_⟩ <;>
      intro x hx <;> apply hall <;> simp [hx]

/-- Instances of C3: `bad-email` has no `@`, `user.name@site` has no `.` after its `@`, and
`a@b.c` is accepted. -/
theorem validateEmail_rejects_and_accepts_witness :
    (validateEmail (lit "bad-email")).truthy = false ∧
    (validateEmail (lit "user.name@site")).truthy = false ∧
    (validateEmail (lit "a@b.c")).truthy = true :=
  ⟨validateEmail_rejects_and_accepts.1 (lit "bad-email") (by decide),
   validateEmail_rejects_and_accepts.2.1 (lit "user.name@site") (by decide),
   validateEmail_rejects_and_accepts.2.2.1 [0x61] [0x62] [0x63] (by decide) (by decide)
     (by decide) (by decide)⟩

/-- C4: `validatePassword` returns a falsy value for every string of fewer than 6 code units
(the empty string included) and a truthy value for every string of at least 6, whatever the
code units are; `validateForm` applies it to the raw value of the password input. -/
theorem validatePassword_length :
    (∀ p : JSString, p.length < 6 → (validatePassword p).truthy = false) ∧
    (∀ p : JSString, 6 ≤ p.length → (validatePassword p).truthy = true) ∧
    (∀ (s : FormValidator) (fs : Fields), s.HasFields fs → s.errors.password = none →
      s.validateForm.2.errors.password =
        if (s.value fs.password).length < 6 then some msgPassword else none) := by
  refine ⟨?_, ?_, ?_⟩
  · intro p h
    rw [truthy_validatePassword]
    exact decide_eq_false (by omega)
  · intro p h
    rw [truthy_validatePassword]
    exact decide_eq_true h
  · intro s fs hf h0
    rw [FormValidator.validateForm_eq s fs hf]
    simp only [FormValidator.entry, FormValidator.passwordOk, truthy_validatePassword, h0]
    by_cases h : (s.value fs.password).length < 6
    · simp [h]
    · simp [h, Nat.le_of_not_lt h]

/-- Instances of C4: `12345` and the empty string fail, six spaces pass, and the page with
password `12345` gets the password entry. -/
theorem validatePassword_length_witness :
    (validatePassword (lit "12345")).truthy = false ∧
    (validatePassword (lit "")).truthy = false ∧
    (validatePassword (lit "      ")).truthy = true ∧
    (examplePage "" "" "" "12345" "" false).validateForm.2.errors.password =
      some msgPassword :=
  ⟨validatePassword_length.1 (lit "12345") (by decide),
   validatePassword_length.1 (lit "") (by decide),
   validatePassword_length.2.1 (lit "      ") (by decide),
   (validatePassword_length.2.2 (examplePage "" "" "" "12345" "" false) exampleFields
     (by decide) rfl).trans (by decide)⟩

namespace FormValidator

/-- C5: in `validateForm` a confirmPassword entry is recorded exactly when the raw values of
the password and confirmation inputs differ; when both are empty no confirmPassword entry is
recorded although the password entry is. -/
theorem validateForm_confirmPassword (s : FormValidator) (fs : Fields)
    (hf : s.HasFields fs) (h0 : s.errors.confirmPassword = none) :
    (s.validateForm.2.errors.confirmPassword =
      if s.value fs.password = s.value fs.confirmPassword then none
      else some msgConfirmPassword) ∧
    (s.value fs.password = [] → s.value fs.confirmPassword = [] →
      s.validateForm.2.errors.confirmPassword = none ∧
      s.validateForm.2.errors.password = some msgPassword) := by
  rw [validateForm_eq s fs hf]
  simp only [entry, confirmPasswordOk, passwordOk, h0]
  constructor
  · by_cases h : s.value fs.password = s.value fs.confirmPassword
    · simp [h]
    · simp [h]
  · intro hp hc
    simp [hp, hc, validatePassword, strAnd, JSVal.truthy]

/-- Instances of C5: `abc` against `abc ` (a trailing space) is a mismatch, and two empty
values give no confirmPassword entry but a password entry. -/
theorem validateForm_confirmPassword_witness :
    (examplePage "" "" "" "abc" "abc " false).validateForm.2.errors.confirmPassword =
      some msgConfirmPassword ∧
    (examplePage "" "" "" "" "" false).validateForm.2.errors.confirmPassword = none ∧
    (examplePage "" "" "" "" "" false).validateForm.2.errors.password = some msgPassword :=
  ⟨((validateForm_confirmPassword (examplePage "" "" "" "abc" "abc " false) exampleFields
      (by decide) rfl).1).trans (by decide),
   (validateForm_confirmPassword (examplePage "" "" "" "" "" false) exampleFields
      (by decide) rfl).2 (by decide) (by decide)⟩

/-- C7: in `validateForm` a checkbox entry is recorded if and only if the checkbox is not
checked, whatever the other fields hold. -/
theorem validateForm_checkbox (s : FormValidator) (fs : Fields)
    (hf : s.HasFields fs) (h0 : s.errors.checkbox = none) :
    (s.validateForm.2.errors.checkbox = some msgCheckbox ↔ s.checked fs.checkbox = false) ∧
    (s.validateForm.2.errors.checkbox = none ↔ s.checked fs.checkbox = true) := by
  rw [validateForm_eq s fs hf]
  simp only [entry, checkboxOk, h0]
  cases s.checked fs.checkbox <;> simp

/-- Instances of C7: an unchecked box gives the entry, a checked one does not, on a page
whose other fields are all invalid. -/
theorem validateForm_checkbox_witness :
    (examplePage "x" "" "1" "2" "3" false).validateForm.2.errors.checkbox =
      some msgCheckbox ∧
    (examplePage "x" "" "1" "2" "3" true).validateForm.2.errors.checkbox = none :=
  ⟨(validateForm_checkbox (examplePage "x" "" "1" "2" "3" false) exampleFields
      (by decide) rfl).1.mpr (by decide),
   (validateForm_checkbox (examplePage "x" "" "1" "2" "3" true) exampleFields
      (by decide) rfl).2.mpr (by decide)⟩

/-- C6, the failing instance: `José` consists of letters only (`J`, `o`, `s`, `é`), yet
`validateForm` records a fullName entry for it, because `é` (U+00E9) is outside the
alphabet the pattern lists. -/
theorem validateForm_fullName_counterexample :
    lit "José" = [0x4A, 0x6F, 0x73, 0xE9] ∧
    (examplePage "" "" "José" "" "" false).HasFields exampleFields ∧
    (examplePage "" "" "José" "" "" false).validateForm.2.errors.fullName =
      some msgFullName := by
  decide

/-- C6 as amended: in `validateForm` no fullName entry is recorded when the value is empty
after trimming, nor when every code unit of it is one of the letters `a`–`z`, `A`–`Z`,
`а`–`я`, `А`–`Я`, `ё`, `Ё` or white space; a fullName entry is recorded whenever the value
contains a code unit that is neither such a letter nor white space, and every digit and
every punctuation character is of that kind. -/
theorem validateForm_fullName (s : FormValidator) (fs : Fields)
    (hf : s.HasFields fs) (h0 : s.errors.fullName = none) :
    (trim (s.value fs.fullName) = [] → s.validateForm.2.errors.fullName = none) ∧
    ((∀ x ∈ s.value fs.fullName, isNameLetter x = true ∨ isWhiteSpace x = true) →
      s.validateForm.2.errors.fullName = none) ∧
    ((∃ x ∈ s.value fs.fullName, isNameLetter x = false ∧ isWhiteSpace x = false) →
      s.validateForm.2.errors.fullName = some msgFullName) ∧
    (∀ x, isDigit x = true ∨ isPunctuation x = true →
      isNameLetter x = false ∧ isWhiteSpace x = false) := by
  rw [validateForm_eq s fs hf]
  simp only [entry, fullNameOk, h0]
  have hsplit : ∀ x, nameChar x = (isNameLetter x || isWhiteSpace x) := fun _ => rfl
  refine ⟨?_, ?_, ?_, ?_⟩
  · intro h
    simp [h, JSVal.truthy]
  · intro h
    by_cases hempty : trim (s.value fs.fullName) = []
    · simp [hempty, JSVal.truthy]
    · have hm : validateFullName (trim (s.value fs.fullName)) = true := by
        unfold validateFullName
        rw [nameRegex_test_iff]
        refine ⟨hempty, fun x hx => ?_⟩
        rw [hsplit, Bool.or_eq_true]
        exact h x (mem_of_mem_trim _ _ hx)
      simp [hm]
  · rintro ⟨x, hx, hl, hws⟩
    have hnc : nameChar x = false := by rw [hsplit, hl, hws]; rfl
    have hmem : x ∈ trim (s.value fs.fullName) := mem_trim _ _ hx hws
    have hne : trim (s.value fs.fullName) ≠ [] := List.ne_nil_of_mem hmem
    have hm : validateFullName (trim (s.value fs.fullName)) = false := by
      rw [Bool.eq_false_iff]
      unfold validateFullName
      rw [ne_eq, nameRegex_test_iff]
      rintro ⟨-, hall⟩
      rw [hall x hmem] at hnc
      exact absurd hnc (by simp)
    cases htr : trim (s.value fs.fullName) with
    | nil => exact absurd htr hne
    | cons c t =>
      rw [htr] at hm
      simp [hm, JSVal.truthy]
  · intro x hdp
    unfold isNameLetter isWhiteSpace
    unfold isDigit isPunctuation at hdp
    simp only [Bool.and_eq_true, Bool.or_eq_true, decide_eq_true_eq] at hdp
    simp only [Bool.or_eq_false_iff, Bool.and_eq_false_iff, decide_eq_false_iff_not,
      beq_eq_false_iff_ne, ne_eq]
    omega

/-- Instances of C6 as amended: an all-space value and `Иван Petrov` leave no entry,
`Ivan2` (a digit) and `Petrov-Ivanov` (punctuation) leave one. -/
theorem validateForm_fullName_witness :
    (examplePage "" "" "   " "" "" false).validateForm.2.errors.fullName = none ∧
    (examplePage "" "" "Иван Petrov" "" "" false).validateForm.2.errors.fullName = none ∧
    (examplePage "" "" "Ivan2" "" "" false).validateForm.2.errors.fullName =
      some msgFullName ∧
    (examplePage "" "" "Petrov-Ivanov" "" "" false).validateForm.2.errors.fullName =
      some msgFullName :=
  ⟨(validateForm_fullName (examplePage "" "" "   " "" "" false) exampleFields
      (by decide) rfl).1 (by decide),
   (validateForm_fullName (examplePage "" "" "Иван Petrov" "" "" false) exampleFields
      (by decide) rfl).2.1 (by decide),
   (validateForm_fullName (examplePage "" "" "Ivan2" "" "" false) exampleFields
      (by decide) rfl).2.2.1 ⟨0x32, by decide, by decide, by decide⟩,
   (validateForm_fullName (examplePage "" "" "Petrov-Ivanov" "" "" false) exampleFields
      (by decide) rfl).2.2.1 ⟨0x2D, by decide, by decide, by decide⟩⟩

end FormValidator

/-! ## Showing and clearing an error -/

namespace FormValidator

/-- C9: for every field whose container exists and every message, `showFieldError` inserts
exactly one new error-annotation element: it becomes the last child of the container, its
text is the given message, and the container gets the `has-error` marker while keeping its
other data. The container's old children stay where they are, every element outside the
container and off its ancestor line is unchanged, the ancestors keep their own data and
their number of children, and the controller's own data is untouched. -/
theorem showFieldError_effect (s : FormValidator) (input c : Path) (message : String)
    (hc : s.container input = some c) :
    ∃ m, s.doc.get? c = some m ∧
      (s.showFieldError input message).doc.get? c =
        some (.mk { m.attrs with classes := classListAdd m.attrs.classes "has-error" }
          (m.children ++ [errorElement message])) ∧
      (errorElement message).attrs.text = message ∧
      hasClass "error-message" (errorElement message) = true ∧
      (s.showFieldError input message).marked c = true ∧
      (s.showFieldError input message).doc.count (hasClass "error-message") =
        s.doc.count (hasClass "error-message") + 1 ∧
      (∀ i r, i < m.children.length →
        (s.showFieldError input message).doc.get? (c ++ i :: r) = s.doc.get? (c ++ i :: r)) ∧
      (∀ q, ¬ c <+: q → ¬ q <+: c →
        (s.showFieldError input message).doc.get? q = s.doc.get? q) ∧
      (∀ q a, q <+: c → q ≠ c → s.doc.get? q = some a →
        ∃ a', (s.showFieldError input message).doc.get? q = some a' ∧ a'.attrs = a.attrs ∧
          a'.children.length = a.children.length) ∧
      (s.showFieldError input message).errors = s.errors ∧
      (s.showFieldError input message).form = s.form ∧
      (s.showFieldError input message).effects = s.effects := by
  obtain ⟨-, -, m, hm⟩ := container_some s input c hc
  have hget := showFieldError_get s input c message m hc hm
  have hdoc := showFieldError_doc s input c message hc
  obtain ⟨f1, f2, f3⟩ := showFieldError_frame s input message
  refine ⟨m, hm, hget, rfl, rfl, ?_, ?_, ?_, ?_, ?_, f1, f3, f2⟩
  · unfold marked
    rw [hget]
    exact mem_classListAdd _ _
  · have hcount := Node.count_update (hasClass "error-message") (Node.ownData_hasClass _)
      (fun x => addClass "has-error" (appendChild (errorElement message) x)) s.doc c m hm
    rw [← hdoc] at hcount
    simp only at hcount
    have hnew : (addClass "has-error" (appendChild (errorElement message) m)).count
        (hasClass "error-message") = m.count (hasClass "error-message") + 1 := by
      have hsel : hasClass "error-message"
          (addClass "has-error" (appendChild (errorElement message) m)) =
          hasClass "error-message" m :=
        contains_classListAdd m.attrs.classes "has-error" "error-message" (by decide)
      rw [Node.count_eq, Node.count_eq _ m, hsel]
      show _ + Node.countList _ (m.children ++ [errorElement message]) = _
      rw [Node.countList_append, Node.countList_cons, Node.countList_nil, count_errorElement]
      omega
    omega
  · intro i r hi
    rw [Node.get?_append, Node.get?_append, hget, hm, Option.some_bind, Option.some_bind,
      Node.get?_cons, Node.get?_cons, Node.children_mk, List.getElem?_append_left hi]
  · intro q h1 h2
    rw [hdoc]
    exact Node.get?_update_disjoint _ _ _ _ h1 h2
  · rintro q a ⟨r, hr⟩ hne ha
    cases r with
    | nil => exact absurd (by simpa using hr) hne
    | cons i r =>
      subst hr
      rw [hdoc, Node.update_append, Node.get?_update_self _ _ _ a ha]
      exact ⟨_, rfl, (Node.update_cons_shape _ a i r).1, (Node.update_cons_shape _ a i r).2⟩

/-- An instance of C9: on the example page the email message is shown in the container of
the email input, which gains its one annotation. -/
theorem showFieldError_effect_witness :
    ((examplePage "bad-email" "" "" "" "" false).showFieldError
        exampleFields.email msgEmail).doc.count (hasClass "error-message") = 1 ∧
    ((examplePage "bad-email" "" "" "" "" false).showFieldError
        exampleFields.email msgEmail).marked [0, 0, 0, 0] = true := by
  obtain ⟨m, -, -, -, -, h1, h2, -⟩ :=
    showFieldError_effect (examplePage "bad-email" "" "" "" "" false) exampleFields.email
      [0, 0, 0, 0] msgEmail (by decide)
  exact ⟨h2.trans (by decide), h1⟩

/-- C8, the failing instance: on the example page two calls of `showFieldError` for the
email input leave two annotation elements in its container. -/
theorem showFieldError_twice_counterexample :
    (examplePage "bad-email" "" "" "" "" false).container exampleFields.email =
      some [0, 0, 0, 0] ∧
    (((examplePage "bad-email" "" "" "" "" false).showFieldError exampleFields.email
      msgEmail).showFieldError exampleFields.email msgEmail).annotations [0, 0, 0, 0] = 2 := by
  decide

/-- C8 as amended: `showFieldError` does not clear. Every call adds one more annotation
element to the field's container, so two calls in a row leave two more than before. The
clearing is done by the callers: when the container holds at most one annotation,
`clearFieldError` leaves none, and a `showFieldError` that follows it for a field of that
container leaves exactly one. -/
theorem showFieldError_adds_one (s : FormValidator) (input c : Path) (message : String)
    (hc : s.container input = some c) :
    (s.showFieldError input message).annotations c = s.annotations c + 1 ∧
    ((s.showFieldError input message).showFieldError input message).annotations c =
      s.annotations c + 2 ∧
    (s.annotations c ≤ 1 →
      (s.clearFieldError input).annotations c = 0 ∧
      ∀ input', (s.clearFieldError input).container input' = some c →
        ((s.clearFieldError input).showFieldError input' message).annotations c = 1) := by
  have h1 := showFieldError_annotations s input c message hc
  have h2 := showFieldError_annotations (s.showFieldError input message) input c message
    (showFieldError_container s input c message hc)
  refine ⟨h1, by rw [h2, h1], ?_⟩
  intro hle
  have h3 := (clearFieldError_annotations s input c hc).1 hle
  refine ⟨h3, ?_⟩
  intro input' hc'
  rw [showFieldError_annotations (s.clearFieldError input) input' c message hc', h3]

/-- Instances of C8 as amended, on the example page: two bare calls leave two annotations,
a call after `clearFieldError` leaves one. -/
theorem showFieldError_adds_one_witness :
    (((examplePage "bad-email" "" "" "" "" false).showFieldError exampleFields.email
      msgEmail).showFieldError exampleFields.email msgEmail).annotations [0, 0, 0, 0] =
      0 + 2 ∧
    ((((examplePage "bad-email" "" "" "" "" false).showFieldError exampleFields.email
      msgEmail).clearFieldError exampleFields.email).showFieldError exampleFields.email
      msgEmail).annotations [0, 0, 0, 0] = 1 :=
  ⟨(showFieldError_adds_one (examplePage "bad-email" "" "" "" "" false) exampleFields.email
      [0, 0, 0, 0] msgEmail (by decide)).2.1,
   ((showFieldError_adds_one ((examplePage "bad-email" "" "" "" "" false).showFieldError
      exampleFields.email msgEmail) exampleFields.email [0, 0, 0, 0] msgEmail
      (by decide)).2.2 (by decide)).2 exampleFields.email (by decide)⟩

/-- C10, the failing instance: on a page where the password and confirmation inputs share a
container, a rejected submit leaves two annotations there; the first `clearFieldError` for
the password input removes one of them and the second call removes the other, so the second
call is not a no-op. -/
theorem clearFieldError_twice_counterexample :
    (sharedContainerPage "123" "456").handleSubmit.2.container [0, 0, 0, 3, 0] =
      some [0, 0, 0, 3] ∧
    (sharedContainerPage "123" "456").handleSubmit.2.annotations [0, 0, 0, 3] = 2 ∧
    ((sharedContainerPage "123" "456").handleSubmit.2.clearFieldError
      [0, 0, 0, 3, 0]).annotations [0, 0, 0, 3] = 1 ∧
    (((sharedContainerPage "123" "456").handleSubmit.2.clearFieldError
      [0, 0, 0, 3, 0]).clearFieldError [0, 0, 0, 3, 0]).annotations [0, 0, 0, 3] = 0 ∧
    ((sharedContainerPage "123" "456").handleSubmit.2.clearFieldError
      [0, 0, 0, 3, 0]).clearFieldError [0, 0, 0, 3, 0] ≠
      (sharedContainerPage "123" "456").handleSubmit.2.clearFieldError [0, 0, 0, 3, 0] := by
  refine ⟨by decide, by decide, by decide, by decide, ?_⟩
  intro h
  exact absurd (congrArg (fun t => t.annotations [0, 0, 0, 3]) h) (by decide)

/-- C10 as amended: when the field's container holds at most one annotation element,
`clearFieldError` leaves no annotation and no `has-error` marker in it, and calling
`clearFieldError` again for a field of that container changes nothing. The method is total:
it cannot throw. -/
theorem clearFieldError_idempotent (s : FormValidator) (input c : Path)
    (hc : s.container input = some c) (hle : s.annotations c ≤ 1) :
    (s.clearFieldError input).annotations c = 0 ∧
    (s.clearFieldError input).marked c = false ∧
    ∀ input', (s.clearFieldError input).container input' = some c →
      (s.clearFieldError input).clearFieldError input' = s.clearFieldError input := by
  obtain ⟨h1, h2⟩ := clearFieldError_annotations s input c hc
  have h0 := h1 hle
  refine ⟨h0, h2, ?_⟩
  intro input' hc'
  obtain ⟨-, -, m, hm⟩ := container_some _ input' c hc'
  have hfind : m.find (hasClass "error-message") = none := by
    apply Node.find_of_count_zero
    unfold annotations at h0
    rw [hm] at h0
    exact h0
  have hclean : removeClass "has-error" m = m := by
    unfold marked at h2
    rw [hm] at h2
    have hfilter : classListRemove m.attrs.classes "has-error" = m.attrs.classes := by
      unfold classListRemove
      rw [List.filter_eq_self]
      intro x hx
      rw [bne_iff_ne]
      intro hxe
      have hcontains : m.attrs.classes.contains "has-error" = true := by
        rw [List.contains_eq_any_beq, List.any_eq_true]
        exact ⟨x, hx, by rw [hxe]; exact beq_self_eq_true _⟩
      have h2' : m.attrs.classes.contains "has-error" = false := h2
      rw [hcontains] at h2'
      exact absurd h2' (by simp)
    unfold removeClass
    rw [hfilter]
    exact Node.mk_attrs_children m
  generalize s.clearFieldError input = t at hc' hm ⊢
  unfold clearFieldError
  simp only [hc', Node.querySelector, hm, hfind]
  rw [Node.update_eq_self _ _ _ m hm hclean]

/-- An instance of C10 as amended: after a rejected submit of the example page the email
container holds one annotation; one `clearFieldError` removes it together with the marker,
and a second call changes nothing. -/
theorem clearFieldError_idempotent_witness :
    ((examplePage "bad-email" "" "" "secret1" "secret1" true).handleSubmit.2.clearFieldError
      exampleFields.email).marked [0, 0, 0, 0] = false ∧
    ((examplePage "bad-email" "" "" "secret1" "secret1" true).handleSubmit.2.clearFieldError
      exampleFields.email).clearFieldError exampleFields.email =
    (examplePage "bad-email" "" "" "secret1" "secret1" true).handleSubmit.2.clearFieldError
      exampleFields.email :=
  ⟨(clearFieldError_idempotent
      (examplePage "bad-email" "" "" "secret1" "secret1" true).handleSubmit.2
      exampleFields.email [0, 0, 0, 0] (by decide) (by decide)).2.1,
   (clearFieldError_idempotent
      (examplePage "bad-email" "" "" "secret1" "secret1" true).handleSubmit.2
      exampleFields.email [0, 0, 0, 0] (by decide) (by decide)).2.2
      exampleFields.email (by decide)⟩

end FormValidator

/-! ## The submitted record -/

namespace FormValidator

/-- C15: with the four inputs it reads present, `submitForm` returns normally after logging
the record `{email, organization, fullName, password}` and showing the acknowledgement; the
record holds the trimmed values of the email, organization and full-name inputs and the raw,
untrimmed value of the password input, and (by its type) no other field. Nothing else of the
state changes. -/
theorem submitForm_record (s : FormValidator) (email organization fullName password : Path)
    (h1 : s.query (inputWithPlaceholder phEmail) = some email)
    (h2 : s.query (inputWithPlaceholder phOrganization) = some organization)
    (h3 : s.query (inputWithPlaceholder phFullName) = some fullName)
    (h4 : s.query (inputWithPlaceholder phPassword) = some password) :
    s.submitForm =
      (.normal (), { s with effects := s.effects ++
        [Effect.consoleLog "Данные формы:"
          { email := trim (s.value email), organization := trim (s.value organization),
            fullName := trim (s.value fullName), password := s.value password },
         Effect.alert "Форма успешно отправлена!"] }) := by
  unfold submitForm
  simp only [h1, h2, h3, h4]

/-- An instance of C15: values with white space around them are trimmed in the record,
except the password, which is passed on as typed. -/
theorem submitForm_record_witness :
    (examplePage " user@site.ru " " Org " " Ivan " " secret1 " " secret1 " true).submitForm.2.effects =
      [Effect.consoleLog "Данные формы:"
        { email := lit "user@site.ru", organization := lit "Org", fullName := lit "Ivan",
          password := lit " secret1 " },
       Effect.alert "Форма успешно отправлена!"] :=
  (congrArg (fun r => r.2.effects)
    (submitForm_record
      (examplePage " user@site.ru " " Org " " Ivan " " secret1 " " secret1 " true)
      exampleFields.email [0, 0, 0, 1, 0] exampleFields.fullName exampleFields.password
      (by decide) (by decide) (by decide) (by decide))).trans (by decide)

end FormValidator

/-! ## The email rule, exactly -/

theorem count_eq_zero_of_notSpaceAt (a : JSString) (h : ∀ x ∈ a, notSpaceAt x = true) :
    a.count 0x40 = 0 := by
  rw [List.count_eq_zero]
  intro hmem
  have := h _ hmem
  simp [notSpaceAt] at this

theorem isWhiteSpace_of_notSpaceAt (x : Nat) (h : notSpaceAt x = true) :
    isWhiteSpace x = false := by
  unfold notSpaceAt at h
  cases hw : isWhiteSpace x with
  | false => rfl
  | true => rw [hw] at h; simp at h

theorem notSpaceAt_of (x : Nat) (hw : isWhiteSpace x = false) (hx : x ≠ 0x40) :
    notSpaceAt x = true := by
  unfold notSpaceAt
  rw [hw]
  simpa using hx

/-- C17: `validateEmail(s)` passes if and only if `s` contains exactly one `@`, contains no
white-space character, has at least one character before the `@`, and the part after the
`@` contains a `.` with at least one character of that part before it and at least one
after it. -/
theorem validateEmail_iff (s : JSString) :
    (validateEmail s).truthy = true ↔
      s.count 0x40 = 1 ∧ (∀ x ∈ s, isWhiteSpace x = false) ∧
      ∃ a rest, s = a ++ 0x40 :: rest ∧ a ≠ [] ∧
        ∃ b c, rest = b ++ 0x2E :: c ∧ b ≠ [] ∧ c ≠ [] := by
  rw [truthy_validateEmail, emailRegex_test_iff]
  constructor
  · rintro ⟨a, b, c, rfl, ha, hb, hc, ha', hb', hc'⟩
    refine ⟨?_, ?_, a, b ++ 0x2E :: c, rfl, ha, b, c, rfl, hb, hc⟩
    · simp only [List.count_append, List.count_cons_self, List.count_cons,
        count_eq_zero_of_notSpaceAt a ha', count_eq_zero_of_notSpaceAt b hb',
        count_eq_zero_of_notSpaceAt c hc']
      simp
    · intro x hx
      simp only [List.mem_append, List.mem_cons] at hx
      rcases hx with hx | rfl | hx | rfl | hx
      · exact isWhiteSpace_of_notSpaceAt x (ha' x hx)
      · decide
      · exact isWhiteSpace_of_notSpaceAt x (hb' x hx)
      · decide
      · exact isWhiteSpace_of_notSpaceAt x (hc' x hx)
  · rintro ⟨hcount, hws, a, rest, rfl, ha, b, c, rfl, hb, hc⟩
    have hno : (a ++ (b ++ 0x2E :: c)).count 0x40 = 0 := by
      simp only [List.count_append, List.count_cons_self] at hcount
      simp only [List.count_append]
      omega
    have hnotin : ∀ x ∈ a ++ (b ++ 0x2E :: c), x ≠ 0x40 := by
      intro x hx hx40
      rw [hx40] at hx
      exact absurd hx (List.count_eq_zero.mp hno)
    refine ⟨a, b, c, rfl, ha, hb, hc, ?_, ?_, ?_⟩
    · intro x hx
      exact notSpaceAt_of x (hws x (by simp [hx])) (hnotin x (by simp [hx]))
    · intro x hx
      exact notSpaceAt_of x (hws x (by simp [hx])) (hnotin x (by simp [hx]))
    · intro x hx
      exact notSpaceAt_of x (hws x (by simp [hx])) (hnotin x (by simp [hx]))

/-! ## Single-field validation and the error mapping -/

namespace FormValidator

theorem clearFieldError_frame (s : FormValidator) (input : Path) :
    (s.clearFieldError input).errors = s.errors ∧
    (s.clearFieldError input).effects = s.effects ∧
    (s.clearFieldError input).form = s.form := by
  unfold clearFieldError
  split <;> exact ⟨rfl, rfl, rfl⟩

theorem showFieldErrorAt_frame (s : FormValidator) (input : Option Path) (message : String) :
    (s.showFieldErrorAt input message).errors = s.errors ∧
    (s.showFieldErrorAt input message).effects = s.effects ∧
    (s.showFieldErrorAt input message).form = s.form := by
  cases input with
  | none => exact ⟨rfl, rfl, rfl⟩
  | some i => exact showFieldError_frame s i message

/-- Whatever `validateField` does, it ends in the cleared state or in the cleared state with
one message shown. -/
theorem validateField_cases (s : FormValidator) (input : Path) :
    (s.validateField input).2 = s.clearFieldError input ∨
    ∃ m, (s.validateField input).2 =
      (s.clearFieldError input).showFieldErrorAt
        (relocateAfter (s.removedBy input) input) m := by
  unfold validateField
  simp only
  split_ifs
  all_goals first
    | exact Or.inl rfl
    | exact Or.inr ⟨_, rfl⟩
    | (split
       · exact Or.inl rfl
       · split_ifs
         · exact Or.inr ⟨_, rfl⟩
         · exact Or.inl rfl)

theorem showIfError_errors (s : FormValidator) (input : Option Path)
    (message : Option String) : (s.showIfError input message).2.errors = s.errors := by
  unfold showIfError
  split
  · split
    · split
      · exact (showFieldError_frame s _ _).1
      · rfl
    · rfl
  · rfl

theorem displayErrors_errors (s : FormValidator) : s.displayErrors.2.errors = s.errors := by
  unfold displayErrors
  simp only
  have step : ∀ (t : FormValidator) (i : Option Path) (m : Option String)
      (k : FormValidator → Completion Unit × FormValidator),
      (∀ u, u.errors = t.errors → (k u).2.errors = t.errors) →
      (match t.showIfError i m with
        | (.throw e, u) => (Completion.throw e, u)
        | (.normal _, u) => k u).2.errors = t.errors := by
    intro t i m k hk
    have he := showIfError_errors t i m
    generalize t.showIfError i m = r at he
    obtain ⟨c, u⟩ := r
    cases c with
    | throw e => exact he
    | normal v => exact hk u he
  apply step
  intro u1 h1
  rw [← h1]
  apply step
  intro u2 h2
  rw [← h2]
  apply step
  intro u3 h3
  rw [← h3]
  apply step
  intro u4 h4
  rw [← h4]
  exact showIfError_errors u4 _ _

end FormValidator

namespace FormValidator

/-- Whatever `validateForm` finds, an entry that was present is still present afterwards. -/
theorem validateForm_keeps (s : FormValidator) :
    (s.errors.email.isSome = true → s.validateForm.2.errors.email.isSome = true) ∧
    (s.errors.password.isSome = true → s.validateForm.2.errors.password.isSome = true) ∧
    (s.errors.confirmPassword.isSome = true →
      s.validateForm.2.errors.confirmPassword.isSome = true) ∧
    (s.errors.checkbox.isSome = true → s.validateForm.2.errors.checkbox.isSome = true) ∧
    (s.errors.fullName.isSome = true → s.validateForm.2.errors.fullName.isSome = true) := by
  unfold validateForm
  simp only
  cases s.query (inputWithPlaceholder phEmail) with
  | none => exact ⟨id, id, id, id, id⟩
  | some email =>
    simp only
    rcases Bool.eq_false_or_eq_true (!(validateEmail (trim (s.value email))).truthy)
      with a | a <;> simp only [a] <;>
    cases s.query (inputWithPlaceholder phPassword) with
    | none => simp
    | some password =>
      simp only
      rcases Bool.eq_false_or_eq_true (!(validatePassword (s.value password)).truthy)
        with b | b <;> simp only [b] <;>
      cases s.query (inputWithPlaceholder phConfirmPassword) with
      | none => simp
      | some confirmPassword =>
        simp only
        rcases Bool.eq_false_or_eq_true (s.value password != s.value confirmPassword)
          with c | c <;> simp only [c] <;>
        cases s.query inputCheckbox with
        | none => simp
        | some checkbox =>
          simp only
          rcases Bool.eq_false_or_eq_true (!s.checked checkbox) with d | d <;>
          simp only [d] <;>
          cases s.query (inputWithPlaceholder phFullName) with
          | none => simp
          | some fullName =>
            simp only
            rcases Bool.eq_false_or_eq_true ((JSVal.str (trim (s.value fullName))).truthy &&
              !validateFullName (trim (s.value fullName))) with e | e <;>
            simp [e]

/-- Whatever `validateField` does, the error mapping stays as it is. -/
theorem validateField_errors (s : FormValidator) (input : Path) :
    (s.validateField input).2.errors = s.errors := by
  rcases validateField_cases s input with h | ⟨m, h⟩
  · rw [h]
    exact (clearFieldError_frame s input).1
  · rw [h, (showFieldErrorAt_frame _ _ _).1]
    exact (clearFieldError_frame s input).1

/-- C18: `validateField` on an input whose placeholder is none of `E-mail*`, `Пароль`,
`Подтверждение пароля`, `ФИО` returns normally and its whole effect is that of
`clearFieldError` on that input: no error is shown, whatever the value or checked state. -/
theorem validateField_other (s : FormValidator) (input : Path)
    (h1 : s.placeholder input ≠ some phEmail) (h2 : s.placeholder input ≠ some phPassword)
    (h3 : s.placeholder input ≠ some phConfirmPassword)
    (h4 : s.placeholder input ≠ some phFullName) :
    s.validateField input = (.normal (), s.clearFieldError input) := by
  unfold validateField
  simp only [h1, h2, h3, h4, if_false]

/-- Instances of C18 on the example page with the consent box unchecked: a blur on the
checkbox or on the organization input is a mere `clearFieldError` and shows nothing, while
a submit does report the unchecked box. -/
theorem validateField_other_witness :
    (examplePage "user@site.ru" "" "" "secret1" "secret1" false).validateField
        exampleFields.checkbox =
      (.normal (), (examplePage "user@site.ru" "" "" "secret1" "secret1" false).clearFieldError
        exampleFields.checkbox) ∧
    (examplePage "user@site.ru" "" "" "secret1" "secret1" false).validateField
        [0, 0, 0, 1, 0] =
      (.normal (), (examplePage "user@site.ru" "" "" "secret1" "secret1" false).clearFieldError
        [0, 0, 0, 1, 0]) ∧
    ((examplePage "user@site.ru" "" "" "secret1" "secret1" false).validateField
        exampleFields.checkbox).2.annotations [0, 0, 0, 5] = 0 ∧
    (examplePage "user@site.ru" "" "" "secret1" "secret1" false).handleSubmit.2.annotations
        [0, 0, 0, 5] = 1 :=
  ⟨validateField_other _ _ (by decide) (by decide) (by decide) (by decide),
   validateField_other _ _ (by decide) (by decide) (by decide) (by decide),
   by decide, by decide⟩

/-- C19: `validateField`, `showFieldError`, `clearFieldError` and `displayErrors` leave the
error mapping as it is, for every state, input and message, also when they throw; and
`validateForm` only adds or overwrites entries: every entry present before the call is
present after it. -/
theorem errors_written_only_by_validateForm (s : FormValidator) (input : Path)
    (message : String) :
    (s.validateField input).2.errors = s.errors ∧
    (s.showFieldError input message).errors = s.errors ∧
    (s.clearFieldError input).errors = s.errors ∧
    s.displayErrors.2.errors = s.errors ∧
    (s.errors.email.isSome = true → s.validateForm.2.errors.email.isSome = true) ∧
    (s.errors.password.isSome = true → s.validateForm.2.errors.password.isSome = true) ∧
    (s.errors.confirmPassword.isSome = true →
      s.validateForm.2.errors.confirmPassword.isSome = true) ∧
    (s.errors.checkbox.isSome = true → s.validateForm.2.errors.checkbox.isSome = true) ∧
    (s.errors.fullName.isSome = true → s.validateForm.2.errors.fullName.isSome = true) := by
  exact ⟨validateField_errors s input, (showFieldError_frame s input message).1,
    (clearFieldError_frame s input).1, displayErrors_errors s, validateForm_keeps s⟩

/-- An instance of C19: on a state that already carries a stale fullName entry, a blur on
the (invalid) email input leaves the mapping alone, and `validateForm` with a valid full
name keeps the stale entry while adding the email entry. -/
theorem errors_written_only_by_validateForm_witness :
    (({ examplePage "bad" "" "Ivan" "secret1" "secret1" true with
        errors := { Errors.none with fullName := some msgFullName } } :
        FormValidator).validateField exampleFields.email).2.errors =
      { Errors.none with fullName := some msgFullName } ∧
    ({ examplePage "bad" "" "Ivan" "secret1" "secret1" true with
        errors := { Errors.none with fullName := some msgFullName } } :
        FormValidator).validateForm.2.errors.fullName.isSome = true :=
  ⟨(errors_written_only_by_validateForm _ exampleFields.email "").1,
   (errors_written_only_by_validateForm
      ({ examplePage "bad" "" "Ivan" "secret1" "secret1" true with
        errors := { Errors.none with fullName := some msgFullName } } : FormValidator)
      exampleFields.email "").2.2.2.2.2.2.2.2 (by decide)⟩

end FormValidator

/-! ## Absent inputs -/

namespace FormValidator

/-- C13, the failing instance: on a form without a full-name input (all other inputs present
and valid) `validateForm` throws a `TypeError` instead of skipping the rule, and so does
`handleSubmit`. -/
theorem validateForm_missing_counterexample :
    (pageWith [textInput phEmail "user@site.ru", textInput phOrganization "",
      textInput phPassword "secret1", textInput phConfirmPassword "secret1",
      checkboxInput true]).query (inputWithPlaceholder phFullName) = none ∧
    (pageWith [textInput phEmail "user@site.ru", textInput phOrganization "",
      textInput phPassword "secret1", textInput phConfirmPassword "secret1",
      checkboxInput true]).validateForm.1 = .throw typeError ∧
    (pageWith [textInput phEmail "user@site.ru", textInput phOrganization "",
      textInput phPassword "secret1", textInput phConfirmPassword "secret1",
      checkboxInput true]).handleSubmit.1 = .throw typeError := by
  decide

/-- C13 as amended: an absent input is not skipped. `validateForm` throws a `TypeError` when
it reaches the rule of the first absent input, in the order email, password, confirmation,
checkbox, full name: the rules before that point have been run and their failures
recorded, the rules from that point on are not evaluated. The organization input, which is
queried but never read, plays no part: with the other five present `validateForm` returns
normally whether it exists or not. -/
theorem validateForm_missing (s : FormValidator) :
    (s.query (inputWithPlaceholder phEmail) = none →
      s.validateForm = (.throw typeError, s)) ∧
    (∀ email, s.query (inputWithPlaceholder phEmail) = some email →
      s.query (inputWithPlaceholder phPassword) = none →
      s.validateForm = (.throw typeError, { s with errors := { s.errors with
        email := entry (validateEmail (trim (s.value email))).truthy s.errors.email
          msgEmail } })) ∧
    (∀ email password, s.query (inputWithPlaceholder phEmail) = some email →
      s.query (inputWithPlaceholder phPassword) = some password →
      s.query (inputWithPlaceholder phConfirmPassword) = none →
      s.validateForm = (.throw typeError, { s with errors := { s.errors with
        email := entry (validateEmail (trim (s.value email))).truthy s.errors.email msgEmail
        password := entry (validatePassword (s.value password)).truthy s.errors.password
          msgPassword } })) ∧
    (∀ email password confirmPassword, s.query (inputWithPlaceholder phEmail) = some email →
      s.query (inputWithPlaceholder phPassword) = some password →
      s.query (inputWithPlaceholder phConfirmPassword) = some confirmPassword →
      s.query inputCheckbox = none →
      s.validateForm = (.throw typeError, { s with errors := { s.errors with
        email := entry (validateEmail (trim (s.value email))).truthy s.errors.email msgEmail
        password := entry (validatePassword (s.value password)).truthy s.errors.password
          msgPassword
        confirmPassword := entry (!(s.value password != s.value confirmPassword))
          s.errors.confirmPassword msgConfirmPassword } })) ∧
    (∀ fs, s.query (inputWithPlaceholder phEmail) = some fs.email →
      s.query (inputWithPlaceholder phPassword) = some fs.password →
      s.query (inputWithPlaceholder phConfirmPassword) = some fs.confirmPassword →
      s.query inputCheckbox = some fs.checkbox →
      s.query (inputWithPlaceholder phFullName) = none →
      s.validateForm = (.throw typeError, { s with errors := { s.errors with
        email := entry (s.emailOk fs) s.errors.email msgEmail
        password := entry (s.passwordOk fs) s.errors.password msgPassword
        confirmPassword := entry (s.confirmPasswordOk fs) s.errors.confirmPassword
          msgConfirmPassword
        checkbox := entry (s.checkboxOk fs) s.errors.checkbox msgCheckbox } })) ∧
    (∀ fs, s.HasFields fs → s.validateForm.1 = .normal (s.allOk fs)) := by
  refine ⟨?_, ?_, ?_, ?_, ?_, ?_⟩
  · intro h1
    unfold validateForm
    simp only [h1]
  · intro email h1 h2
    unfold validateForm
    simp only [h1, h2, entry]
    rcases Bool.eq_false_or_eq_true (validateEmail (trim (s.value email))).truthy
      with a | a <;> simp only [a] <;> rfl
  · intro email password h1 h2 h3
    unfold validateForm
    simp only [h1, h2, h3, entry]
    rcases Bool.eq_false_or_eq_true (validateEmail (trim (s.value email))).truthy
      with a | a <;>
    rcases Bool.eq_false_or_eq_true (validatePassword (s.value password)).truthy
      with b | b <;> simp only [a, b] <;> rfl
  · intro email password confirmPassword h1 h2 h3 h4
    unfold validateForm
    simp only [h1, h2, h3, h4, entry]
    rcases Bool.eq_false_or_eq_true (validateEmail (trim (s.value email))).truthy
      with a | a <;>
    rcases Bool.eq_false_or_eq_true (validatePassword (s.value password)).truthy
      with b | b <;>
    rcases Bool.eq_false_or_eq_true (s.value password != s.value confirmPassword)
      with c | c <;> simp only [a, b, c] <;> rfl
  · intro fs h1 h2 h3 h4 h5
    unfold validateForm
    simp only [h1, h2, h3, h4, h5, entry, emailOk, passwordOk, confirmPasswordOk, checkboxOk]
    rcases Bool.eq_false_or_eq_true (validateEmail (trim (s.value fs.email))).truthy
      with a | a <;>
    rcases Bool.eq_false_or_eq_true (validatePassword (s.value fs.password)).truthy
      with b | b <;>
    rcases Bool.eq_false_or_eq_true (s.value fs.password != s.value fs.confirmPassword)
      with c | c <;>
    rcases Bool.eq_false_or_eq_true (s.checked fs.checkbox) with d | d <;>
    simp only [a, b, c, d] <;> rfl
  · intro fs hf
    rw [validateForm_eq s fs hf]

/-- Instances of C13 as amended: without a password input the email failure is recorded and
then the call throws; without an organization input nothing goes wrong. -/
theorem validateForm_missing_witness :
    (pageWith [textInput phEmail "bad-email", textInput phFullName "1",
      checkboxInput false]).validateForm =
      (.throw typeError, { pageWith [textInput phEmail "bad-email", textInput phFullName "1",
        checkboxInput false] with
        errors := { Errors.none with email := some msgEmail } }) ∧
    (pageWith [textInput phEmail "user@site.ru", textInput phFullName "",
      textInput phPassword "secret1", textInput phConfirmPassword "secret1",
      checkboxInput true]).validateForm.1 = .normal true :=
  ⟨((validateForm_missing _).2.1 [0, 0, 0, 0] (by decide) (by decide)).trans (by
      simp only [entry]
      rfl),
   ((validateForm_missing _).2.2.2.2.2
      { email := [0, 0, 0, 0], fullName := [0, 0, 0, 1], password := [0, 0, 0, 2],
        confirmPassword := [0, 0, 0, 3], checkbox := [0, 0, 0, 4] } (by decide)).trans
      (by decide)⟩

/-- What `validateField` does for the password and confirmation inputs: both rules are run
on the trimmed value of the input; the confirmation is compared with the raw password. -/
theorem validateField_password_rules (s : FormValidator) (input : Path) :
    (s.placeholder input = some phPassword →
      s.validateField input = (.normal (),
        if (trim (s.value input)).length < 6 then
          (s.clearFieldError input).showFieldErrorAt
            (relocateAfter (s.removedBy input) input) msgPassword
        else s.clearFieldError input)) ∧
    (s.placeholder input = some phConfirmPassword →
      ∀ password, s.passwordAfterClear input = some password →
      s.validateField input = (.normal (),
        if trim (s.value input) = password then s.clearFieldError input
        else (s.clearFieldError input).showFieldErrorAt
            (relocateAfter (s.removedBy input) input) msgConfirmPassword)) := by
  constructor
  · intro h
    unfold validateField
    have hne : ¬ (some phPassword = some phEmail) := by decide
    simp only [h, hne, if_false, if_true, truthy_validatePassword]
    by_cases hl : (trim (s.value input)).length < 6
    · simp [hl]
    · simp [hl, Nat.le_of_not_lt hl]
  · intro h password hp
    unfold validateField
    have hne1 : ¬ (some phConfirmPassword = some phEmail) := by decide
    have hne2 : ¬ (some phConfirmPassword = some phPassword) := by decide
    simp only [h, hne1, hne2, if_false, if_true, hp]
    by_cases he : trim (s.value input) = password
    · simp [he]
    · simp [he]

/-- C12, evaluated where the two paths part. With password `12345 ` (five digits and a
space) `validateForm` records no password error, the raw length being 6, while
`validateField` on the password input shows the password message, the trimmed length
being 5. With password `secret1` and confirmation `secret1 ` (a trailing space)
`validateForm` records the mismatch, while `validateField` on the confirmation input shows
nothing, the trimmed confirmation being equal to the password. -/
theorem validateField_differs_from_validateForm :
    (examplePage "user@site.ru" "" "" "12345 " "12345 " true).validateForm.2.errors.password =
      none ∧
    ((examplePage "user@site.ru" "" "" "12345 " "12345 " true).validateField
      exampleFields.password).2.doc.get? [0, 0, 0, 3, 1] = some (errorElement msgPassword) ∧
    (examplePage "user@site.ru" "" "" "secret1" "secret1 " true).validateForm.2.errors.confirmPassword =
      some msgConfirmPassword ∧
    ((examplePage "user@site.ru" "" "" "secret1" "secret1 " true).validateField
      exampleFields.confirmPassword).2.annotations [0, 0, 0, 4] = 0 := by
  refine ⟨by decide, rfl, by decide, by decide⟩

end FormValidator

/-! ## The order in which errors are displayed -/

namespace FormValidator

/-- Every field of a container keeps that container when `showFieldError` is called for one
of them. -/
theorem showFieldError_container_of (s : FormValidator) (i j c : Path) (message : String)
    (hi : s.container i = some c) (hj : s.container j = some c) :
    (s.showFieldError i message).container j = some c := by
  obtain ⟨⟨r, hr⟩, ⟨e, he⟩, -⟩ := container_some s j c hj
  subst hr
  have key : ∀ x : String, x ≠ "has-error" →
      (s.showFieldError i message).doc.closest (hasClass x) (c ++ r) =
        s.doc.closest (hasClass x) (c ++ r) := by
    intro x hx
    rw [showFieldError_doc s i c message hi]
    apply Node.closest_update (hasClass x) (Node.ownData_hasClass x) _ _ _ s.doc c r e he
    · intro m
      exact contains_classListAdd m.attrs.classes "has-error" x hx
    · intro m k y hy
      show (m.children ++ [errorElement message])[k]? = some y
      rw [List.getElem?_append_left (Node.lt_of_getElem? _ _ _ hy)]
      exact hy
  unfold container at hj ⊢
  rw [key "form_input" (by decide), key "b-label" (by decide)]
  exact hj

/-- One statement of `displayErrors` on a field of container `c`: the message it shows, if
any, becomes the last child of the container, and the fields of the container keep it. -/
theorem showIfError_children (t : FormValidator) (i c : Path) (m : Node)
    (message : Option String) (hc : t.container i = some c) (hm : t.doc.get? c = some m) :
    ∃ m', (t.showIfError (some i) message).2.doc.get? c = some m' ∧
      m'.children = m.children ++ (shown message).map errorElement ∧
      ∀ j, t.container j = some c → (t.showIfError (some i) message).2.container j = some c := by
  cases message with
  | none => exact ⟨m, hm, by simp [shown], fun j hj => hj⟩
  | some msg =>
    by_cases hne : msg ≠ ""
    · have hs : shown (some msg) = [msg] := by
        unfold shown
        exact if_pos hne
      have hi : t.showIfError (some i) (some msg) = (.normal (), t.showFieldError i msg) := by
        unfold showIfError
        exact if_pos hne
      rw [hs, hi]
      refine ⟨_, showFieldError_get t i c msg m hc hm, by simp [Node.children_mk], ?_⟩
      intro j hj
      exact showFieldError_container_of t i j c msg hc hj
    · have hs : shown (some msg) = [] := by
        unfold shown
        exact if_neg hne
      have hi : t.showIfError (some i) (some msg) = (.normal (), t) := by
        unfold showIfError
        exact if_neg hne
      rw [hs, hi]
      exact ⟨m, hm, by simp, fun j hj => hj⟩

/-- C14, the failing instance: on a page whose inputs share one container, with an invalid
full name and the consent box unchecked, `validateForm` runs the checkbox rule before the
full-name rule, but after the rejected submit the full-name message stands before the
checkbox message. -/
theorem displayErrors_order_counterexample :
    (oneContainerPage "user@site.ru" "1" "secret1" "secret1" false).handleSubmit.2.annotationTexts
      [0, 0, 0, 0] = [msgFullName, msgCheckbox] ∧
    validationOrder
      (oneContainerPage "user@site.ru" "1" "secret1" "secret1" false).handleSubmit.2.errors =
      [msgCheckbox, msgFullName] := by
  decide

/-- C14 as amended: `displayErrors` shows the errors in the order of its own statements:
email, password, password confirmation, full name, consent checkbox; that is the order of
`validateForm` except that the full name comes before the checkbox. With the five inputs
present it returns normally and is the five statements run in that order; when the inputs
share a container, the messages shown are appended to the container's children in that
order. -/
theorem displayErrors_order (s : FormValidator) (fs : Fields) (hf : s.HasFields fs) :
    s.displayErrors.1 = .normal () ∧
    s.displayErrors.2 =
      (((((s.showIfError (some fs.email) s.errors.email).2.showIfError
        (some fs.password) s.errors.password).2.showIfError
        (some fs.confirmPassword) s.errors.confirmPassword).2.showIfError
        (some fs.fullName) s.errors.fullName).2.showIfError
        (some fs.checkbox) s.errors.checkbox).2 ∧
    ∀ c m, s.container fs.email = some c → s.container fs.password = some c →
      s.container fs.confirmPassword = some c → s.container fs.fullName = some c →
      s.container fs.checkbox = some c → s.doc.get? c = some m →
      ∃ m', s.displayErrors.2.doc.get? c = some m' ∧
        m'.children = m.children ++ (displayOrder s.errors).map errorElement := by
  have hnormal := (displayErrors_normal s fs hf).1
  obtain ⟨h1, h2, h3, h4, h5⟩ := hf
  have hshape : s.displayErrors.2 =
      (((((s.showIfError (some fs.email) s.errors.email).2.showIfError
        (some fs.password) s.errors.password).2.showIfError
        (some fs.confirmPassword) s.errors.confirmPassword).2.showIfError
        (some fs.fullName) s.errors.fullName).2.showIfError
        (some fs.checkbox) s.errors.checkbox).2 := by
    unfold displayErrors
    simp only [h1, h2, h3, h4, h5]
    obtain ⟨a1, a2, -⟩ := showIfError_some s fs.email s.errors.email
    generalize s.showIfError (some fs.email) s.errors.email = r1 at a1 a2
    obtain ⟨c1, s1⟩ := r1
    simp only at a1 a2
    subst a1
    simp only [a2]
    obtain ⟨b1, b2, -⟩ := showIfError_some s1 fs.password s.errors.password
    generalize s1.showIfError (some fs.password) s.errors.password = r2 at b1 b2
    obtain ⟨c2, s2⟩ := r2
    simp only at b1 b2
    subst b1
    simp only [b2, a2]
    obtain ⟨d1, d2, -⟩ := showIfError_some s2 fs.confirmPassword s.errors.confirmPassword
    generalize s2.showIfError (some fs.confirmPassword) s.errors.confirmPassword = r3
      at d1 d2
    obtain ⟨c3, s3⟩ := r3
    simp only at d1 d2
    subst d1
    simp only [d2, b2, a2]
    obtain ⟨e1, e2, -⟩ := showIfError_some s3 fs.fullName s.errors.fullName
    generalize s3.showIfError (some fs.fullName) s.errors.fullName = r4 at e1 e2
    obtain ⟨c4, s4⟩ := r4
    simp only at e1 e2
    subst e1
    simp only [e2, d2, b2, a2]
  refine ⟨hnormal, hshape, ?_⟩
  intro c m k1 k2 k3 k4 k5 hm
  rw [hshape]
  obtain ⟨m1, g1, ch1, keep1⟩ := showIfError_children s fs.email c m s.errors.email k1 hm
  obtain ⟨m2, g2, ch2, keep2⟩ := showIfError_children _ fs.password c m1 s.errors.password
    (keep1 _ k2) g1
  obtain ⟨m3, g3, ch3, keep3⟩ := showIfError_children _ fs.confirmPassword c m2
    s.errors.confirmPassword (keep2 _ (keep1 _ k3)) g2
  obtain ⟨m4, g4, ch4, keep4⟩ := showIfError_children _ fs.fullName c m3 s.errors.fullName
    (keep3 _ (keep2 _ (keep1 _ k4))) g3
  obtain ⟨m5, g5, ch5, -⟩ := showIfError_children _ fs.checkbox c m4 s.errors.checkbox
    (keep4 _ (keep3 _ (keep2 _ (keep1 _ k5)))) g4
  refine ⟨m5, g5, ?_⟩
  rw [ch5, ch4, ch3, ch2, ch1]
  simp only [displayOrder, List.map_append, List.append_assoc]

/-- An instance of C14 as amended: on the one-container page with all five rules failing,
the five messages are appended after the six inputs in the order email, password,
confirmation, full name, checkbox. -/
theorem displayErrors_order_witness :
    ∃ m', (oneContainerPage "bad" "1" "1" "2" false).handleSubmit.2.doc.get? [0, 0, 0, 0] =
        some m' ∧
      m'.children.drop 6 =
        [msgEmail, msgPassword, msgConfirmPassword, msgFullName, msgCheckbox].map
          errorElement := by
  obtain ⟨m', h1, h2⟩ := (displayErrors_order
    ({ (oneContainerPage "bad" "1" "1" "2" false) with
        errors := { email := some msgEmail, password := some msgPassword,
                    confirmPassword := some msgConfirmPassword, checkbox := some msgCheckbox,
                    fullName := some msgFullName } } : FormValidator)
    { email := [0, 0, 0, 0, 0], fullName := [0, 0, 0, 0, 2], password := [0, 0, 0, 0, 3],
      confirmPassword := [0, 0, 0, 0, 4], checkbox := [0, 0, 0, 0, 5] } (by decide)).2.2
    [0, 0, 0, 0] _ (by decide) (by decide) (by decide) (by decide) (by decide) rfl
  refine ⟨m', ?_, ?_⟩
  · rw [← h1]
    rfl
  · rw [h2]
    rfl

end FormValidator

/-! ## The error mapping across events -/

namespace Node

/-- Own data read at any path is the same before and after an element gains a class and a
new last child, as long as the reading ignores classes and gives the default on the new
child. -/
theorem read_update_append {α : Type} (obs : Attrs → α) (z : α) (cls : String) (child : Node)
    (hcls : ∀ (a : Attrs) (l : List String), obs { a with classes := l } = obs a)
    (hchild : ∀ r : Path, (match child.get? r with
      | some e => obs e.attrs
      | none => z) = z)
    (d : Node) (c p : Path) :
    (match (d.update (fun x => addClass cls (appendChild child x)) c).get? p with
      | some e => obs e.attrs
      | none => z) =
    (match d.get? p with
      | some e => obs e.attrs
      | none => z) := by
  induction c generalizing d p with
  | nil =>
    show (match (addClass cls (appendChild child d)).get? p with
      | some e => obs e.attrs
      | none => z) = _
    cases p with
    | nil => exact hcls _ _
    | cons i r =>
      rw [get?_cons, get?_cons]
      show (match ((d.children ++ [child])[i]?).bind (fun x => x.get? r) with
        | some e => obs e.attrs
        | none => z) = _
      by_cases hi : i < d.children.length
      · rw [List.getElem?_append_left hi]
      · have hnone : d.children[i]? = none := List.getElem?_eq_none (Nat.le_of_not_lt hi)
        rw [hnone, List.getElem?_append_right (Nat.le_of_not_lt hi)]
        cases hk : i - d.children.length with
        | zero => exact hchild r
        | succ k => rfl
  | cons j c ih =>
    cases hc : d.children[j]? with
    | none => rw [update_cons_none _ _ _ _ hc]
    | some ch =>
      have hj : j < d.children.length := lt_of_getElem? _ _ _ hc
      rw [update_cons _ d j c ch hc]
      cases p with
      | nil => rfl
      | cons i r =>
        rw [get?_cons, get?_cons, children_mk]
        by_cases hij : j = i
        · subst hij
          rw [List.getElem?_set_self hj, hc]
          exact ih ch r
        · rw [List.getElem?_set_ne hij]

end Node

namespace FormValidator

/-- The element `showFieldError` creates has no children. -/
theorem errorElement_get? (message : String) (r : Path) :
    (errorElement message).get? r = none ∨ (errorElement message).get? r =
      some (errorElement message) := by
  cases r with
  | nil => exact Or.inr rfl
  | cons i r => exact Or.inl rfl

/-- The values and checked states of all elements are the same before and after
`showFieldError`. -/
theorem showFieldError_value (s : FormValidator) (input : Path) (message : String)
    (p : Path) :
    (s.showFieldError input message).value p = s.value p ∧
    (s.showFieldError input message).checked p = s.checked p := by
  cases hc : s.container input with
  | none =>
    have hsame : s.showFieldError input message = s := by
      unfold showFieldError
      simp only [hc]
    rw [hsame]
    exact ⟨rfl, rfl⟩
  | some c =>
    unfold value checked
    rw [showFieldError_doc s input c message hc]
    constructor
    · apply Node.read_update_append (fun a => a.value) [] "has-error" (errorElement message)
        (fun _ _ => rfl)
      intro r
      rcases errorElement_get? message r with h | h
      · simp only [h]
      · simp only [h]
        rfl
    · apply Node.read_update_append (fun a => a.checked) false "has-error"
        (errorElement message) (fun _ _ => rfl)
      intro r
      rcases errorElement_get? message r with h | h
      · simp only [h]
      · simp only [h]
        rfl

/-- A relation between states that holds across every `showFieldError` holds across
`displayErrors`, however it ends. -/
theorem displayErrors_preserves (R : FormValidator → FormValidator → Prop)
    (hrefl : ∀ t, R t t) (htrans : ∀ a b c, R a b → R b c → R a c)
    (hshow : ∀ t i m, R t (t.showFieldError i m)) (s : FormValidator) :
    R s s.displayErrors.2 := by
  have hif : ∀ (t : FormValidator) (i : Option Path) (m : Option String),
      R t (t.showIfError i m).2 := by
    intro t i m
    unfold showIfError
    split
    · split
      · split
        · exact hshow t _ _
        · exact hrefl t
      · exact hrefl t
    · exact hrefl t
  unfold displayErrors
  simp only
  have step : ∀ (t : FormValidator) (i : Option Path) (m : Option String)
      (k : FormValidator → Completion Unit × FormValidator),
      (∀ u, R t u → R s (k u).2) → R s t →
      R s (match t.showIfError i m with
        | (.throw e, u) => (Completion.throw e, u)
        | (.normal _, u) => k u).2 := by
    intro t i m k hk hst
    have he := hif t i m
    generalize t.showIfError i m = r at he
    obtain ⟨c, u⟩ := r
    cases c with
    | throw e => exact htrans _ _ _ hst he
    | normal v => exact hk u he
  apply step _ _ _ _ _ (hrefl s)
  intro u1 h1
  apply step _ _ _ _ _ h1
  intro u2 h2
  apply step _ _ _ _ _ (htrans _ _ _ h1 h2)
  intro u3 h3
  apply step _ _ _ _ _ (htrans _ _ _ (htrans _ _ _ h1 h2) h3)
  intro u4 h4
  exact htrans _ _ _ (htrans _ _ _ (htrans _ _ _ (htrans _ _ _ h1 h2) h3) h4) (hif u4 _ _)

/-- The values and checked states of all elements are the same before and after
`displayErrors`. -/
theorem displayErrors_value (s : FormValidator) (p : Path) :
    s.displayErrors.2.value p = s.value p ∧ s.displayErrors.2.checked p = s.checked p := by
  apply displayErrors_preserves
    (fun a b => b.value p = a.value p ∧ b.checked p = a.checked p)
  · intro t
    exact ⟨rfl, rfl⟩
  · intro a b c hab hbc
    exact ⟨hbc.1.trans hab.1, hbc.2.trans hab.2⟩
  · intro t i m
    exact showFieldError_value t i m p

end FormValidator

namespace FormValidator

/-- The rule outcomes depend on the values and checked states only. -/
theorem failures_congr (a b : FormValidator) (fs : Fields)
    (hv : ∀ p, b.value p = a.value p) (hc : ∀ p, b.checked p = a.checked p) :
    b.failures fs = a.failures fs := by
  unfold failures emailOk passwordOk confirmPasswordOk checkboxOk fullNameOk
  rw [hv fs.email, hv fs.password, hv fs.confirmPassword, hv fs.fullName, hc fs.checkbox]

/-- After `handleSubmit`, with the five inputs present, the error mapping holds exactly the
failures of the values the document then shows. -/
theorem handleSubmit_errors (s s1 : FormValidator) (fs : Fields)
    (h1 : s1 = clearAllErrors { s with effects := s.effects ++ [Effect.preventDefault] })
    (hf : s1.HasFields fs) :
    s.handleSubmit.2.errors = s.handleSubmit.2.failures fs ∧
    (∀ p, s.handleSubmit.2.value p = s1.value p) ∧
    (∀ p, s.handleSubmit.2.checked p = s1.checked p) := by
  have he : s1.errors = Errors.none := by rw [h1]; rfl
  have hv := validateForm_eq s1 fs hf
  rw [he] at hv
  have hs : s.handleSubmit =
      if s1.allOk fs = true then
        submitForm { s1 with errors := s1.failures fs }
      else displayErrors { s1 with errors := s1.failures fs } := by
    unfold handleSubmit
    simp only [← h1, hv]
    rfl
  have key : s.handleSubmit.2.errors = s1.failures fs ∧
      (∀ p, s.handleSubmit.2.value p = s1.value p) ∧
      (∀ p, s.handleSubmit.2.checked p = s1.checked p) := by
    rw [hs]
    by_cases hok : s1.allOk fs = true
    · rw [if_pos hok]
      have hsub : ∀ t : FormValidator, t.submitForm.2.errors = t.errors ∧
          t.submitForm.2.doc = t.doc := by
        intro t
        unfold submitForm
        split
        · exact ⟨rfl, rfl⟩
        · split
          · exact ⟨rfl, rfl⟩
          · split
            · exact ⟨rfl, rfl⟩
            · split
              · exact ⟨rfl, rfl⟩
              · exact ⟨rfl, rfl⟩
      obtain ⟨e1, e2⟩ := hsub { s1 with errors := s1.failures fs }
      refine ⟨e1, ?_, ?_⟩
      · intro p
        unfold value
        rw [e2]
      · intro p
        unfold checked
        rw [e2]
    · rw [if_neg hok]
      refine ⟨displayErrors_errors _, ?_, ?_⟩
      · intro p
        exact (displayErrors_value _ p).1
      · intro p
        exact (displayErrors_value _ p).2
  obtain ⟨k1, k2, k3⟩ := key
  exact ⟨by rw [k1, failures_congr s1 _ fs k2 k3], k2, k3⟩

/-- An event other than a submit leaves the error mapping as it is. -/
theorem step_errors (s : FormValidator) (e : Event) (he : e ≠ Event.submit) :
    (s.step e).errors = s.errors := by
  have hrebind : ∀ (b : FormValidator) (i : Path) (t : FormValidator),
      (rebind b i t).errors = t.errors := by
    intro b i t
    unfold rebind
    split <;> rfl
  cases e with
  | submit => exact absurd rfl he
  | blur i =>
    show (rebind s i (s.validateField i).2).errors = s.errors
    rw [hrebind, validateField_errors]
  | input i =>
    show (rebind s i (s.clearFieldError i)).errors = s.errors
    rw [hrebind, (clearFieldError_frame s i).1]
  | edit i v => rfl
  | check i b => rfl

/-- C11, the failing instance: on the example page a submit with an invalid email records
the email entry; the user then types a valid address (edit, input event) and leaves the
field (blur). The annotation is gone and the value passes the rule, yet the entry is still
in the error mapping. -/
theorem errors_invariant_counterexample :
    ((examplePage "bad-email" "" "" "secret1" "secret1" true).run
      [Event.submit, Event.edit exampleFields.email (lit "user@site.ru"),
       Event.input exampleFields.email, Event.blur exampleFields.email]).HasFields
      exampleFields ∧
    ((examplePage "bad-email" "" "" "secret1" "secret1" true).run
      [Event.submit, Event.edit exampleFields.email (lit "user@site.ru"),
       Event.input exampleFields.email, Event.blur exampleFields.email]).errors.email =
      some msgEmail ∧
    ((examplePage "bad-email" "" "" "secret1" "secret1" true).run
      [Event.submit, Event.edit exampleFields.email (lit "user@site.ru"),
       Event.input exampleFields.email, Event.blur exampleFields.email]).emailOk
      exampleFields = true ∧
    ((examplePage "bad-email" "" "" "secret1" "secret1" true).run
      [Event.submit, Event.edit exampleFields.email (lit "user@site.ru"),
       Event.input exampleFields.email, Event.blur exampleFields.email]).annotations
      [0, 0, 0, 0] = 0 := by
  decide

/-- C11 as amended: the error mapping is refreshed by submits only. Right after a submit
(with the five inputs present once the old annotations are cleared) it holds exactly the
failures of the current values, so every role present in it is a role whose current value
fails that role's rule. Blur, input and edit events never change it: through any sequence
of them it stays what the last submit left, so editing or revalidating a field does not
remove its entry. -/
theorem errors_refreshed_by_submit_only (s : FormValidator) :
    (∀ s1 fs,
      s1 = clearAllErrors { s with effects := s.effects ++ [Effect.preventDefault] } →
      s1.HasFields fs →
      (s.step Event.submit).errors = (s.step Event.submit).failures fs) ∧
    (∀ events : List Event, (∀ e ∈ events, e ≠ Event.submit) →
      (s.run events).errors = s.errors) := by
  constructor
  · intro s1 fs h1 hf
    exact (handleSubmit_errors s s1 fs h1 hf).1
  · intro events
    induction events generalizing s with
    | nil => intro _; rfl
    | cons e es ih =>
      intro h
      show ((s.step e).run es).errors = s.errors
      rw [ih (s.step e) (fun x hx => h x (List.mem_cons_of_mem _ hx)),
        step_errors s e (h e (List.mem_cons_self _ _))]

/-- Instances of C11 as amended, on the example page: after the submit the mapping is the
failures of the values shown, and the later edit, input and blur leave it as it was. -/
theorem errors_refreshed_by_submit_only_witness :
    ((examplePage "bad-email" "" "" "secret1" "secret1" true).step Event.submit).errors =
      ((examplePage "bad-email" "" "" "secret1" "secret1" true).step Event.submit).failures
        exampleFields ∧
    (((examplePage "bad-email" "" "" "secret1" "secret1" true).step Event.submit).run
      [Event.edit exampleFields.email (lit "user@site.ru"), Event.input exampleFields.email,
       Event.blur exampleFields.email]).errors =
      ((examplePage "bad-email" "" "" "secret1" "secret1" true).step Event.submit).errors :=
  ⟨(errors_refreshed_by_submit_only
      (examplePage "bad-email" "" "" "secret1" "secret1" true)).1 _ exampleFields rfl
      (by decide),
   (errors_refreshed_by_submit_only
      ((examplePage "bad-email" "" "" "secret1" "secret1" true).step Event.submit)).2 _
      (by decide)⟩

end FormValidator

/-! ## What `clearAllErrors` does to the document -/

theorem contains_classListRemove_ne (classes : List String) (c x : String) (h : x ≠ c) :
    (classListRemove classes c).contains x = classes.contains x := by
  unfold classListRemove
  rw [Bool.eq_iff_iff]
  simp only [List.contains_eq_any_beq, List.any_eq_true, List.mem_filter, bne_iff_ne, ne_eq,
    beq_iff_eq]
  constructor
  · rintro ⟨y, ⟨hy, -⟩, hxy⟩
    exact ⟨y, hy, hxy⟩
  · rintro ⟨y, hy, hxy⟩
    exact ⟨y, ⟨hy, fun hyc => h (hxy.trans hyc)⟩, hxy⟩

theorem classListRemove_classListAdd (classes : List String) (c : String) :
    classListRemove (classListAdd classes c) c = classListRemove classes c := by
  unfold classListAdd classListRemove
  split
  · rfl
  · rw [List.filter_append]
    simp

theorem classListRemove_of_not_contains (classes : List String) (c : String)
    (h : classes.contains c = false) : classListRemove classes c = classes := by
  unfold classListRemove
  rw [List.filter_eq_self]
  intro x hx
  rw [bne_iff_ne]
  intro hxe
  have hcontains : classes.contains c = true := by
    rw [List.contains_eq_any_beq, List.any_eq_true]
    exact ⟨x, hx, by rw [hxe]; exact beq_self_eq_true _⟩
  rw [hcontains] at h
  exact absurd h (by simp)

namespace Node

theorem update_congr (f g : Node → Node) (n : Node) (p : Path) (m : Node)
    (h : n.get? p = some m) (hfg : f m = g m) : n.update f p = n.update g p := by
  induction p generalizing n with
  | nil =>
    simp only [get?, Option.some.injEq] at h
    subst h
    exact hfg
  | cons i p ih =>
    rw [get?_cons] at h
    cases hc : n.children[i]? with
    | none => rw [hc] at h; simp at h
    | some c =>
      rw [hc, Option.some_bind] at h
      rw [update_cons f n i p c hc, update_cons g n i p c hc, ih c h]

theorem update_of_get?_none (f : Node → Node) (n : Node) (p : Path)
    (h : n.get? p = none) : n.update f p = n := by
  induction p generalizing n with
  | nil => simp [get?] at h
  | cons i p ih =>
    rw [get?_cons] at h
    cases hc : n.children[i]? with
    | none => exact update_cons_none f n i p hc
    | some c =>
      rw [hc, Option.some_bind] at h
      rw [update_cons f n i p c hc, ih c h, set_of_getElem? _ _ _ hc]
      exact mk_attrs_children n

theorem removeAll_mk (sel : Node → Bool) (a : Attrs) (cs : List Node) :
    (mk a cs).removeAll sel = mk a (removeAllList sel cs) := by
  rw [removeAll]

theorem removeAllList_nil (sel : Node → Bool) : removeAllList sel [] = [] := by
  rw [removeAllList]

theorem removeAllList_cons (sel : Node → Bool) (c : Node) (cs : List Node) :
    removeAllList sel (c :: cs) =
      if sel c then removeAllList sel cs else c.removeAll sel :: removeAllList sel cs := by
  rw [removeAllList]

theorem forEachMatch_mk (sel : Node → Bool) (f : Attrs → Attrs) (a : Attrs)
    (cs : List Node) : (mk a cs).forEachMatch sel f = mk a (forEachMatchList sel f cs) := by
  rw [forEachMatch]

theorem forEachMatchList_nil (sel : Node → Bool) (f : Attrs → Attrs) :
    forEachMatchList sel f [] = [] := by
  rw [forEachMatchList]

theorem forEachMatchList_cons (sel : Node → Bool) (f : Attrs → Attrs) (c : Node)
    (cs : List Node) :
    forEachMatchList sel f (c :: cs) =
      (if sel c then mk (f (c.forEachMatch sel f).attrs) (c.forEachMatch sel f).children
       else c.forEachMatch sel f) :: forEachMatchList sel f cs := by
  rw [forEachMatchList]

theorem cleared_mk (a : Attrs) (cs : List Node) : (mk a cs).cleared = mk a (clearedList cs) := by
  unfold cleared clearedList
  rw [removeAll_mk, forEachMatch_mk]

theorem cleared_eq (n : Node) : n.cleared = mk n.attrs (clearedList n.children) := by
  cases n
  rw [cleared_mk]
  rfl

theorem clearedList_nil : clearedList [] = [] := by
  unfold clearedList
  rw [removeAllList_nil, forEachMatchList_nil]

theorem clearedList_cons (x : Node) (xs : List Node) :
    clearedList (x :: xs) =
      if hasClass "error-message" x then clearedList xs
      else clearedChild x :: clearedList xs := by
  unfold clearedList
  rw [removeAllList_cons]
  by_cases hx : hasClass "error-message" x = true
  · rw [if_pos hx, if_pos hx]
  · rw [if_neg hx, if_neg hx, forEachMatchList_cons]
    congr 1
    cases x with
    | mk a cs =>
      rw [removeAll_mk, forEachMatch_mk]
      unfold clearedChild clearedList
      have hsel : hasClass "has-error" (mk a (removeAllList (hasClass "error-message") cs)) =
          hasClass "has-error" (mk a cs) := rfl
      rw [hsel]
      by_cases hm : hasClass "has-error" (mk a cs) = true
      · rw [if_pos hm, if_pos hm]
        rfl
      · rw [if_neg hm, if_neg hm]
        rfl

theorem clearedList_append (xs ys : List Node) :
    clearedList (xs ++ ys) = clearedList xs ++ clearedList ys := by
  induction xs with
  | nil => rw [List.nil_append, clearedList_nil, List.nil_append]
  | cons x xs ih =>
    rw [List.cons_append, clearedList_cons, clearedList_cons, ih]
    split
    · rfl
    · rfl

theorem clearedList_set (cs : List Node) (i : Nat) (x y : Node) (h : cs[i]? = some x)
    (h1 : hasClass "error-message" y = hasClass "error-message" x)
    (h2 : clearedChild y = clearedChild x) : clearedList (cs.set i y) = clearedList cs := by
  induction cs generalizing i with
  | nil => simp at h
  | cons c cs ih =>
    cases i with
    | zero =>
      simp only [List.getElem?_cons_zero, Option.some.injEq] at h
      subst h
      rw [List.set_cons_zero, clearedList_cons, clearedList_cons, h1, h2]
    | succ i =>
      simp only [List.getElem?_cons_succ] at h
      rw [List.set_cons_succ, clearedList_cons, clearedList_cons, ih i h]

end Node

namespace Node

/-- Clearing does not see a `showFieldError` made at an element below: the new annotation
is taken out and the marker is stripped. -/
theorem clearedChild_update_show (child : Node)
    (hchild : hasClass "error-message" child = true) (x : Node) (q : Path) (y : Node)
    (h : x.get? q = some y) :
    hasClass "error-message"
        (x.update (fun m => addClass "has-error" (appendChild child m)) q) =
      hasClass "error-message" x ∧
    clearedChild (x.update (fun m => addClass "has-error" (appendChild child m)) q) =
      clearedChild x := by
  induction q generalizing x with
  | nil =>
    have hup : x.update (fun m => addClass "has-error" (appendChild child m)) [] =
        mk { x.attrs with classes := classListAdd x.attrs.classes "has-error" }
          (x.children ++ [child]) := rfl
    rw [hup]
    have hmark : hasClass "has-error"
        (mk { x.attrs with classes := classListAdd x.attrs.classes "has-error" }
          (x.children ++ [child])) = true := mem_classListAdd _ _
    refine ⟨contains_classListAdd x.attrs.classes "has-error" "error-message" (by decide), ?_⟩
    unfold clearedChild
    rw [hmark, if_pos rfl, children_mk, clearedList_append, clearedList_cons, if_pos hchild,
      clearedList_nil, List.append_nil, attrs_mk]
    congr 1
    by_cases hx : hasClass "has-error" x = true
    · rw [if_pos hx]
      unfold stripMarker
      simp only [classListRemove_classListAdd]
    · rw [if_neg hx]
      unfold stripMarker
      simp only [classListRemove_classListAdd]
      have hnot : x.attrs.classes.contains "has-error" = false := by
        simpa [hasClass] using hx
      rw [classListRemove_of_not_contains _ _ hnot]
  | cons i q ih =>
    rw [get?_cons] at h
    cases hc : x.children[i]? with
    | none => rw [hc] at h; simp at h
    | some ch =>
      rw [hc, Option.some_bind] at h
      obtain ⟨h1, h2⟩ := ih ch h
      rw [update_cons _ x i q ch hc]
      refine ⟨rfl, ?_⟩
      unfold clearedChild
      rw [children_mk, attrs_mk, clearedList_set x.children i ch _ hc h1 h2]
      rfl

/-- Clearing the form after a `showFieldError` made strictly below it gives what clearing
the form gave before. -/
theorem cleared_update_show (child : Node) (hchild : hasClass "error-message" child = true)
    (f : Node) (q : Path) (hq : q ≠ []) (y : Node) (h : f.get? q = some y) :
    (f.update (fun m => addClass "has-error" (appendChild child m)) q).cleared = f.cleared := by
  cases q with
  | nil => exact absurd rfl hq
  | cons i q =>
    rw [get?_cons] at h
    cases hc : f.children[i]? with
    | none => rw [hc] at h; simp at h
    | some ch =>
      rw [hc, Option.some_bind] at h
      obtain ⟨h1, h2⟩ := clearedChild_update_show child hchild ch q y h
      rw [update_cons _ f i q ch hc, cleared_mk, cleared_eq f,
        clearedList_set f.children i ch _ hc h1 h2]

theorem attrs_clearedChild (x : Node) :
    hasClass "error-message" (clearedChild x) = hasClass "error-message" x ∧
    hasClass "has-error" (clearedChild x) = false := by
  unfold clearedChild
  by_cases hx : hasClass "has-error" x = true
  · rw [if_pos hx]
    exact ⟨contains_classListRemove_ne x.attrs.classes "has-error" "error-message"
      (by decide), contains_classListRemove x.attrs.classes "has-error"⟩
  · rw [if_neg hx]
    refine ⟨rfl, ?_⟩
    have hnot : x.attrs.classes.contains "has-error" = false := by
      simpa [hasClass] using hx
    exact hnot

mutual
/-- Clearing the children of an element twice is clearing them once. -/
theorem clearedList_children_idem : ∀ (x : Node),
    clearedList (clearedList x.children) = clearedList x.children
  | mk _ cs => clearedList_idem cs
/-- Clearing a list of siblings twice is clearing it once. -/
theorem clearedList_idem : ∀ (cs : List Node), clearedList (clearedList cs) = clearedList cs
  | [] => by rw [clearedList_nil, clearedList_nil]
  | x :: xs => by
    rw [clearedList_cons]
    by_cases hx : hasClass "error-message" x = true
    · rw [if_pos hx]
      exact clearedList_idem xs
    · rw [if_neg hx, clearedList_cons, (attrs_clearedChild x).1, if_neg hx,
        clearedList_idem xs]
      congr 1
      have hm := (attrs_clearedChild x).2
      have hch := clearedList_children_idem x
      unfold clearedChild at hm ⊢
      rw [hm]
      simp only [Bool.false_eq_true, if_false, attrs_mk, children_mk]
      rw [hch]
end

/-- Clearing the form twice is clearing it once. -/
theorem cleared_idem (n : Node) : n.cleared.cleared = n.cleared := by
  rw [cleared_eq n, cleared_mk, clearedList_idem]

theorem noneAlong_nil (sel : Node → Bool) (n : Node) : n.noneAlong sel [] = !sel n := by
  rw [noneAlong]

theorem noneAlong_cons (sel : Node → Bool) (n : Node) (i : Nat) (p : Path) :
    n.noneAlong sel (i :: p) =
      (!sel n &&
        match n.children[i]? with
        | some c => c.noneAlong sel p
        | none => true) := by
  rw [noneAlong]

/-- An update that keeps own data does not change the verdict along the path to it. -/
theorem noneAlong_update (sel : Node → Bool) (hsel : OwnData sel) (f : Node → Node)
    (hf : ∀ x, (f x).attrs = x.attrs) (n : Node) (p : Path) :
    (n.update f p).noneAlong sel p = n.noneAlong sel p := by
  induction p generalizing n with
  | nil =>
    show (f n).noneAlong sel [] = n.noneAlong sel []
    rw [noneAlong_nil, noneAlong_nil, ← mk_attrs_children (f n), hf,
      hsel n.attrs _ n.children, mk_attrs_children]
  | cons i p ih =>
    cases hc : n.children[i]? with
    | none => rw [update_cons_none f n i p hc]
    | some c =>
      have hi : i < n.children.length := lt_of_getElem? _ _ _ hc
      rw [update_cons f n i p c hc, noneAlong_cons, noneAlong_cons, children_mk,
        List.getElem?_set_self hi, hc, hsel n.attrs _ n.children, mk_attrs_children]
      simp only [ih c]

/-- When no element down to `p` matches, what `closest` finds from an element below `p` lies
strictly below `p`. -/
theorem closest_below (sel : Node → Bool) (n : Node) (p r c : Path)
    (hp : n.noneAlong sel p = true) (h : n.closest sel (p ++ r) = some c) :
    ∃ q, q ≠ [] ∧ c = p ++ q := by
  induction p generalizing n c with
  | nil =>
    rw [noneAlong_nil] at hp
    have hs : sel n = false := by simpa using hp
    rw [List.nil_append] at h
    cases r with
    | nil =>
      rw [closest_nil, hs] at h
      simp at h
    | cons i r =>
      obtain ⟨-, ⟨e, he⟩, -⟩ := closest_some sel n _ c h
      rw [get?_cons] at he
      cases hc : n.children[i]? with
      | none => rw [hc] at he; simp at he
      | some ch =>
        rw [hc, Option.some_bind] at he
        rw [closest_cons sel n i r ch e hc he, hs] at h
        cases hq : ch.closest sel r with
        | none => rw [hq] at h; simp at h
        | some q =>
          rw [hq] at h
          simp only [Option.some.injEq] at h
          exact ⟨i :: q, by simp, by rw [← h]; rfl⟩
  | cons i p ih =>
    rw [noneAlong_cons, Bool.and_eq_true] at hp
    obtain ⟨hs', hrest⟩ := hp
    have hs : sel n = false := by simpa using hs'
    rw [List.cons_append] at h
    obtain ⟨-, ⟨e, he⟩, -⟩ := closest_some sel n _ c h
    rw [get?_cons] at he
    cases hc : n.children[i]? with
    | none => rw [hc] at he; simp at he
    | some ch =>
      rw [hc, Option.some_bind] at he
      rw [hc] at hrest
      rw [closest_cons sel n i (p ++ r) ch e hc he, hs] at h
      cases hq : ch.closest sel (p ++ r) with
      | none => rw [hq] at h; simp at h
      | some q =>
        rw [hq] at h
        simp only [Option.some.injEq] at h
        obtain ⟨q', hq', hqq⟩ := ih ch q hrest hq
        exact ⟨q', hq', by rw [← h, hqq]; rfl⟩

end Node

/-! ## Submitting again -/

namespace FormValidator

theorem clearAllErrors_doc (s : FormValidator) :
    s.clearAllErrors.doc = s.doc.update Node.cleared s.form := by
  unfold clearAllErrors
  exact Node.update_update _ _ _ _

/-- What a query of the form finds lies below the form. -/
theorem query_below (s : FormValidator) (sel : Node → Bool) (i : Path)
    (h : s.query sel = some i) : ∃ r, i = s.form ++ r := by
  unfold query Node.querySelector at h
  cases hf : s.doc.get? s.form with
  | none => rw [hf] at h; simp at h
  | some f =>
    rw [hf] at h
    simp only at h
    cases hq : f.find sel with
    | none => rw [hq] at h; simp at h
    | some q =>
      rw [hq] at h
      simp only [Option.some.injEq] at h
      exact ⟨q, h.symm⟩

/-- With no container at or above the form, the container of an element of the form lies
strictly inside the form. -/
theorem container_inside (s : FormValidator) (r c : Path) (hin : s.containersInside = true)
    (h : s.container (s.form ++ r) = some c) : ∃ q, q ≠ [] ∧ c = s.form ++ q := by
  unfold containersInside at hin
  rw [Bool.and_eq_true] at hin
  unfold container at h
  cases h1 : s.doc.closest (hasClass "form_input") (s.form ++ r) with
  | some c1 =>
    rw [h1] at h
    simp only [Option.some.injEq] at h
    subst h
    exact Node.closest_below _ _ _ _ _ hin.1 h1
  | none =>
    rw [h1] at h
    exact Node.closest_below _ _ _ _ _ hin.2 h

/-- A `showFieldError` for an element of the form, when no container is at or above the
form, is undone by clearing the form; and still no container is at or above the form. -/
theorem showFieldError_cleared (s : FormValidator) (r : Path) (message : String)
    (hin : s.containersInside = true) :
    (s.showFieldError (s.form ++ r) message).doc.update Node.cleared s.form =
      s.doc.update Node.cleared s.form ∧
    (s.showFieldError (s.form ++ r) message).containersInside = true := by
  cases hc : s.container (s.form ++ r) with
  | none =>
    have hsame : s.showFieldError (s.form ++ r) message = s := by
      unfold showFieldError
      simp only [hc]
    rw [hsame]
    exact ⟨rfl, hin⟩
  | some c =>
    obtain ⟨q, hq, hcq⟩ := container_inside s r c hin hc
    obtain ⟨-, -, y, hy⟩ := container_some s _ c hc
    subst hcq
    have hdoc := showFieldError_doc s (s.form ++ r) (s.form ++ q) message hc
    rw [Node.update_append] at hdoc
    rw [Node.get?_append] at hy
    cases hf : s.doc.get? s.form with
    | none => rw [hf] at hy; simp at hy
    | some f =>
      rw [hf, Option.some_bind] at hy
      constructor
      · rw [hdoc, Node.update_update]
        apply Node.update_congr _ _ _ _ f hf
        exact Node.cleared_update_show (errorElement message) rfl f q hq y hy
      · have hform : (s.showFieldError (s.form ++ r) message).form = s.form :=
          (showFieldError_frame s _ _).2.2
        have hattrs : ∀ x : Node,
            (x.update (fun m => addClass "has-error" (appendChild (errorElement message) m))
              q).attrs = x.attrs := by
          intro x
          cases q with
          | nil => exact absurd rfl hq
          | cons i q => exact (Node.update_cons_shape _ x i q).1
        unfold containersInside at hin ⊢
        rw [hform, hdoc, Node.noneAlong_update _ (Node.ownData_hasClass _) _ hattrs,
          Node.noneAlong_update _ (Node.ownData_hasClass _) _ hattrs]
        exact hin

/-- A relation between states that holds across every `showFieldError` for an input the
form's queries can find holds across `displayErrors`, however it ends. -/
theorem displayErrors_preserves_queried (s : FormValidator)
    (R : FormValidator → FormValidator → Prop)
    (hrefl : ∀ t, R t t) (htrans : ∀ a b c, R a b → R b c → R a c)
    (hshow : ∀ t sel i m, s.query sel = some i → R t (t.showFieldError i m)) :
    R s s.displayErrors.2 := by
  have hif : ∀ (t : FormValidator) (sel : Node → Bool) (m : Option String),
      R t (t.showIfError (s.query sel) m).2 := by
    intro t sel m
    unfold showIfError
    split
    · split
      · split
        · next i hi => exact hshow t sel i _ hi
        · exact hrefl t
      · exact hrefl t
    · exact hrefl t
  unfold displayErrors
  simp only
  have step : ∀ (t : FormValidator) (sel : Node → Bool) (m : Option String)
      (k : FormValidator → Completion Unit × FormValidator),
      (∀ u, R t u → R s (k u).2) → R s t →
      R s (match t.showIfError (s.query sel) m with
        | (.throw e, u) => (Completion.throw e, u)
        | (.normal _, u) => k u).2 := by
    intro t sel m k hk hst
    have he := hif t sel m
    generalize t.showIfError (s.query sel) m = r at he
    obtain ⟨c, u⟩ := r
    cases c with
    | throw e => exact htrans _ _ _ hst he
    | normal v => exact hk u he
  apply step _ _ _ _ _ (hrefl s)
  intro u1 h1
  apply step _ _ _ _ _ h1
  intro u2 h2
  apply step _ _ _ _ _ (htrans _ _ _ h1 h2)
  intro u3 h3
  apply step _ _ _ _ _ (htrans _ _ _ (htrans _ _ _ h1 h2) h3)
  intro u4 h4
  exact htrans _ _ _ (htrans _ _ _ (htrans _ _ _ (htrans _ _ _ h1 h2) h3) h4) (hif u4 _ _)

/-- With no container at or above the form, clearing the form after `displayErrors` gives
what clearing it before gave; the form reference stays. -/
theorem displayErrors_cleared (s : FormValidator) (hin : s.containersInside = true) :
    s.displayErrors.2.form = s.form ∧
    s.displayErrors.2.doc.update Node.cleared s.form = s.doc.update Node.cleared s.form := by
  have key := displayErrors_preserves_queried s
    (fun a b => a.form = s.form → a.containersInside = true →
      b.form = s.form ∧ b.containersInside = true ∧
      b.doc.update Node.cleared s.form = a.doc.update Node.cleared s.form)
    (fun t hf hi => ⟨hf, hi, rfl⟩)
    (fun a b c hab hbc hf hi => by
      obtain ⟨f1, i1, d1⟩ := hab hf hi
      obtain ⟨f2, i2, d2⟩ := hbc f1 i1
      exact ⟨f2, i2, d2.trans d1⟩)
    (fun t sel i m hq hf hi => by
      obtain ⟨r, hr⟩ := query_below s sel i hq
      subst hr
      have hform : (t.showFieldError (s.form ++ r) m).form = s.form :=
        ((showFieldError_frame t _ _).2.2).trans hf
      rw [← hf]
      rw [← hf] at hform
      obtain ⟨c1, c2⟩ := showFieldError_cleared t r m hi
      exact ⟨hform, c2, c1⟩)
  obtain ⟨k1, -, k3⟩ := key rfl hin
  exact ⟨k1, k3⟩

end FormValidator

namespace FormValidator

/-- No method reads the effects performed so far: `validateForm`. -/
theorem validateForm_effects (x : FormValidator) (e : List Effect) :
    validateForm { x with effects := e } =
      (x.validateForm.1, { x.validateForm.2 with effects := e }) := by
  have hq : ∀ sel, ({ x with effects := e } : FormValidator).query sel = x.query sel :=
    fun _ => rfl
  have hv : ∀ p, ({ x with effects := e } : FormValidator).value p = x.value p :=
    fun _ => rfl
  have hc : ∀ p, ({ x with effects := e } : FormValidator).checked p = x.checked p :=
    fun _ => rfl
  unfold validateForm
  simp only [hq, hv, hc]
  generalize x.query (inputWithPlaceholder phEmail) = q1
  generalize x.query (inputWithPlaceholder phPassword) = q2
  generalize x.query (inputWithPlaceholder phConfirmPassword) = q3
  generalize x.query inputCheckbox = q4
  generalize x.query (inputWithPlaceholder phFullName) = q5
  cases q1 with
  | none => rfl
  | some i1 =>
    cases q2 with
    | none => rfl
    | some i2 =>
      cases q3 with
      | none => rfl
      | some i3 =>
        cases q4 with
        | none => rfl
        | some i4 =>
          cases q5 with
          | none => rfl
          | some i5 => rfl

theorem showIfError_effects (t : FormValidator) (e : List Effect) (i : Option Path)
    (m : Option String) :
    showIfError { t with effects := e } i m =
      ((t.showIfError i m).1, { (t.showIfError i m).2 with effects := e }) := by
  have hshow : ∀ j msg, showFieldError { t with effects := e } j msg =
      { t.showFieldError j msg with effects := e } := by
    intro j msg
    have hcont : ({ t with effects := e } : FormValidator).container j = t.container j := rfl
    unfold showFieldError
    rw [hcont]
    cases t.container j <;> rfl
  unfold showIfError
  cases m with
  | none => rfl
  | some msg =>
    by_cases hne : msg ≠ ""
    · simp only [if_pos hne]
      cases i with
      | none => rfl
      | some j =>
        simp only [hshow]
    · simp only [if_neg hne]

/-- No method reads the effects performed so far: `displayErrors`. -/
theorem displayErrors_effects (x : FormValidator) (e : List Effect) :
    displayErrors { x with effects := e } =
      (x.displayErrors.1, { x.displayErrors.2 with effects := e }) := by
  have hq : ∀ sel, ({ x with effects := e } : FormValidator).query sel = x.query sel :=
    fun _ => rfl
  unfold displayErrors
  simp only [hq]
  generalize x.query (inputWithPlaceholder phEmail) = q1
  generalize x.query (inputWithPlaceholder phPassword) = q2
  generalize x.query (inputWithPlaceholder phConfirmPassword) = q3
  generalize x.query inputCheckbox = q4
  generalize x.query (inputWithPlaceholder phFullName) = q5
  have he : ∀ u : FormValidator, ({ u with effects := e } : FormValidator).errors = u.errors :=
    fun _ => rfl
  rw [showIfError_effects, he]
  rcases x.showIfError q1 x.errors.email with ⟨c1, u1⟩
  cases c1 with
  | throw err => rfl
  | normal v1 =>
    simp only
    rw [showIfError_effects, he]
    rcases u1.showIfError q2 u1.errors.password with ⟨c2, u2⟩
    cases c2 with
    | throw err => rfl
    | normal v2 =>
      simp only
      rw [showIfError_effects, he]
      rcases u2.showIfError q3 u2.errors.confirmPassword with ⟨c3, u3⟩
      cases c3 with
      | throw err => rfl
      | normal v3 =>
        simp only
        rw [showIfError_effects, he]
        rcases u3.showIfError q5 u3.errors.fullName with ⟨c4, u4⟩
        cases c4 with
        | throw err => rfl
        | normal v4 =>
          simp only
          rw [showIfError_effects, he]

/-- The method `submitForm` changes nothing but the effects, and how it ends does not depend
on them. -/
theorem submitForm_effects (x : FormValidator) (e : List Effect) :
    (submitForm { x with effects := e }).1 = x.submitForm.1 ∧
    x.submitForm.2.doc = x.doc ∧ x.submitForm.2.errors = x.errors ∧
    x.submitForm.2.form = x.form := by
  have hq : ∀ sel, ({ x with effects := e } : FormValidator).query sel = x.query sel :=
    fun _ => rfl
  unfold submitForm
  simp only [hq]
  generalize x.query (inputWithPlaceholder phEmail) = q1
  generalize x.query (inputWithPlaceholder phOrganization) = q2
  generalize x.query (inputWithPlaceholder phFullName) = q3
  generalize x.query (inputWithPlaceholder phPassword) = q4
  cases q1 with
  | none => exact ⟨rfl, rfl, rfl, rfl⟩
  | some i1 =>
    cases q2 with
    | none => exact ⟨rfl, rfl, rfl, rfl⟩
    | some i2 =>
      cases q3 with
      | none => exact ⟨rfl, rfl, rfl, rfl⟩
      | some i3 =>
        cases q4 with
        | none => exact ⟨rfl, rfl, rfl, rfl⟩
        | some i4 => exact ⟨rfl, rfl, rfl, rfl⟩

end FormValidator

namespace FormValidator

/-- The method `validateForm` leaves the document and the form reference alone. -/
theorem validateForm_doc (x : FormValidator) :
    x.validateForm.2.doc = x.doc ∧ x.validateForm.2.form = x.form := by
  unfold validateForm
  simp only
  generalize x.query (inputWithPlaceholder phEmail) = q1
  generalize x.query (inputWithPlaceholder phPassword) = q2
  generalize x.query (inputWithPlaceholder phConfirmPassword) = q3
  generalize x.query inputCheckbox = q4
  generalize x.query (inputWithPlaceholder phFullName) = q5
  cases q1 with
  | none => exact ⟨rfl, rfl⟩
  | some i1 =>
    cases q2 with
    | none => exact ⟨rfl, rfl⟩
    | some i2 =>
      cases q3 with
      | none => exact ⟨rfl, rfl⟩
      | some i3 =>
        cases q4 with
        | none => exact ⟨rfl, rfl⟩
        | some i4 =>
          cases q5 with
          | none => exact ⟨rfl, rfl⟩
          | some i5 => exact ⟨rfl, rfl⟩

/-- What `handleSubmit` does after clearing, as a function of the cleared state. -/
theorem handleSubmit_eq (s : FormValidator) :
    s.handleSubmit =
      match (clearAllErrors
        { s with effects := s.effects ++ [Effect.preventDefault] }).validateForm with
      | (.throw e, t) => (.throw e, t)
      | (.normal isValid, t) => if isValid then t.submitForm else t.displayErrors := rfl

theorem cleared_cleared (d : Node) (form : Path) :
    (d.update Node.cleared form).update Node.cleared form = d.update Node.cleared form := by
  rw [Node.update_update]
  have hfun : (fun m : Node => m.cleared.cleared) = Node.cleared :=
    funext Node.cleared_idem
  rw [hfun]

/-- With no container at or above the form, clearing the form after `handleSubmit` gives
what clearing it before gave; the form reference stays. -/
theorem handleSubmit_cleared (s : FormValidator) (hin : s.containersInside = true) :
    s.handleSubmit.2.form = s.form ∧
    s.handleSubmit.2.doc.update Node.cleared s.form = s.doc.update Node.cleared s.form := by
  have hdoc1 : (clearAllErrors
      { s with effects := s.effects ++ [Effect.preventDefault] }).doc =
      s.doc.update Node.cleared s.form := clearAllErrors_doc _
  have hform1 : (clearAllErrors
      { s with effects := s.effects ++ [Effect.preventDefault] }).form = s.form := rfl
  have hin1 : (clearAllErrors
      { s with effects := s.effects ++ [Effect.preventDefault] }).containersInside = true := by
    have hattrs : ∀ x : Node, x.cleared.attrs = x.attrs := by
      intro x
      rw [Node.cleared_eq]
      rfl
    unfold containersInside at hin ⊢
    rw [hform1, hdoc1, Node.noneAlong_update _ (Node.ownData_hasClass _) _ hattrs,
      Node.noneAlong_update _ (Node.ownData_hasClass _) _ hattrs]
    exact hin
  rw [handleSubmit_eq]
  generalize clearAllErrors { s with effects := s.effects ++ [Effect.preventDefault] } = s1
    at hdoc1 hform1 hin1
  obtain ⟨hd2, hf2⟩ := validateForm_doc s1
  generalize s1.validateForm = r at hd2 hf2
  obtain ⟨c, s2⟩ := r
  simp only at hd2 hf2
  have hclean : s2.doc.update Node.cleared s.form = s.doc.update Node.cleared s.form := by
    rw [hd2, hdoc1, cleared_cleared]
  have hform2 : s2.form = s.form := hf2.trans hform1
  cases c with
  | throw e => exact ⟨hform2, hclean⟩
  | normal v =>
    cases v with
    | true =>
      simp only [if_true]
      obtain ⟨-, e2, -, e4⟩ := submitForm_effects s2 s2.effects
      rw [e2, e4]
      exact ⟨hform2, hclean⟩
    | false =>
      simp only [Bool.false_eq_true, if_false]
      have hin2 : s2.containersInside = true := by
        unfold containersInside at hin1 ⊢
        rw [hd2, hf2]
        exact hin1
      obtain ⟨k1, k2⟩ := displayErrors_cleared s2 hin2
      rw [hform2] at k1 k2
      exact ⟨k1, k2.trans hclean⟩

end FormValidator

namespace FormValidator

/-- C16, evaluated where the annotation lands outside the form. On a page where the only
container of the email input (class `form_input`) is the block around the form, with email
`bad-email` and the other fields valid, the annotation of a rejected submit is appended to
that block, beside the form. `clearAllErrors`, which the comments in the source describe as
clearing the previous, all, errors, looks below the form only and leaves that annotation and
the marker in place, while `clearFieldError` on the email input removes both. A second
`handleSubmit` with the same values therefore ends with the same error mapping but with two
annotations where the first left one: the rendered errors accumulate. -/
theorem handleSubmit_twice_accumulates :
    (outerContainerPage "bad-email").form = [0, 0, 0] ∧
    (outerContainerPage "bad-email").container [0, 0, 0, 0] = some [0, 0] ∧
    (outerContainerPage "bad-email").handleSubmit.1 = .normal () ∧
    (outerContainerPage "bad-email").handleSubmit.2.annotationTexts [0, 0] = [msgEmail] ∧
    (outerContainerPage "bad-email").handleSubmit.2.clearAllErrors.annotationTexts [0, 0] =
      [msgEmail] ∧
    (outerContainerPage "bad-email").handleSubmit.2.clearAllErrors.marked [0, 0] = true ∧
    ((outerContainerPage "bad-email").handleSubmit.2.clearFieldError
      [0, 0, 0, 0]).annotationTexts [0, 0] = [] ∧
    ((outerContainerPage "bad-email").handleSubmit.2.clearFieldError
      [0, 0, 0, 0]).marked [0, 0] = false ∧
    (outerContainerPage "bad-email").handleSubmit.2.handleSubmit.1 = .normal () ∧
    (outerContainerPage "bad-email").handleSubmit.2.handleSubmit.2.errors =
      (outerContainerPage "bad-email").handleSubmit.2.errors ∧
    (outerContainerPage "bad-email").handleSubmit.2.handleSubmit.2.annotationTexts [0, 0] =
      [msgEmail, msgEmail] ∧
    (outerContainerPage "bad-email").handleSubmit.2.annotations [0, 0] = 1 ∧
    (outerContainerPage "bad-email").handleSubmit.2.handleSubmit.2.annotations [0, 0] = 2 ∧
    (outerContainerPage "bad-email").handleSubmit.2.handleSubmit.2.doc ≠
      (outerContainerPage "bad-email").handleSubmit.2.doc := by
  refine ⟨by decide, by decide, by decide, by decide, by decide, by decide, by decide,
    by decide, by decide, by decide, by decide, by decide, by decide, ?_⟩
  intro h
  have h2 : (outerContainerPage "bad-email").handleSubmit.2.handleSubmit.2.annotations [0, 0] =
      (outerContainerPage "bad-email").handleSubmit.2.annotations [0, 0] := by
    unfold annotations
    rw [h]
  exact absurd h2 (by decide)

/-- Where submitting twice does leave what submitting once leaves: when neither the form
element nor any of its ancestors is a container (class `form_input` or `b-label`), every
field's container lies inside the form, where `clearAllErrors` clears. For every such
state, whatever annotations it already carries, a second `handleSubmit` with unchanged
values ends as the first did and leaves the same error mapping and the same document
(annotation elements and markers included) as the first; and after a submit that found its
five inputs the error mapping holds exactly the failures of the current values. -/
theorem handleSubmit_twice_inside (s : FormValidator) (hin : s.containersInside = true) :
    s.handleSubmit.2.handleSubmit.1 = s.handleSubmit.1 ∧
    s.handleSubmit.2.handleSubmit.2.errors = s.handleSubmit.2.errors ∧
    s.handleSubmit.2.handleSubmit.2.doc = s.handleSubmit.2.doc ∧
    (∀ s1 fs,
      s1 = clearAllErrors { s with effects := s.effects ++ [Effect.preventDefault] } →
      s1.HasFields fs → s.handleSubmit.2.errors = s.handleSubmit.2.failures fs) := by
  refine ⟨?_, ?_, ?_, fun s1 fs h1 hf => (handleSubmit_errors s s1 fs h1 hf).1⟩
  all_goals
    obtain ⟨hform, hclean⟩ := handleSubmit_cleared s hin
    have hab : clearAllErrors { s.handleSubmit.2 with
          effects := s.handleSubmit.2.effects ++ [Effect.preventDefault] } =
        { clearAllErrors { s with effects := s.effects ++ [Effect.preventDefault] } with
          effects := s.handleSubmit.2.effects ++ [Effect.preventDefault] } := by
      have hd : (clearAllErrors { s.handleSubmit.2 with
          effects := s.handleSubmit.2.effects ++ [Effect.preventDefault] }).doc =
          (clearAllErrors { s with effects := s.effects ++ [Effect.preventDefault] }).doc := by
        rw [clearAllErrors_doc, clearAllErrors_doc]
        show s.handleSubmit.2.doc.update Node.cleared s.handleSubmit.2.form =
          s.doc.update Node.cleared s.form
        rw [hform]
        exact hclean
      have hshape : ∀ x : FormValidator, x.clearAllErrors =
          { doc := x.clearAllErrors.doc, form := x.form, errors := Errors.none,
            effects := x.effects } := fun _ => rfl
      rw [hshape { s.handleSubmit.2 with
          effects := s.handleSubmit.2.effects ++ [Effect.preventDefault] }, hd]
      show _ = ({ doc := _, form := s.form, errors := Errors.none, effects := _ } :
        FormValidator)
      rw [hform]
    have hsecond := handleSubmit_eq s.handleSubmit.2
    rw [hab, validateForm_effects] at hsecond
    have hfirst := handleSubmit_eq s
    generalize (clearAllErrors
      { s with effects := s.effects ++ [Effect.preventDefault] }).validateForm = r
      at hsecond hfirst
    obtain ⟨c, s2⟩ := r
    cases c with
    | throw e =>
      simp only at hsecond hfirst
      rw [hsecond, hfirst]
    | normal v =>
      cases v with
      | true =>
        simp only [if_true] at hsecond hfirst
        obtain ⟨e1, -, -, -⟩ := submitForm_effects s2
          (s.handleSubmit.2.effects ++ [Effect.preventDefault])
        obtain ⟨-, e2, e3, -⟩ := submitForm_effects s2 []
        obtain ⟨-, e5, e6, -⟩ := submitForm_effects
          { s2 with effects := s.handleSubmit.2.effects ++ [Effect.preventDefault] } []
        rw [hsecond]
        first
          | rw [e1, hfirst]
          | (rw [e6]; rw [hfirst, e3])
          | (rw [e5]; rw [hfirst, e2])
      | false =>
        simp only [Bool.false_eq_true, if_false] at hsecond hfirst
        rw [hsecond, displayErrors_effects, hfirst]

/-- On the example page, whose containers lie inside the form and which here also carries
an annotation from before, two rejected submits in a row leave the document and the error
mapping of one, the mapping being the failures of the current values. -/
theorem handleSubmit_twice_inside_example :
    (((examplePage "bad-email" "" "" "12345" "12345" false).showFieldError
      exampleFields.email "old").handleSubmit.2.handleSubmit.2.doc =
      ((examplePage "bad-email" "" "" "12345" "12345" false).showFieldError
      exampleFields.email "old").handleSubmit.2.doc) ∧
    (((examplePage "bad-email" "" "" "12345" "12345" false).showFieldError
      exampleFields.email "old").handleSubmit.2.handleSubmit.2.errors =
      { email := some msgEmail, password := some msgPassword, confirmPassword := none,
        checkbox := some msgCheckbox, fullName := none }) :=
  ⟨(handleSubmit_twice_inside ((examplePage "bad-email" "" "" "12345" "12345" false).showFieldError
      exampleFields.email "old") (by decide)).2.2.1,
   ((handleSubmit_twice_inside ((examplePage "bad-email" "" "" "12345" "12345" false).showFieldError
      exampleFields.email "old") (by decide)).2.1).trans (by decide)⟩

end FormValidator

/-! ## What a rejected submit renders -/

namespace Node

/-- An element that exists still exists after an update that keeps old children in place. -/
theorem get?_update_valid (f : Node → Node)
    (hch : ∀ (m : Node) (i : Nat) (x : Node), m.children[i]? = some x →
      (f m).children[i]? = some x)
    (n : Node) (c j : Path) (e : Node) (h : n.get? j = some e) :
    ∃ e', (n.update f c).get? j = some e' := by
  induction c generalizing n j e with
  | nil =>
    show ∃ e', (f n).get? j = some e'
    cases j with
    | nil => exact ⟨f n, rfl⟩
    | cons i r =>
      rw [get?_cons] at h ⊢
      cases hx : n.children[i]? with
      | none => rw [hx] at h; simp at h
      | some x =>
        rw [hx] at h
        rw [hch n i x hx]
        exact ⟨e, h⟩
  | cons k c ih =>
    cases hc : n.children[k]? with
    | none =>
      rw [update_cons_none f n k c hc]
      exact ⟨e, h⟩
    | some ch =>
      have hk : k < n.children.length := lt_of_getElem? _ _ _ hc
      rw [update_cons f n k c ch hc]
      cases j with
      | nil => exact ⟨_, rfl⟩
      | cons i r =>
        rw [get?_cons] at h ⊢
        rw [children_mk]
        by_cases hki : k = i
        · subst hki
          rw [hc, Option.some_bind] at h
          rw [List.getElem?_set_self hk, Option.some_bind]
          exact ih ch r e h
        · rw [List.getElem?_set_ne hki]
          exact ⟨e, h⟩

/-- An update anywhere that keeps the selector's verdict and the old children in place does
not change what `closest` finds from an existing element. -/
theorem closest_update_any (sel : Node → Bool) (hsel : OwnData sel) (f : Node → Node)
    (hf : ∀ m, sel (f m) = sel m)
    (hch : ∀ (m : Node) (i : Nat) (x : Node), m.children[i]? = some x →
      (f m).children[i]? = some x)
    (n : Node) (c j : Path) (e : Node) (h : n.get? j = some e) :
    (n.update f c).closest sel j = n.closest sel j := by
  induction c generalizing n j e with
  | nil =>
    show (f n).closest sel j = n.closest sel j
    cases j with
    | nil => rw [closest_nil, closest_nil, hf]
    | cons i r =>
      rw [get?_cons] at h
      cases hx : n.children[i]? with
      | none => rw [hx] at h; simp at h
      | some x =>
        rw [hx, Option.some_bind] at h
        rw [closest_cons sel n i r x e hx h, closest_cons sel (f n) i r x e (hch n i x hx) h,
          hf]
  | cons k c ih =>
    cases hc : n.children[k]? with
    | none => rw [update_cons_none f n k c hc]
    | some ch =>
      have hk : k < n.children.length := lt_of_getElem? _ _ _ hc
      rw [update_cons f n k c ch hc]
      cases j with
      | nil =>
        rw [closest_nil, closest_nil, hsel n.attrs _ n.children, mk_attrs_children]
      | cons i r =>
        rw [get?_cons] at h
        cases hx : n.children[i]? with
        | none => rw [hx] at h; simp at h
        | some x =>
          rw [hx, Option.some_bind] at h
          rw [closest_cons sel n i r x e hx h]
          by_cases hki : k = i
          · subst hki
            rw [hc] at hx
            simp only [Option.some.injEq] at hx
            subst hx
            obtain ⟨e', he'⟩ := get?_update_valid f hch ch c r e h
            rw [closest_cons sel _ k r (ch.update f c) e'
              (by rw [children_mk, List.getElem?_set_self hk]) he']
            rw [ih ch r e h, hsel n.attrs _ n.children, mk_attrs_children]
          · rw [closest_cons sel _ i r x e
              (by rw [children_mk, List.getElem?_set_ne hki]; exact hx) h]
            rw [hsel n.attrs _ n.children, mk_attrs_children]

end Node

namespace Node

/-- The update `showFieldError` makes, at any path below an element, changes neither whether
that element is an annotation nor its text. -/
theorem update_show_own (child : Node) (x : Node) (r : Path) :
    hasClass "error-message"
        (x.update (fun m => addClass "has-error" (appendChild child m)) r) =
      hasClass "error-message" x ∧
    (x.update (fun m => addClass "has-error" (appendChild child m)) r).attrs.text =
      x.attrs.text := by
  cases r with
  | nil =>
    exact ⟨contains_classListAdd x.attrs.classes "has-error" "error-message" (by decide), rfl⟩
  | cons i r =>
    have hattrs := (update_cons_shape
      (fun m => addClass "has-error" (appendChild child m)) x i r).1
    constructor
    · show (x.update _ (i :: r)).attrs.classes.contains "error-message" =
        x.attrs.classes.contains "error-message"
      rw [hattrs]
    · rw [hattrs]

theorem texts_set (l : List Node) (i : Nat) (x y : Node) (h : l[i]? = some x)
    (h1 : hasClass "error-message" y = hasClass "error-message" x)
    (h2 : y.attrs.text = x.attrs.text) :
    ((l.set i y).filter (hasClass "error-message")).map (fun e => e.attrs.text) =
      (l.filter (hasClass "error-message")).map (fun e => e.attrs.text) := by
  induction l generalizing i with
  | nil => simp at h
  | cons c cs ih =>
    cases i with
    | zero =>
      simp only [List.getElem?_cons_zero, Option.some.injEq] at h
      subst h
      rw [List.set_cons_zero, List.filter_cons, List.filter_cons, h1]
      by_cases hc : hasClass "error-message" c = true
      · rw [if_pos hc, if_pos hc, List.map_cons, List.map_cons, h2]
      · rw [if_neg hc, if_neg hc]
    | succ i =>
      simp only [List.getElem?_cons_succ] at h
      rw [List.set_cons_succ, List.filter_cons, List.filter_cons]
      by_cases hc : hasClass "error-message" c = true
      · rw [if_pos hc, if_pos hc, List.map_cons, List.map_cons, ih i h]
      · rw [if_neg hc, if_neg hc, ih i h]

/-- Any element of the document after the update `showFieldError` makes at an existing
element: it is still there, a marker it had is still on, and the annotation texts among
its children are still there. -/
theorem get?_update_show (child : Node) (d : Node) (c0 c : Path) (m0 n : Node)
    (h0 : d.get? c0 = some m0) (h : d.get? c = some n) :
    ∃ n', (d.update (fun m => addClass "has-error" (appendChild child m)) c0).get? c =
        some n' ∧
      (hasClass "has-error" n = true → hasClass "has-error" n' = true) ∧
      (∀ x, x ∈ (n.children.filter (hasClass "error-message")).map (fun e => e.attrs.text) →
        x ∈ (n'.children.filter (hasClass "error-message")).map (fun e => e.attrs.text)) := by
  by_cases hp : c0 <+: c
  · obtain ⟨r, hr⟩ := hp
    subst hr
    rw [get?_append, h0, Option.some_bind] at h
    rw [get?_append, get?_update_self _ d c0 m0 h0, Option.some_bind]
    cases r with
    | nil =>
      simp only [get?, Option.some.injEq] at h
      subst h
      refine ⟨_, rfl, fun _ => mem_classListAdd _ _, ?_⟩
      intro x hx
      show x ∈ ((m0.children ++ [child]).filter (hasClass "error-message")).map
        (fun e => e.attrs.text)
      rw [List.filter_append, List.map_append]
      exact List.mem_append_left _ hx
    | cons i r =>
      rw [get?_cons] at h
      cases hx : m0.children[i]? with
      | none => rw [hx] at h; simp at h
      | some x =>
        rw [hx, Option.some_bind] at h
        refine ⟨n, ?_, fun hm => hm, fun _ hx' => hx'⟩
        rw [get?_cons]
        show ((m0.children ++ [child])[i]?).bind (fun y => y.get? r) = some n
        rw [List.getElem?_append_left (lt_of_getElem? _ _ _ hx), hx, Option.some_bind]
        exact h
  · by_cases hq : c <+: c0
    · obtain ⟨r, hr⟩ := hq
      subst hr
      cases r with
      | nil => exact absurd (by simp) hp
      | cons i r =>
        rw [update_append, get?_update_self _ d c n h]
        rw [get?_append, h, Option.some_bind, get?_cons] at h0
        cases hx : n.children[i]? with
        | none => rw [hx] at h0; simp at h0
        | some ch =>
          rw [update_cons _ n i r ch hx]
          refine ⟨_, rfl, fun hm => hm, ?_⟩
          intro x hx'
          rw [children_mk, texts_set n.children i ch _ hx (update_show_own child ch r).1
            (update_show_own child ch r).2]
          exact hx'
    · refine ⟨n, ?_, fun hm => hm, fun _ hx' => hx'⟩
      rw [get?_update_disjoint _ d c0 c hp hq]
      exact h

end Node

namespace FormValidator

theorem extends_refl (t : FormValidator) : Extends t t :=
  ⟨fun _ e h => ⟨⟨e, h⟩, rfl⟩, fun _ h => h, fun _ _ h => h⟩

theorem extends_trans (a b c : FormValidator) (hab : Extends a b) (hbc : Extends b c) :
    Extends a c := by
  obtain ⟨a1, a2, a3⟩ := hab
  obtain ⟨b1, b2, b3⟩ := hbc
  refine ⟨?_, fun p h => b2 p (a2 p h), fun p x h => b3 p x (a3 p x h)⟩
  intro j e h
  obtain ⟨⟨e', he'⟩, hc⟩ := a1 j e h
  obtain ⟨hv, hc'⟩ := b1 j e' he'
  exact ⟨hv, hc'.trans hc⟩

/-- The state after `showFieldError` shows everything the state before showed. -/
theorem showFieldError_extends (t : FormValidator) (i : Path) (message : String) :
    Extends t (t.showFieldError i message) := by
  cases hc : t.container i with
  | none =>
    have hsame : t.showFieldError i message = t := by
      unfold showFieldError
      simp only [hc]
    rw [hsame]
    exact extends_refl t
  | some c0 =>
    obtain ⟨-, -, m0, hm0⟩ := container_some t i c0 hc
    have hdoc := showFieldError_doc t i c0 message hc
    have hch : ∀ (m : Node) (k : Nat) (x : Node), m.children[k]? = some x →
        (addClass "has-error" (appendChild (errorElement message) m)).children[k]? =
          some x := by
      intro m k x hx
      show (m.children ++ [errorElement message])[k]? = some x
      rw [List.getElem?_append_left (Node.lt_of_getElem? _ _ _ hx)]
      exact hx
    refine ⟨?_, ?_, ?_⟩
    · intro j e he
      constructor
      · rw [hdoc]
        exact Node.get?_update_valid
          (fun m => addClass "has-error" (appendChild (errorElement message) m)) hch
          t.doc c0 j e he
      · have key : ∀ x : String, x ≠ "has-error" →
            (t.showFieldError i message).doc.closest (hasClass x) j =
              t.doc.closest (hasClass x) j := by
          intro x hx
          rw [hdoc]
          exact Node.closest_update_any (hasClass x) (Node.ownData_hasClass x)
            (fun m => addClass "has-error" (appendChild (errorElement message) m))
            (fun m => contains_classListAdd m.attrs.classes "has-error" x hx) hch
            t.doc c0 j e he
        unfold container
        rw [key "form_input" (by decide), key "b-label" (by decide)]
    · intro c hmark
      unfold marked at hmark ⊢
      cases hn : t.doc.get? c with
      | none => rw [hn] at hmark; simp at hmark
      | some n =>
        rw [hn] at hmark
        obtain ⟨n', hn', hk, -⟩ := Node.get?_update_show (errorElement message) t.doc c0 c
          m0 n hm0 hn
        rw [hdoc, hn']
        exact hk hmark
    · intro c x hx
      unfold annotationTexts at hx ⊢
      cases hn : t.doc.get? c with
      | none => rw [hn] at hx; simp at hx
      | some n =>
        rw [hn] at hx
        obtain ⟨n', hn', -, hk⟩ := Node.get?_update_show (errorElement message) t.doc c0 c
          m0 n hm0 hn
        rw [hdoc, hn']
        exact hk x hx

/-- Counting annotations across `showFieldError`: one more when the input has a container. -/
theorem showFieldError_count (t : FormValidator) (i : Path) (message : String) :
    (t.showFieldError i message).doc.count (hasClass "error-message") =
      t.doc.count (hasClass "error-message") + (if (t.container i).isSome then 1 else 0) := by
  cases hc : t.container i with
  | none =>
    have hsame : t.showFieldError i message = t := by
      unfold showFieldError
      simp only [hc]
    rw [hsame]
    rfl
  | some c =>
    obtain ⟨-, -, m, hm⟩ := container_some t i c hc
    have hcount := Node.count_update (hasClass "error-message") (Node.ownData_hasClass _)
      (fun x => addClass "has-error" (appendChild (errorElement message) x)) t.doc c m hm
    rw [← showFieldError_doc t i c message hc] at hcount
    simp only at hcount
    have hnew : (addClass "has-error" (appendChild (errorElement message) m)).count
        (hasClass "error-message") = m.count (hasClass "error-message") + 1 := by
      have hsel : hasClass "error-message"
          (addClass "has-error" (appendChild (errorElement message) m)) =
          hasClass "error-message" m :=
        contains_classListAdd m.attrs.classes "has-error" "error-message" (by decide)
      rw [Node.count_eq, Node.count_eq _ m, hsel]
      show _ + Node.countList _ (m.children ++ [errorElement message]) = _
      rw [Node.countList_append, Node.countList_cons, Node.countList_nil, count_errorElement]
      omega
    simp only [Option.isSome_some, if_true]
    omega

/-- What `showFieldError` puts into the container: the marker and the message. -/
theorem showFieldError_shows (t : FormValidator) (i c : Path) (message : String)
    (hc : t.container i = some c) :
    (t.showFieldError i message).marked c = true ∧
    message ∈ (t.showFieldError i message).annotationTexts c := by
  obtain ⟨-, -, m, hm⟩ := container_some t i c hc
  have hget := showFieldError_get t i c message m hc hm
  constructor
  · unfold marked
    rw [hget]
    exact mem_classListAdd _ _
  · unfold annotationTexts
    rw [hget]
    simp only [Node.children_mk, List.filter_append, List.map_append, List.mem_append]
    right
    have herr : hasClass "error-message" (errorElement message) = true := rfl
    rw [List.filter_cons, if_pos herr]
    exact List.mem_cons_self _ _

end FormValidator

/-! ## The statements of `displayErrors` on the failures -/

namespace FormValidator

/-- What a query of the form finds is an element of the document. -/
theorem query_valid (s : FormValidator) (sel : Node → Bool) (i : Path)
    (h : s.query sel = some i) : ∃ e, s.doc.get? i = some e := by
  unfold query Node.querySelector at h
  cases hf : s.doc.get? s.form with
  | none => rw [hf] at h; simp at h
  | some f =>
    rw [hf] at h
    simp only at h
    cases hq : f.find sel with
    | none => rw [hq] at h; simp at h
    | some q =>
      rw [hq] at h
      simp only [Option.some.injEq] at h
      subst h
      obtain ⟨-, m, hm, -⟩ := Node.find_some sel f q hq
      refine ⟨m, ?_⟩
      rw [Node.get?_append, hf, Option.some_bind]
      exact hm

theorem renderIf_frame (t : FormValidator) (ok : Bool) (i : Path) (m : String) :
    (t.renderIf ok i m).errors = t.errors ∧ (t.renderIf ok i m).effects = t.effects ∧
    (t.renderIf ok i m).form = t.form := by
  cases ok
  · exact showFieldError_frame t i m
  · exact ⟨rfl, rfl, rfl⟩

theorem renderIf_extends (t : FormValidator) (ok : Bool) (i : Path) (m : String) :
    Extends t (t.renderIf ok i m) := by
  cases ok
  · exact showFieldError_extends t i m
  · exact extends_refl t

theorem renderIf_count (t : FormValidator) (ok : Bool) (i : Path) (m : String) :
    (t.renderIf ok i m).doc.count (hasClass "error-message") =
      t.doc.count (hasClass "error-message") + rendered t ok i := by
  cases ok
  · exact showFieldError_count t i m
  · rfl

theorem renderIf_shows (t : FormValidator) (i c : Path) (m : String)
    (hc : t.container i = some c) :
    (t.renderIf false i m).marked c = true ∧ m ∈ (t.renderIf false i m).annotationTexts c :=
  showFieldError_shows t i c m hc

/-- A later state shows for a rule what the earlier state would. -/
theorem rendered_of_extends (a b : FormValidator) (h : Extends a b) (ok : Bool) (i : Path)
    (e : Node) (hi : a.doc.get? i = some e) : rendered b ok i = rendered a ok i := by
  unfold rendered
  rw [(h.1 i e hi).2]

/-- One statement of `displayErrors` on the entry a rule left in an empty mapping. -/
theorem showIfError_entry (t : FormValidator) (ok : Bool) (i : Path) (m : String)
    (hm : m ≠ "") :
    t.showIfError (some i) (entry ok none m) = (.normal (), t.renderIf ok i m) := by
  cases ok
  · show t.showIfError (some i) (some m) = _
    unfold showIfError
    exact if_pos hm
  · rfl

/-- With its five inputs present and the mapping holding the entries of five rule outcomes,
`displayErrors` is its five statements in the order email, password, confirmation, full
name, checkbox. -/
theorem displayErrors_renderIf (s : FormValidator) (fs : Fields) (hf : s.HasFields fs)
    (o1 o2 o3 o4 o5 : Bool)
    (he : s.errors =
      { email := entry o1 none msgEmail, password := entry o2 none msgPassword,
        confirmPassword := entry o3 none msgConfirmPassword,
        checkbox := entry o4 none msgCheckbox, fullName := entry o5 none msgFullName }) :
    s.displayErrors = (.normal (),
      ((((s.renderIf o1 fs.email msgEmail).renderIf o2 fs.password msgPassword).renderIf o3
        fs.confirmPassword msgConfirmPassword).renderIf o5 fs.fullName msgFullName).renderIf
        o4 fs.checkbox msgCheckbox) := by
  obtain ⟨h1, h2, h3, h4, h5⟩ := hf
  have e1 : s.errors.email = entry o1 none msgEmail := by rw [he]
  have e2 : s.errors.password = entry o2 none msgPassword := by rw [he]
  have e3 : s.errors.confirmPassword = entry o3 none msgConfirmPassword := by rw [he]
  have e4 : s.errors.checkbox = entry o4 none msgCheckbox := by rw [he]
  have e5 : s.errors.fullName = entry o5 none msgFullName := by rw [he]
  unfold displayErrors
  simp only [h1, h2, h3, h4, h5]
  rw [e1, showIfError_entry s o1 fs.email msgEmail (by decide)]
  simp only
  rw [(renderIf_frame s o1 fs.email msgEmail).1, e2,
    showIfError_entry _ o2 fs.password msgPassword (by decide)]
  simp only
  rw [(renderIf_frame _ o2 fs.password msgPassword).1,
    (renderIf_frame s o1 fs.email msgEmail).1, e3,
    showIfError_entry _ o3 fs.confirmPassword msgConfirmPassword (by decide)]
  simp only
  rw [(renderIf_frame _ o3 fs.confirmPassword msgConfirmPassword).1,
    (renderIf_frame _ o2 fs.password msgPassword).1,
    (renderIf_frame s o1 fs.email msgEmail).1, e5,
    showIfError_entry _ o5 fs.fullName msgFullName (by decide)]
  simp only
  rw [(renderIf_frame _ o5 fs.fullName msgFullName).1,
    (renderIf_frame _ o3 fs.confirmPassword msgConfirmPassword).1,
    (renderIf_frame _ o2 fs.password msgPassword).1,
    (renderIf_frame s o1 fs.email msgEmail).1, e4,
    showIfError_entry _ o4 fs.checkbox msgCheckbox (by decide)]

/-- Five statements of `displayErrors` in a row, on inputs that exist: the annotations they
add are counted by `rendered` on the state before, and what each failed rule shows in the
container of its input is still shown at the end. -/
theorem renderIf_chain (t : FormValidator) (o1 o2 o3 o4 o5 : Bool) (i1 i2 i3 i4 i5 : Path)
    (m1 m2 m3 m4 m5 : String)
    (v1 : ∃ e, t.doc.get? i1 = some e) (v2 : ∃ e, t.doc.get? i2 = some e)
    (v3 : ∃ e, t.doc.get? i3 = some e) (v4 : ∃ e, t.doc.get? i4 = some e)
    (v5 : ∃ e, t.doc.get? i5 = some e)
    (r : FormValidator)
    (hr : r = ((((t.renderIf o1 i1 m1).renderIf o2 i2 m2).renderIf o3 i3 m3).renderIf
      o4 i4 m4).renderIf o5 i5 m5) :
    r.doc.count (hasClass "error-message") =
      t.doc.count (hasClass "error-message") + rendered t o1 i1 + rendered t o2 i2 +
        rendered t o3 i3 + rendered t o4 i4 + rendered t o5 i5 ∧
    (o1 = false → ∀ c, t.container i1 = some c →
      r.marked c = true ∧ m1 ∈ r.annotationTexts c) ∧
    (o2 = false → ∀ c, t.container i2 = some c →
      r.marked c = true ∧ m2 ∈ r.annotationTexts c) ∧
    (o3 = false → ∀ c, t.container i3 = some c →
      r.marked c = true ∧ m3 ∈ r.annotationTexts c) ∧
    (o4 = false → ∀ c, t.container i4 = some c →
      r.marked c = true ∧ m4 ∈ r.annotationTexts c) ∧
    (o5 = false → ∀ c, t.container i5 = some c →
      r.marked c = true ∧ m5 ∈ r.annotationTexts c) := by
  obtain ⟨x1, v1⟩ := v1
  obtain ⟨x2, v2⟩ := v2
  obtain ⟨x3, v3⟩ := v3
  obtain ⟨x4, v4⟩ := v4
  obtain ⟨x5, v5⟩ := v5
  have a1 := renderIf_extends t o1 i1 m1
  have a2 := renderIf_extends (t.renderIf o1 i1 m1) o2 i2 m2
  have a3 := renderIf_extends ((t.renderIf o1 i1 m1).renderIf o2 i2 m2) o3 i3 m3
  have a4 := renderIf_extends (((t.renderIf o1 i1 m1).renderIf o2 i2 m2).renderIf o3 i3 m3)
    o4 i4 m4
  have a5 := renderIf_extends
    ((((t.renderIf o1 i1 m1).renderIf o2 i2 m2).renderIf o3 i3 m3).renderIf o4 i4 m4)
    o5 i5 m5
  rw [← hr] at a5
  have b2 := extends_trans _ _ _ a1 a2
  have b3 := extends_trans _ _ _ b2 a3
  have b4 := extends_trans _ _ _ b3 a4
  have c4 := a5
  have c3 := extends_trans _ _ _ a4 c4
  have c2 := extends_trans _ _ _ a3 c3
  have c1 := extends_trans _ _ _ a2 c2
  refine ⟨?_, ?_, ?_, ?_, ?_, ?_⟩
  · rw [hr, renderIf_count, renderIf_count, renderIf_count, renderIf_count, renderIf_count,
      rendered_of_extends _ _ a1 o2 i2 x2 v2, rendered_of_extends _ _ b2 o3 i3 x3 v3,
      rendered_of_extends _ _ b3 o4 i4 x4 v4, rendered_of_extends _ _ b4 o5 i5 x5 v5]
  · intro ho c hc
    subst ho
    obtain ⟨p, q⟩ := renderIf_shows t i1 c m1 hc
    exact ⟨c1.2.1 c p, c1.2.2 c m1 q⟩
  · intro ho c hc
    subst ho
    obtain ⟨p, q⟩ := renderIf_shows _ i2 c m2 (((a1.1 i2 x2 v2).2).trans hc)
    exact ⟨c2.2.1 c p, c2.2.2 c m2 q⟩
  · intro ho c hc
    subst ho
    obtain ⟨p, q⟩ := renderIf_shows _ i3 c m3 (((b2.1 i3 x3 v3).2).trans hc)
    exact ⟨c3.2.1 c p, c3.2.2 c m3 q⟩
  · intro ho c hc
    subst ho
    obtain ⟨p, q⟩ := renderIf_shows _ i4 c m4 (((b3.1 i4 x4 v4).2).trans hc)
    exact ⟨c4.2.1 c p, c4.2.2 c m4 q⟩
  · intro ho c hc
    subst ho
    obtain ⟨p, q⟩ := renderIf_shows _ i5 c m5 (((b4.1 i5 x5 v5).2).trans hc)
    rw [hr]
    exact ⟨p, q⟩

/-- Without one of the five inputs it reads, `validateForm` throws and leaves the document
and the effects as they were. -/
theorem validateForm_throws (s : FormValidator)
    (h : s.query (inputWithPlaceholder phEmail) = none ∨
      s.query (inputWithPlaceholder phFullName) = none ∨
      s.query (inputWithPlaceholder phPassword) = none ∨
      s.query (inputWithPlaceholder phConfirmPassword) = none ∨
      s.query inputCheckbox = none) :
    ∃ t, s.validateForm = (.throw typeError, t) ∧ t.doc = s.doc ∧ t.effects = s.effects := by
  unfold validateForm
  simp only
  generalize s.query (inputWithPlaceholder phEmail) = q1 at h ⊢
  generalize s.query (inputWithPlaceholder phPassword) = q2 at h ⊢
  generalize s.query (inputWithPlaceholder phConfirmPassword) = q3 at h ⊢
  generalize s.query inputCheckbox = q4 at h ⊢
  generalize s.query (inputWithPlaceholder phFullName) = q5 at h ⊢
  cases q1 with
  | none => exact ⟨_, rfl, rfl, rfl⟩
  | some i1 =>
    cases q2 with
    | none => exact ⟨_, rfl, rfl, rfl⟩
    | some i2 =>
      cases q3 with
      | none => exact ⟨_, rfl, rfl, rfl⟩
      | some i3 =>
        cases q4 with
        | none => exact ⟨_, rfl, rfl, rfl⟩
        | some i4 =>
          cases q5 with
          | none => exact ⟨_, rfl, rfl, rfl⟩
          | some i5 => simp at h

end FormValidator

/-! ## Submission -/

namespace FormValidator

/-- C2, the failing instance: the scenario of the claim (email `user@site.ru`, password and
confirmation `secret1`, consent given, full name empty) on a page without the organization
input. The five inputs `validateForm` reads are there and all five rules pass, yet
`handleSubmit` neither submits nor renders: `submitForm` throws a `TypeError` when it reads
the organization, before the record is logged and the acknowledgement is shown; the only
effect is the cancelled default action and the document is unchanged. -/
theorem handleSubmit_gates_counterexample :
    (noOrganizationPage "user@site.ru" "" "secret1" "secret1" true).HasFields
      noOrganizationFields ∧
    (noOrganizationPage "user@site.ru" "" "secret1" "secret1" true).query
      (inputWithPlaceholder phOrganization) = none ∧
    (noOrganizationPage "user@site.ru" "" "secret1" "secret1" true).allOk
      noOrganizationFields = true ∧
    (noOrganizationPage "user@site.ru" "" "secret1" "secret1" true).validateForm.1 =
      .normal true ∧
    (noOrganizationPage "user@site.ru" "" "secret1" "secret1" true).handleSubmit.1 =
      .throw typeError ∧
    (noOrganizationPage "user@site.ru" "" "secret1" "secret1" true).handleSubmit.2.effects =
      [Effect.preventDefault] ∧
    (noOrganizationPage "user@site.ru" "" "secret1" "secret1" true).handleSubmit.2.doc =
      (noOrganizationPage "user@site.ru" "" "secret1" "secret1" true).doc :=
  ⟨by decide, by decide, by decide, by decide, by decide, by decide, rfl⟩

/-- C2 as amended: `handleSubmit` gates submission on validity, and whether it completes
depends on the inputs being there. Let `s1` be the state after the default action is
cancelled and the old annotations are cleared.

With the five validated inputs present and all five rules passing on the values of `s1`,
the call is exactly `submitForm` on `s1`: when the organization input is present it logs
the collected record and shows the acknowledgement, and the document stays as cleared
(nothing is rendered); when the organization input is absent it throws a `TypeError` and
leaves `s1` as it is (nothing submitted, nothing rendered).

With the five validated inputs present and some rule failing, the call returns normally
and is the five statements of `displayErrors` (email, password, confirmation, full name,
checkbox) run on `s1` carrying the failures: the error mapping holds those failures, no
submission effect is performed, the document gains exactly one annotation element for every
failed rule whose input has a container, and each such container carries the marker and an
annotation with the rule's message.

With one of the five validated inputs absent the call throws a `TypeError` out of
`validateForm`: nothing is submitted and nothing is rendered. -/
theorem handleSubmit_gates (s s1 : FormValidator)
    (h1 : s1 = clearAllErrors { s with effects := s.effects ++ [Effect.preventDefault] }) :
    (∀ fs, s1.HasFields fs →
      (s1.allOk fs = true →
        s.handleSubmit = s1.submitForm ∧
        (∀ org, s1.query (inputWithPlaceholder phOrganization) = some org →
          s.handleSubmit = (.normal (), { s1 with effects := s.effects ++
            [Effect.preventDefault,
             Effect.consoleLog "Данные формы:"
               { email := trim (s1.value fs.email), organization := trim (s1.value org),
                 fullName := trim (s1.value fs.fullName), password := s1.value fs.password },
             Effect.alert "Форма успешно отправлена!"] })) ∧
        (s1.query (inputWithPlaceholder phOrganization) = none →
          s.handleSubmit = (.throw typeError, s1))) ∧
      (s1.allOk fs = false →
        s.handleSubmit = (.normal (),
          ((((renderIf { s1 with errors := s1.failures fs }
            (s1.emailOk fs) fs.email msgEmail).renderIf
            (s1.passwordOk fs) fs.password msgPassword).renderIf
            (s1.confirmPasswordOk fs) fs.confirmPassword msgConfirmPassword).renderIf
            (s1.fullNameOk fs) fs.fullName msgFullName).renderIf
            (s1.checkboxOk fs) fs.checkbox msgCheckbox) ∧
        s.handleSubmit.2.errors = s1.failures fs ∧
        s.handleSubmit.2.effects = s.effects ++ [Effect.preventDefault] ∧
        s.handleSubmit.2.doc.count (hasClass "error-message") =
          s1.doc.count (hasClass "error-message") +
            rendered s1 (s1.emailOk fs) fs.email +
            rendered s1 (s1.passwordOk fs) fs.password +
            rendered s1 (s1.confirmPasswordOk fs) fs.confirmPassword +
            rendered s1 (s1.fullNameOk fs) fs.fullName +
            rendered s1 (s1.checkboxOk fs) fs.checkbox ∧
        (s1.emailOk fs = false → ∀ c, s1.container fs.email = some c →
          s.handleSubmit.2.marked c = true ∧
          msgEmail ∈ s.handleSubmit.2.annotationTexts c) ∧
        (s1.passwordOk fs = false → ∀ c, s1.container fs.password = some c →
          s.handleSubmit.2.marked c = true ∧
          msgPassword ∈ s.handleSubmit.2.annotationTexts c) ∧
        (s1.confirmPasswordOk fs = false → ∀ c, s1.container fs.confirmPassword = some c →
          s.handleSubmit.2.marked c = true ∧
          msgConfirmPassword ∈ s.handleSubmit.2.annotationTexts c) ∧
        (s1.fullNameOk fs = false → ∀ c, s1.container fs.fullName = some c →
          s.handleSubmit.2.marked c = true ∧
          msgFullName ∈ s.handleSubmit.2.annotationTexts c) ∧
        (s1.checkboxOk fs = false → ∀ c, s1.container fs.checkbox = some c →
          s.handleSubmit.2.marked c = true ∧
          msgCheckbox ∈ s.handleSubmit.2.annotationTexts c))) ∧
    (s1.query (inputWithPlaceholder phEmail) = none ∨
      s1.query (inputWithPlaceholder phFullName) = none ∨
      s1.query (inputWithPlaceholder phPassword) = none ∨
      s1.query (inputWithPlaceholder phConfirmPassword) = none ∨
      s1.query inputCheckbox = none →
      s.handleSubmit.1 = .throw typeError ∧
      s.handleSubmit.2.doc = s1.doc ∧
      s.handleSubmit.2.effects = s.effects ++ [Effect.preventDefault]) := by
  have he : s1.errors = Errors.none := by rw [h1]; rfl
  have hef : s1.effects = s.effects ++ [Effect.preventDefault] := by rw [h1]; rfl
  constructor
  · intro fs hf
    have hv := validateForm_eq s1 fs hf
    rw [he] at hv
    have hs : s.handleSubmit =
        if s1.allOk fs = true then
          submitForm { s1 with errors := s1.failures fs }
        else displayErrors { s1 with errors := s1.failures fs } := by
      unfold handleSubmit
      simp only [← h1, hv]
      rfl
    constructor
    · intro hok
      have hfail : s1.failures fs = Errors.none := by
        unfold allOk at hok
        simp only [Bool.and_eq_true] at hok
        obtain ⟨⟨⟨⟨a, b⟩, c⟩, d⟩, e⟩ := hok
        simp [failures, entry, a, b, c, d, e, Errors.none]
      have hsame : ({ s1 with errors := s1.failures fs } : FormValidator) = s1 := by
        rw [hfail, ← he]
      rw [hs, if_pos hok, hsame]
      obtain ⟨q1, q2, q3, q4, q5⟩ := hf
      refine ⟨rfl, ?_, ?_⟩
      · intro org ho
        unfold submitForm
        simp only [q1, q2, q3, ho, hef, List.append_assoc, List.singleton_append]
      · intro ho
        unfold submitForm
        simp only [q1, ho]
    · intro hbad
      have hf' : HasFields { s1 with errors := s1.failures fs } fs := hf
      have hd := displayErrors_renderIf { s1 with errors := s1.failures fs } fs hf'
        (s1.emailOk fs) (s1.passwordOk fs) (s1.confirmPasswordOk fs) (s1.checkboxOk fs)
        (s1.fullNameOk fs) rfl
      have hall : s.handleSubmit = (.normal (),
          ((((renderIf { s1 with errors := s1.failures fs }
            (s1.emailOk fs) fs.email msgEmail).renderIf
            (s1.passwordOk fs) fs.password msgPassword).renderIf
            (s1.confirmPasswordOk fs) fs.confirmPassword msgConfirmPassword).renderIf
            (s1.fullNameOk fs) fs.fullName msgFullName).renderIf
            (s1.checkboxOk fs) fs.checkbox msgCheckbox) := by
        rw [hs, if_neg (by simp [hbad]), hd]
      obtain ⟨q1, q2, q3, q4, q5⟩ := hf
      obtain ⟨k0, k1, k2, k3, k4, k5⟩ := renderIf_chain
        { s1 with errors := s1.failures fs }
        (s1.emailOk fs) (s1.passwordOk fs) (s1.confirmPasswordOk fs) (s1.fullNameOk fs)
        (s1.checkboxOk fs) fs.email fs.password fs.confirmPassword fs.fullName fs.checkbox
        msgEmail msgPassword msgConfirmPassword msgFullName msgCheckbox
        (query_valid s1 _ _ q1) (query_valid s1 _ _ q3) (query_valid s1 _ _ q4)
        (query_valid s1 _ _ q2) (query_valid s1 _ _ q5) _ rfl
      rw [hall]
      refine ⟨rfl, ?_, ?_, k0, k1, k2, k3, k4, k5⟩
      · show (renderIf _ _ _ _).errors = _
        rw [(renderIf_frame _ _ _ _).1, (renderIf_frame _ _ _ _).1,
          (renderIf_frame _ _ _ _).1, (renderIf_frame _ _ _ _).1, (renderIf_frame _ _ _ _).1]
      · show (renderIf _ _ _ _).effects = _
        rw [(renderIf_frame _ _ _ _).2.1, (renderIf_frame _ _ _ _).2.1,
          (renderIf_frame _ _ _ _).2.1, (renderIf_frame _ _ _ _).2.1,
          (renderIf_frame _ _ _ _).2.1]
        exact hef
  · intro hmiss
    obtain ⟨t, ht, hdoc, heff⟩ := validateForm_throws s1 hmiss
    have hs : s.handleSubmit = (.throw typeError, t) := by
      unfold handleSubmit
      simp only [← h1, ht]
    rw [hs]
    exact ⟨rfl, hdoc, heff.trans hef⟩

/-- Instances of C2 as amended on the example page. With email `user@site.ru`, password and
confirmation `secret1`, consent given and the full name empty the form is accepted and the
trimmed record is submitted; with email `bad-email`, password and confirmation `12345` and
no consent nothing is submitted, three annotations are rendered, and the container of the
email input carries the marker and the email message. -/
theorem handleSubmit_gates_witness :
    (examplePage "user@site.ru" "" "" "secret1" "secret1" true).handleSubmit.2.effects =
      [Effect.preventDefault,
       Effect.consoleLog "Данные формы:"
         { email := lit "user@site.ru", organization := [], fullName := [],
           password := lit "secret1" },
       Effect.alert "Форма успешно отправлена!"] ∧
    (examplePage "bad-email" "" "" "12345" "12345" false).handleSubmit.2.effects =
      [Effect.preventDefault] ∧
    (examplePage "bad-email" "" "" "12345" "12345" false).handleSubmit.2.doc.count
      (hasClass "error-message") = 3 ∧
    (examplePage "bad-email" "" "" "12345" "12345" false).handleSubmit.2.marked
      [0, 0, 0, 0] = true ∧
    msgEmail ∈ (examplePage "bad-email" "" "" "12345" "12345" false).handleSubmit.2.annotationTexts
      [0, 0, 0, 0] :=
  ⟨(congrArg (fun r => r.2.effects)
      ((((handleSubmit_gates (examplePage "user@site.ru" "" "" "secret1" "secret1" true) _
        rfl).1 exampleFields (by decide)).1 (by decide)).2.1 [0, 0, 0, 1, 0]
        (by decide))).trans (by decide),
   (((handleSubmit_gates (examplePage "bad-email" "" "" "12345" "12345" false) _
        rfl).1 exampleFields (by decide)).2 (by decide)).2.2.1,
   ((((handleSubmit_gates (examplePage "bad-email" "" "" "12345" "12345" false) _
        rfl).1 exampleFields (by decide)).2 (by decide)).2.2.2.1).trans (by decide),
   ((((handleSubmit_gates (examplePage "bad-email" "" "" "12345" "12345" false) _
        rfl).1 exampleFields (by decide)).2 (by decide)).2.2.2.2.1 (by decide)
        [0, 0, 0, 0] (by decide)).1,
   ((((handleSubmit_gates (examplePage "bad-email" "" "" "12345" "12345" false) _
        rfl).1 exampleFields (by decide)).2 (by decide)).2.2.2.2.1 (by decide)
        [0, 0, 0, 0] (by decide)).2⟩

end FormValidator

end SancosLk
